import Mathlib

/-!
# Popcop bootloader endpoint (kocherga_popcop.hpp)

A shallow embedding of `kocherga_popcop::PopcopProtocol`.

The endpoint is a single-threaded object with three mutable members
(`download_sink_`, `download_image_reached_`, `upgrade_status_code_`) that talks to
external collaborators through virtual calls: the bootloader controller `blc_`, the
platform `platform_`, the download sink, and the Popcop library (frame parser and
message decoders).

* Every call that crosses the boundary of the object is recorded, in order, in a
  history (`PopcopProtocol.log`).  The history is a ghost member: it is written only by
  `record` and read only by the collaborators.
* Every collaborator is a function of the history so far (`Collaborators`).  Any
  deterministic collaborator is of this form, so a theorem quantified over
  `Collaborators` holds for all of them.
* `assert` records a failed assertion and carries on (the behaviour of a build with
  `NDEBUG`); an execution of a build with assertions enabled is the part of the history
  before the first `Event.assertionFailed`.
* Blocking calls (`upgradeApp`, `downloadImage`, `run`) carry a step budget; when it is
  exhausted the call is cut short and yields `Outcome.running` with the endpoint as it
  is at that moment, so that every finite part of an endless execution is covered.
* Bytes, sizes, offsets and timestamps are `Nat`, the signed 16-bit results are `Int`;
  narrowing conversions are written with an explicit modulus.
* An execution is also described step by step (`Step`, `Reaches`): every point at which
  `run` returns or is cut is reached by steps, so a property kept by every step holds
  throughout every execution.
* The block-transfer engine (kocherga_ymodem.hpp) is not among the sources: the control
  characters and the first block are those of test_ymodem.cpp, the engine is a state
  machine over received bytes and timeouts.
-/

namespace kocherga_popcop

/-! ## Data model -/

/-- The controller states, `kocherga::State`, as switched over in
`sendBootloaderStatusResponse`. -/
inductive State where
  | NoAppToBoot
  | BootDelay
  | BootCancelled
  | AppUpgradeInProgress
  | ReadyToBoot
  deriving DecidableEq, Repr

/-- The protocol states, `popcop::standard::BootloaderState`. -/
inductive BootloaderState where
  | NoAppToBoot
  | BootDelay
  | BootCancelled
  | AppUpgradeInProgress
  | ReadyToBoot
  deriving DecidableEq, Repr

/-- The image types, `popcop::standard::BootloaderImageType`. -/
inductive BootloaderImageType where
  | Application
  | CertificateOfAuthenticity
  deriving DecidableEq, Repr

/-- The device management commands, `popcop::standard::DeviceManagementCommand`: the one
the endpoint handles itself, and all the others by their code. -/
inductive DeviceManagementCommand where
  | LaunchBootloader
  | other (code : Nat)
  deriving DecidableEq, Repr

/-- The status of a device management response,
`DeviceManagementCommandResponseMessage::Status`. -/
inductive Status where
  | Ok
  | other (code : Nat)
  deriving DecidableEq, Repr

/-- The mode of a node, `NodeInfoMessage::Mode`. -/
inductive Mode where
  | Normal
  | Bootloader
  deriving DecidableEq, Repr

/-- The software version record, `NodeInfoMessage::SoftwareVersion`; its default value is
the blank record. -/
structure SoftwareVersion where
  major : Nat := 0
  minor : Nat := 0
  vcs_commit_id : Nat := 0
  image_crc : Option Nat := none
  release_build : Bool := false
  dirty_build : Bool := false
  build_timestamp_utc : Nat := 0
  deriving DecidableEq, Repr

/-- The node info message, `popcop::standard::NodeInfoMessage`: the two members the
endpoint writes, and all the other members (`identity`). -/
structure NodeInfoMessage where
  software_version : SoftwareVersion := {}
  mode : Mode := Mode.Normal
  identity : List Nat := []
  deriving DecidableEq, Repr

/-- The application descriptor, `kocherga::AppInfo`, with the results of its three
predicates. -/
structure AppInfo where
  major_version : Nat
  minor_version : Nat
  vcs_commit : Nat
  image_crc : Nat
  build_timestamp_utc : Nat
  isReleaseBuild : Bool
  isDirtyBuild : Bool
  isBuildTimestampValid : Bool
  deriving DecidableEq, Repr

/-- The request `popcop::standard::DeviceManagementCommandRequestMessage`. -/
structure DeviceManagementCommandRequestMessage where
  command : DeviceManagementCommand
  deriving DecidableEq, Repr

/-- The response `popcop::standard::DeviceManagementCommandResponseMessage`. -/
structure DeviceManagementCommandResponseMessage where
  command : DeviceManagementCommand
  status : Status
  deriving DecidableEq, Repr

/-- The request `popcop::standard::BootloaderStatusRequestMessage`. -/
structure BootloaderStatusRequestMessage where
  desired_state : BootloaderState
  deriving DecidableEq, Repr

/-- The response `popcop::standard::BootloaderStatusResponseMessage`. -/
structure BootloaderStatusResponseMessage where
  timestamp : Nat
  state : BootloaderState
  deriving DecidableEq, Repr

/-- The request `popcop::standard::BootloaderImageDataRequestMessage`. -/
structure BootloaderImageDataRequestMessage where
  image_offset : Nat
  image_type : BootloaderImageType
  image_data : List Nat
  deriving DecidableEq, Repr

/-- The response `popcop::standard::BootloaderImageDataResponseMessage`. -/
structure BootloaderImageDataResponseMessage where
  image_offset : Nat
  image_type : BootloaderImageType
  image_data : List Nat
  deriving DecidableEq, Repr

/-- A received frame, `popcop::transport::ParserOutput::Frame`. -/
structure Frame where
  type_code : Nat
  payload : List Nat
  deriving DecidableEq, Repr

/-- What the parser yields for one byte, `popcop::transport::ParserOutput`. -/
inductive ParserOutput where
  | receivedFrame (frame : Frame)
  | extraneousData (data : List Nat)
  | nothing
  deriving DecidableEq, Repr

/-- The messages the endpoint sends. -/
inductive Message where
  | nodeInfo (m : NodeInfoMessage)
  | deviceManagementCommandResponse (m : DeviceManagementCommandResponseMessage)
  | bootloaderStatusResponse (m : BootloaderStatusResponseMessage)
  | bootloaderImageDataResponse (m : BootloaderImageDataResponseMessage)
  deriving DecidableEq, Repr

/-- The assertions of the endpoint: the five of `sendBootloaderStatusResponse` (one per
case of its switch) and the three at the entry of `downloadImage`. -/
inductive Assertion where
  | statusNoAppToBoot
  | statusBootDelay
  | statusBootCancelled
  | statusAppUpgradeInProgress
  | statusReadyToBoot
  | downloadNotReached
  | downloadSinkNull
  | downloadStatusZero
  deriving DecidableEq, Repr

/-- One interaction of the endpoint with a collaborator.  The download sinks are named by
a number (the address the pointer holds). -/
inductive Event where
  | send (m : Message)
  | cancelBoot
  | requestBoot
  | upgradeAppBegin
  | upgradeAppEnd
  | downloadImageBegin (sink : Nat)
  | downloadImageEnd (code : Int)
  | handleNextDataChunk (sink : Nat) (data : List Nat) (size : Nat) (result : Int)
  | writeAndReadBackCertificateOfAuthenticity (in_data : List Nat) (length : Nat)
      (result : Int) (out_data : List Nat)
  | processUnhandledDeviceManagementCommand (req : DeviceManagementCommandRequestMessage)
      (status : Status)
  | processUnhandledFrame (frame : Frame)
  | processExtraneousData (data : List Nat)
  | resetWatchdog
  | receive (res : Option Nat)
  | shouldExit (res : Bool)
  | assertionFailed (a : Assertion)
  deriving DecidableEq, Repr

/-- The collaborators of the endpoint, each a function of the history of interactions. -/
structure Collaborators where
  /-- The state `blc_.getState()` reports. -/
  getState : List Event → State
  /-- The uptime `blc_.getMonotonicUptime()` reports. -/
  getMonotonicUptime : List Event → Nat
  /-- The application `blc_.getAppInfo()` reports, if one is installed. -/
  getAppInfo : List Event → Option AppInfo
  /-- What the controller does next inside `upgradeApp`: call `downloadImage` on the given
  sink, or return. -/
  upgradeAppCallsDownloadImage : List Event → Option Nat
  /-- The result of `handleNextDataChunk(data, size)` on the given sink. -/
  handleNextDataChunk : List Event → Nat → List Nat → Nat → Int
  /-- The byte `platform_.receive()` yields, if any. -/
  receive : List Event → Option Nat
  /-- The status `platform_.processUnhandledDeviceManagementCommand(req)` returns. -/
  processUnhandledDeviceManagementCommand :
    List Event → DeviceManagementCommandRequestMessage → Status
  /-- The result of `platform_.writeAndReadBackCertificateOfAuthenticity(in_data, out_data,
  length)` and the contents it leaves in the output buffer, whose contents before the call
  are the second argument. -/
  writeAndReadBackCertificateOfAuthenticity :
    List Event → List Nat → List Nat → Nat → Int × List Nat
  /-- The answer of `platform_.shouldExit()`. -/
  shouldExit : List Event → Bool
  /-- The constant `popcop::presentation::StandardFrameTypeCode`. -/
  StandardFrameTypeCode : Nat
  /-- The capacity `max_size()` of the `image_data` member of the image data messages. -/
  ImageDataMaxSize : Nat
  /-- What `resize(n)` makes of the contents of a vector when `n` exceeds its capacity
  (senoval/vector.hpp is not among the sources). -/
  resizeBeyondCapacity : Nat → List Nat → List Nat
  /-- The output of `parser_.processNextByte(byte)`. -/
  processNextByte : List Event → Nat → ParserOutput
  /-- Whether `NodeInfoMessage::tryDecode` accepts a payload. -/
  tryDecodeNodeInfoMessage : List Nat → Bool
  /-- The result of `DeviceManagementCommandRequestMessage::tryDecode`. -/
  tryDecodeDeviceManagementCommandRequestMessage :
    List Nat → Option DeviceManagementCommandRequestMessage
  /-- The result of `BootloaderStatusRequestMessage::tryDecode`. -/
  tryDecodeBootloaderStatusRequestMessage : List Nat → Option BootloaderStatusRequestMessage
  /-- The result of `BootloaderImageDataRequestMessage::tryDecode`. -/
  tryDecodeBootloaderImageDataRequestMessage :
    List Nat → Option BootloaderImageDataRequestMessage

/-- The constant `IPopcopPlatform::CertificateOfAuthenticityMaxLength`. -/
def CertificateOfAuthenticityMaxLength : Nat := 255

/-- The mutable members of `PopcopProtocol`, and the history of its interactions. -/
structure PopcopProtocol where
  node_info_prototype_ : NodeInfoMessage := {}
  download_sink_ : Option Nat := none
  download_image_reached_ : Bool := false
  upgrade_status_code_ : Int := 0
  log : List Event := []
  deriving DecidableEq, Repr

/-- The outcome of a call that may block: it returned, or it was still running when the
step budget ran out; in both cases with the endpoint as it was at that moment. -/
inductive Outcome (α : Type) where
  | returned (a : α)
  | running (p : PopcopProtocol)
  deriving DecidableEq, Repr

/-! ## Operations -/

/-- Appends one interaction to the history. -/
def record (e : Event) (p : PopcopProtocol) : PopcopProtocol :=
  { p with log := p.log ++ [e] }

/-- The C `assert`: a failed assertion is recorded. -/
def assert (cond : Bool) (a : Assertion) (p : PopcopProtocol) : PopcopProtocol :=
  if cond then p else record (Event.assertionFailed a) p

/-- The method `send`: the frame of the message is emitted through `platform_.emit`. -/
def send (m : Message) (p : PopcopProtocol) : PopcopProtocol :=
  record (Event.send m) p

/-- The vector operation `resize(n)` for `n` within the capacity of the vector: truncates,
or pads with zero bytes. -/
def resize (n : Nat) (v : List Nat) : List Nat :=
  v.take n ++ List.replicate (n - v.length) 0

/-- The vector operation `resize(n)` on the `image_data` member of a response, a vector of
fixed capacity `max_size()`: within the capacity it truncates or pads; beyond it the result
is what the vector library leaves, which in any case holds no more than the capacity. -/
def vectorResize (env : Collaborators) (n : Nat) (v : List Nat) : List Nat :=
  if n ≤ env.ImageDataMaxSize then resize n v
  else (env.resizeBeyondCapacity n v).take env.ImageDataMaxSize

/-- The method `processNodeInfoRequest`. -/
def processNodeInfoRequest (env : Collaborators) (p : PopcopProtocol) : PopcopProtocol :=
  let m := p.node_info_prototype_
  match env.getAppInfo p.log with
  | some ai =>
    let sw : SoftwareVersion :=
      { major := ai.major_version
        minor := ai.minor_version
        vcs_commit_id := ai.vcs_commit
        image_crc := some ai.image_crc
        release_build := ai.isReleaseBuild
        dirty_build := ai.isDirtyBuild
        build_timestamp_utc := if ai.isBuildTimestampValid then ai.build_timestamp_utc else 0 }
    send (Message.nodeInfo { m with software_version := sw }) p
  | none => send (Message.nodeInfo m) p

/-- The method `processDeviceManagementCommandRequest`. -/
def processDeviceManagementCommandRequest (env : Collaborators)
    (req : DeviceManagementCommandRequestMessage) (p : PopcopProtocol) : PopcopProtocol :=
  if req.command = DeviceManagementCommand.LaunchBootloader then
    send (Message.deviceManagementCommandResponse
      { command := req.command, status := Status.Ok }) p
  else
    let status := env.processUnhandledDeviceManagementCommand p.log req
    let p := record (Event.processUnhandledDeviceManagementCommand req status) p
    send (Message.deviceManagementCommandResponse
      { command := req.command, status := status }) p

/-- The method `sendBootloaderStatusResponse`. -/
def sendBootloaderStatusResponse (env : Collaborators) (p : PopcopProtocol) :
    PopcopProtocol :=
  let timestamp := env.getMonotonicUptime p.log
  match env.getState p.log with
  | State.NoAppToBoot =>
    let p := assert (p.download_sink_ == none) Assertion.statusNoAppToBoot p
    send (Message.bootloaderStatusResponse
      { timestamp := timestamp, state := BootloaderState.NoAppToBoot }) p
  | State.BootDelay =>
    let p := assert (p.download_sink_ == none) Assertion.statusBootDelay p
    send (Message.bootloaderStatusResponse
      { timestamp := timestamp, state := BootloaderState.BootDelay }) p
  | State.BootCancelled =>
    let p := assert (p.download_sink_ == none) Assertion.statusBootCancelled p
    send (Message.bootloaderStatusResponse
      { timestamp := timestamp, state := BootloaderState.BootCancelled }) p
  | State.AppUpgradeInProgress =>
    let p := assert (p.download_sink_ != none) Assertion.statusAppUpgradeInProgress p
    send (Message.bootloaderStatusResponse
      { timestamp := timestamp, state := BootloaderState.AppUpgradeInProgress }) p
  | State.ReadyToBoot =>
    let p := assert (p.download_sink_ == none) Assertion.statusReadyToBoot p
    send (Message.bootloaderStatusResponse
      { timestamp := timestamp, state := BootloaderState.ReadyToBoot }) p

/-- The method `processBootloaderStatusRequest`; `upgradeApp` is the blocking call
`blc_.upgradeApp(*this)`. -/
def processBootloaderStatusRequest (env : Collaborators)
    (upgradeApp : PopcopProtocol → Outcome PopcopProtocol)
    (req : BootloaderStatusRequestMessage) (p : PopcopProtocol) : Outcome PopcopProtocol :=
  match req.desired_state with
  | BootloaderState.BootCancelled =>
    let p := record Event.cancelBoot p
    Outcome.returned (sendBootloaderStatusResponse env p)
  | BootloaderState.AppUpgradeInProgress =>
    if p.download_sink_ == none then
      let p := { p with download_image_reached_ := false }
      let p := { p with upgrade_status_code_ := 0 }
      match upgradeApp p with
      | Outcome.running p => Outcome.running p
      | Outcome.returned p =>
        if !p.download_image_reached_ then
          Outcome.returned (sendBootloaderStatusResponse env p)
        else
          Outcome.returned p
    else
      Outcome.returned (sendBootloaderStatusResponse env p)
  | BootloaderState.ReadyToBoot =>
    let p := record Event.requestBoot p
    Outcome.returned (sendBootloaderStatusResponse env p)
  | BootloaderState.NoAppToBoot => Outcome.returned p
  | BootloaderState.BootDelay => Outcome.returned p

/-- The body of `case BootloaderImageType::Application` in
`processBootloaderImageDataRequest`. -/
def caseApplication (env : Collaborators) (req : BootloaderImageDataRequestMessage)
    (s : PopcopProtocol × BootloaderImageDataResponseMessage) :
    PopcopProtocol × BootloaderImageDataResponseMessage :=
  let (p, resp) := s
  match p.download_sink_ with
  | some sink =>
    let (p, resp) :=
      if !req.image_data.isEmpty then
        let size := req.image_data.length % 65536
        let result := env.handleNextDataChunk p.log sink req.image_data size
        let p := record (Event.handleNextDataChunk sink req.image_data size result) p
        if result ≥ 0 then
          ({ p with upgrade_status_code_ := 0 }, { resp with image_data := req.image_data })
        else
          ({ p with upgrade_status_code_ := result }, resp)
      else
        (p, resp)
    if req.image_data.length < env.ImageDataMaxSize then
      ({ p with download_sink_ := none }, resp)
    else
      (p, resp)
  | none => (p, resp)

/-- The body of `case BootloaderImageType::CertificateOfAuthenticity` in
`processBootloaderImageDataRequest`. -/
def caseCertificateOfAuthenticity (env : Collaborators)
    (req : BootloaderImageDataRequestMessage)
    (s : PopcopProtocol × BootloaderImageDataResponseMessage) :
    PopcopProtocol × BootloaderImageDataResponseMessage :=
  let (p, resp) := s
  if req.image_offset == 0 ∧ req.image_data.length < CertificateOfAuthenticityMaxLength then
    let buffer := resize env.ImageDataMaxSize resp.image_data
    let length := req.image_data.length % 256
    let (result, written) :=
      env.writeAndReadBackCertificateOfAuthenticity p.log req.image_data buffer length
    let buffer := resize buffer.length written
    let p := record
      (Event.writeAndReadBackCertificateOfAuthenticity req.image_data length result buffer) p
    if result ≥ 0 then
      (p, { resp with image_data := vectorResize env result.toNat buffer })
    else
      (p, { resp with image_data := [] })
  else
    (p, resp)

/-- The method `processBootloaderImageDataRequest`.  The Application case has no `break`
and runs on into the CertificateOfAuthenticity case. -/
def processBootloaderImageDataRequest (env : Collaborators)
    (req : BootloaderImageDataRequestMessage) (p : PopcopProtocol) : PopcopProtocol :=
  let resp : BootloaderImageDataResponseMessage :=
    { image_offset := req.image_offset, image_type := req.image_type, image_data := [] }
  let (p, resp) :=
    match req.image_type with
    | BootloaderImageType.Application =>
      caseCertificateOfAuthenticity env req (caseApplication env req (p, resp))
    | BootloaderImageType.CertificateOfAuthenticity =>
      caseCertificateOfAuthenticity env req (p, resp)
  send (Message.bootloaderImageDataResponse resp) p

/-- The method `processFrame`. -/
def processFrame (env : Collaborators)
    (upgradeApp : PopcopProtocol → Outcome PopcopProtocol)
    (frame : Frame) (p : PopcopProtocol) : Outcome PopcopProtocol :=
  if frame.type_code = env.StandardFrameTypeCode then
    let payload := frame.payload
    if env.tryDecodeNodeInfoMessage payload then
      Outcome.returned (processNodeInfoRequest env p)
    else
      match env.tryDecodeDeviceManagementCommandRequestMessage payload with
      | some dmcr => Outcome.returned (processDeviceManagementCommandRequest env dmcr p)
      | none =>
        match env.tryDecodeBootloaderStatusRequestMessage payload with
        | some bsr => processBootloaderStatusRequest env upgradeApp bsr p
        | none =>
          match env.tryDecodeBootloaderImageDataRequestMessage payload with
          | some bidr => Outcome.returned (processBootloaderImageDataRequest env bidr p)
          | none => Outcome.returned (record (Event.processUnhandledFrame frame) p)
  else
    Outcome.returned (record (Event.processUnhandledFrame frame) p)

/-- The method `processByte`. -/
def processByte (env : Collaborators)
    (upgradeApp : PopcopProtocol → Outcome PopcopProtocol)
    (byte : Nat) (p : PopcopProtocol) : Outcome PopcopProtocol :=
  match env.processNextByte p.log byte with
  | ParserOutput.receivedFrame frame =>
    let p := record Event.resetWatchdog p
    match processFrame env upgradeApp frame p with
    | Outcome.running p => Outcome.running p
    | Outcome.returned p => Outcome.returned (record Event.resetWatchdog p)
  | ParserOutput.extraneousData ed =>
    let p := record Event.resetWatchdog p
    let p := record (Event.processExtraneousData ed) p
    Outcome.returned (record Event.resetWatchdog p)
  | ParserOutput.nothing => Outcome.returned p

/-- The method `loopOnce`. -/
def loopOnce (env : Collaborators)
    (upgradeApp : PopcopProtocol → Outcome PopcopProtocol)
    (p : PopcopProtocol) : Outcome PopcopProtocol :=
  let p := record Event.resetWatchdog p
  let res := env.receive p.log
  let p := record (Event.receive res) p
  match res with
  | some byte => processByte env upgradeApp byte p
  | none => Outcome.returned p

/-- The `while` loop of `downloadImage`, for at most `fuel` evaluations of its
condition. -/
def downloadImageLoop (env : Collaborators)
    (upgradeApp : PopcopProtocol → Outcome PopcopProtocol) :
    Nat → PopcopProtocol → Outcome PopcopProtocol
  | 0, p => Outcome.running p
  | fuel + 1, p =>
    let exit := env.shouldExit p.log
    let p := record (Event.shouldExit exit) p
    if !exit ∧ p.download_sink_ ≠ none ∧ p.upgrade_status_code_ ≥ 0 then
      match loopOnce env upgradeApp p with
      | Outcome.running p => Outcome.running p
      | Outcome.returned p => downloadImageLoop env upgradeApp fuel p
    else
      Outcome.returned p

/-- The entry of `downloadImage`, up to its loop: the three assertions, the binding of the
sink, the reached flag and the status reply. -/
def downloadImageEntry (env : Collaborators) (sink : Nat) (p : PopcopProtocol) :
    PopcopProtocol :=
  let p := record (Event.downloadImageBegin sink) p
  let p := assert (!p.download_image_reached_) Assertion.downloadNotReached p
  let p := assert (p.download_sink_ == none) Assertion.downloadSinkNull p
  let p := assert (p.upgrade_status_code_ == 0) Assertion.downloadStatusZero p
  let p := { p with download_sink_ := some sink }
  let p := { p with download_image_reached_ := true }
  sendBootloaderStatusResponse env p

/-- The method `downloadImage`: the value returned and the endpoint afterwards. -/
def downloadImage (env : Collaborators)
    (upgradeApp : PopcopProtocol → Outcome PopcopProtocol) (fuel : Nat) (sink : Nat)
    (p : PopcopProtocol) : Outcome (Int × PopcopProtocol) :=
  let p := downloadImageEntry env sink p
  match downloadImageLoop env upgradeApp fuel p with
  | Outcome.running p => Outcome.running p
  | Outcome.returned p =>
    let p := { p with download_sink_ := none }
    Outcome.returned
      (p.upgrade_status_code_, record (Event.downloadImageEnd p.upgrade_status_code_) p)

/-- Modelled from the spec: the body of `BootloaderController::upgradeApp` (file
kocherga.hpp), "a blocking runUpgrade(session) entry point that this core's UpgradeSession
is invoked through".  The controller decides, from the history, whether to call
`downloadImage` (again) or to return; nothing else of it is visible to the endpoint. -/
def upgradeAppBody (env : Collaborators)
    (downloadImage : Nat → PopcopProtocol → Outcome (Int × PopcopProtocol)) :
    Nat → PopcopProtocol → Outcome PopcopProtocol
  | 0, p => Outcome.running p
  | fuel + 1, p =>
    match env.upgradeAppCallsDownloadImage p.log with
    | none => Outcome.returned (record Event.upgradeAppEnd p)
    | some sink =>
      match downloadImage sink p with
      | Outcome.running p => Outcome.running p
      | Outcome.returned (_, p) => upgradeAppBody env downloadImage fuel p

/-- The call `blc_.upgradeApp(*this)`, whose `downloadImage` is the endpoint's own; `fuel`
bounds the depth of nesting, the calls of `downloadImage` and the iterations of each of
its loops. -/
def upgradeApp (env : Collaborators) : Nat → PopcopProtocol → Outcome PopcopProtocol
  | 0, p => Outcome.running p
  | fuel + 1, p =>
    upgradeAppBody env (fun sink q => downloadImage env (upgradeApp env fuel) fuel sink q)
      fuel (record Event.upgradeAppBegin p)

/-- The method `run`, for at most `fuel` evaluations of its loop condition. -/
def run (env : Collaborators) : Nat → PopcopProtocol → Outcome PopcopProtocol
  | 0, p => Outcome.running p
  | fuel + 1, p =>
    let exit := env.shouldExit p.log
    let p := record (Event.shouldExit exit) p
    if !exit then
      match loopOnce env (upgradeApp env fuel) p with
      | Outcome.running p => Outcome.running p
      | Outcome.returned p => run env fuel p
    else
      Outcome.returned p

/-- The static method `prepareNodeInfoMessage`. -/
def prepareNodeInfoMessage (prototype : NodeInfoMessage) : NodeInfoMessage :=
  let prototype := { prototype with software_version := {} }
  { prototype with mode := Mode.Bootloader }

/-- The constructor of `PopcopProtocol`. -/
def PopcopProtocol.new (ni : NodeInfoMessage) : PopcopProtocol :=
  { node_info_prototype_ := prepareNodeInfoMessage ni }

/-! ## Observations on a history -/

/-- The messages sent in a history, in order. -/
def sent : List Event → List Message
  | [] => []
  | Event.send m :: es => m :: sent es
  | _ :: es => sent es

/-- The status responses sent in a history, in order. -/
def statusResponses : List Event → List BootloaderStatusResponseMessage
  | [] => []
  | Event.send (Message.bootloaderStatusResponse m) :: es => m :: statusResponses es
  | _ :: es => statusResponses es

/-- The protocol state that bears the same name as a controller state. -/
def sameNamedState : State → BootloaderState
  | State.NoAppToBoot => BootloaderState.NoAppToBoot
  | State.BootDelay => BootloaderState.BootDelay
  | State.BootCancelled => BootloaderState.BootCancelled
  | State.AppUpgradeInProgress => BootloaderState.AppUpgradeInProgress
  | State.ReadyToBoot => BootloaderState.ReadyToBoot

/-- Whether a call of `upgradeApp` is in progress at the end of a history. -/
def upgradeAppInProgress (log : List Event) : Bool :=
  log.foldl (fun st e =>
    match e with
    | Event.upgradeAppBegin => true
    | Event.upgradeAppEnd => false
    | _ => st) false

/-- Whether `downloadImage` has been called since the last call of `upgradeApp` began. -/
def downloadImageCalled (log : List Event) : Bool :=
  log.foldl (fun st e =>
    match e with
    | Event.upgradeAppBegin => false
    | Event.downloadImageBegin _ => true
    | _ => st) false

/-- The calls that begin or end `upgradeApp` or `downloadImage`. -/
def Event.isSessionCall : Event → Bool
  | Event.upgradeAppBegin => true
  | Event.upgradeAppEnd => true
  | Event.downloadImageBegin _ => true
  | Event.downloadImageEnd _ => true
  | _ => false

/-- A stretch of history in which no call of `upgradeApp` or `downloadImage` begins or
ends. -/
def Quiet (evs : List Event) : Prop :=
  ∀ e ∈ evs, e.isSessionCall = false

/-- A stretch of history in which no assertion failed. -/
def NoAssertionFailed (evs : List Event) : Prop :=
  ∀ a, Event.assertionFailed a ∉ evs

/-- The results of the calls of `handleNextDataChunk` in a history, in order. -/
def chunkResults : List Event → List Int
  | [] => []
  | Event.handleNextDataChunk _ _ _ result :: es => result :: chunkResults es
  | _ :: es => chunkResults es

/-- The controller reports AppUpgradeInProgress exactly while a call of its `upgradeApp`
is in progress. -/
def TracksUpgradeApp (env : Collaborators) : Prop :=
  ∀ log, env.getState log = State.AppUpgradeInProgress ↔ upgradeAppInProgress log = true

/-- The controller calls `downloadImage` at most once per call of `upgradeApp`. -/
def CallsDownloadImageAtMostOnce (env : Collaborators) : Prop :=
  ∀ log, downloadImageCalled log = true → env.upgradeAppCallsDownloadImage log = none

/-- What the dispatch of one frame does to the endpoint `p`, giving `q`, when it makes no
call of `upgradeApp`: the prototype and the reached flag stay, the sink stays or is
cleared, the history grows by events among which no call of `upgradeApp` or
`downloadImage` begins or ends, at most one chunk is handed to the sink and its result
sets the status code, and no assertion fails when the controller's state and the sink
agree. -/
def FrameStep (env : Collaborators) (p q : PopcopProtocol) : Prop :=
  ∃ evs : List Event,
    q.node_info_prototype_ = p.node_info_prototype_ ∧
    q.download_image_reached_ = p.download_image_reached_ ∧
    q.log = p.log ++ evs ∧
    (q.download_sink_ = p.download_sink_ ∨ q.download_sink_ = none) ∧
    Quiet evs ∧
    ((chunkResults evs = [] ∧ q.upgrade_status_code_ = p.upgrade_status_code_) ∨
      ∃ r, chunkResults evs = [r] ∧ q.upgrade_status_code_ = if 0 ≤ r then 0 else r) ∧
    (TracksUpgradeApp env →
      (upgradeAppInProgress p.log = true ↔ p.download_sink_ ≠ none) →
      NoAssertionFailed evs)

/-- What the loop of `downloadImage` has done to the endpoint `p` it started from, giving
`q`: the prototype and the reached flag stay, the sink stays or is cleared, no call of
`upgradeApp` or `downloadImage` begins or ends; when the status code started at 0, either
every chunk so far was accepted and the code is 0, or the last chunk was the only one
rejected and the code is its result; and no assertion fails when the controller reports
AppUpgradeInProgress throughout. -/
def SessionRun (env : Collaborators) (p q : PopcopProtocol) : Prop :=
  ∃ evs : List Event,
    q.node_info_prototype_ = p.node_info_prototype_ ∧
    q.download_image_reached_ = p.download_image_reached_ ∧
    q.log = p.log ++ evs ∧
    (q.download_sink_ = p.download_sink_ ∨ q.download_sink_ = none) ∧
    Quiet evs ∧
    (p.upgrade_status_code_ = 0 →
      ((∀ r ∈ chunkResults evs, 0 ≤ r) ∧ q.upgrade_status_code_ = 0) ∨
      (q.upgrade_status_code_ < 0 ∧
        ∃ init, chunkResults evs = init ++ [q.upgrade_status_code_] ∧ ∀ r ∈ init, 0 ≤ r)) ∧
    (TracksUpgradeApp env → upgradeAppInProgress p.log = true → NoAssertionFailed evs)

/-- The events of one call of `downloadImage` that returned: the call, the assertions that
failed at its entry, the status reply sent on entry, the events of its loop, the return. -/
def IsSession (evs : List Event) : Prop :=
  ∃ (sink : Nat) (fails : List Event) (m : BootloaderStatusResponseMessage)
    (body : List Event) (c : Int),
    evs = [Event.downloadImageBegin sink] ++ fails ++
      [Event.send (Message.bootloaderStatusResponse m)] ++ body ++
      [Event.downloadImageEnd c] ∧
    (∀ e ∈ fails, ∃ a, e = Event.assertionFailed a) ∧
    Quiet body

/-- The endpoint between two sessions: no sink is bound and no call of `upgradeApp` is in
progress. -/
def Idle (p : PopcopProtocol) : Prop :=
  p.download_sink_ = none ∧ upgradeAppInProgress p.log = false

/-- The loop of `downloadImage`, started at `p`, arrives at `q` after `n` evaluations of
its condition. -/
def LoopArrives (env : Collaborators)
    (upgradeApp : PopcopProtocol → Outcome PopcopProtocol) (n : Nat)
    (p q : PopcopProtocol) : Prop :=
  ∀ k, downloadImageLoop env upgradeApp (n + k) p = downloadImageLoop env upgradeApp k q

/-- The endpoint at the moment the frame completed by `byte` is dispatched, in the
iteration of the loop that starts at `p`. -/
def atDispatch (p : PopcopProtocol) (byte : Nat) : PopcopProtocol :=
  record Event.resetWatchdog (record (Event.receive (some byte))
    (record Event.resetWatchdog (record (Event.shouldExit false) p)))

/-- The endpoint at the end of the iteration of the loop that starts at `p` and dispatches
the image data request `req`. -/
def afterImageData (env : Collaborators) (p : PopcopProtocol) (byte : Nat)
    (req : BootloaderImageDataRequestMessage) : PopcopProtocol :=
  record Event.resetWatchdog (processBootloaderImageDataRequest env req (atDispatch p byte))

/-- In the iteration of the loop that starts at `p`, the platform does not ask to exit and
delivers `byte`, which completes a standard frame that decodes as the image data request
`req` and as no request of an earlier kind. -/
def ReceivesImageData (env : Collaborators) (p : PopcopProtocol) (byte : Nat)
    (req : BootloaderImageDataRequestMessage) : Prop :=
  env.shouldExit p.log = false ∧
  env.receive (record Event.resetWatchdog (record (Event.shouldExit false) p)).log =
    some byte ∧
  ∃ frame : Frame,
    env.processNextByte (record (Event.receive (some byte))
      (record Event.resetWatchdog (record (Event.shouldExit false) p))).log byte =
      ParserOutput.receivedFrame frame ∧
    frame.type_code = env.StandardFrameTypeCode ∧
    env.tryDecodeNodeInfoMessage frame.payload = false ∧
    env.tryDecodeDeviceManagementCommandRequestMessage frame.payload = none ∧
    env.tryDecodeBootloaderStatusRequestMessage frame.payload = none ∧
    env.tryDecodeBootloaderImageDataRequestMessage frame.payload = some req

/-- The chunk of `req`, handed to the sink at `p`, is accepted: it is not empty and the
sink returns a non-negative result. -/
def AcceptsChunk (env : Collaborators) (p : PopcopProtocol) (sink : Nat)
    (req : BootloaderImageDataRequestMessage) : Prop :=
  req.image_data ≠ [] ∧
  0 ≤ env.handleNextDataChunk p.log sink req.image_data (req.image_data.length % 65536)

/-- The assertions of `sendBootloaderStatusResponse`, as opposed to the three at the entry
of `downloadImage`. -/
def Assertion.isStatus : Assertion → Bool
  | Assertion.statusNoAppToBoot => true
  | Assertion.statusBootDelay => true
  | Assertion.statusBootCancelled => true
  | Assertion.statusAppUpgradeInProgress => true
  | Assertion.statusReadyToBoot => true
  | Assertion.downloadNotReached => false
  | Assertion.downloadSinkNull => false
  | Assertion.downloadStatusZero => false

/-- Between `p` and `q` no assertion failed but, possibly, assertions of
`sendBootloaderStatusResponse`. -/
def AssertionsFrom (p q : PopcopProtocol) : Prop :=
  ∀ a, Event.assertionFailed a ∈ q.log → Event.assertionFailed a ∈ p.log ∨ a.isStatus = true

/-- One step of the endpoint, from one point of its execution to a later one.  The
executions of `run` are made of these steps (`run_reaches`), so that a property kept by
every step holds at every point an execution of `run` can be cut at. -/
inductive Step (env : Collaborators) : PopcopProtocol → PopcopProtocol → Prop where
  /-- A frame is dispatched without starting a session, or an iteration of a loop passes
  without one: between sessions, or while a sink is bound. -/
  | frame (p q : PopcopProtocol) :
      FrameStep env p q → AssertionsFrom p q → (Idle p ∨ p.download_sink_ ≠ none) →
      Step env p q
  /-- A loop evaluates its condition. -/
  | loopCondition (p : PopcopProtocol) (b : Bool) :
      Step env p (record (Event.shouldExit b) p)
  /-- The handler of a status request resets the reached flag and the status code. -/
  | reset (p : PopcopProtocol) :
      Idle p →
      Step env p { p with download_image_reached_ := false, upgrade_status_code_ := 0 }
  /-- The handler of a status request calls `upgradeApp`. -/
  | beginUpgrade (p : PopcopProtocol) :
      Idle p → p.download_image_reached_ = false → p.upgrade_status_code_ = 0 →
      Step env p (record Event.upgradeAppBegin p)
  /-- The controller calls `downloadImage`, which runs up to its loop. -/
  | enter (p : PopcopProtocol) (sink : Nat) :
      env.upgradeAppCallsDownloadImage p.log = some sink →
      upgradeAppInProgress p.log = true → p.download_sink_ = none →
      Step env p (downloadImageEntry env sink p)
  /-- The loop of `downloadImage` is over and the call returns. -/
  | leave (p : PopcopProtocol) :
      Step env p (record (Event.downloadImageEnd p.upgrade_status_code_)
        { p with download_sink_ := none })
  /-- The controller returns from `upgradeApp`. -/
  | endUpgrade (p : PopcopProtocol) :
      p.download_sink_ = none → Step env p (record Event.upgradeAppEnd p)

/-- The endpoint `q` is reached from `p` by a sequence of steps. -/
def Reaches (env : Collaborators) (p q : PopcopProtocol) : Prop :=
  Relation.ReflTransGen (Step env) p q

/-- What holds at every point reached by steps when the controller calls `downloadImage`
at most once per `upgradeApp`: only the assertions of `sendBootloaderStatusResponse` have
failed, a bound sink means `downloadImage` was called, and during an `upgradeApp` in which
`downloadImage` was not called yet the session state is the one the handler left. -/
def EntryInvariant (p : PopcopProtocol) : Prop :=
  (∀ a, Event.assertionFailed a ∈ p.log → a.isStatus = true) ∧
  (p.download_sink_ ≠ none → downloadImageCalled p.log = true) ∧
  (upgradeAppInProgress p.log = true → downloadImageCalled p.log = false →
    p.download_image_reached_ = false ∧ p.download_sink_ = none ∧
    p.upgrade_status_code_ = 0)

/-- Whether an event is anything but a call of the certificate primitive with a length
argument that differs from the size of the chunk passed or is not below
`CertificateOfAuthenticityMaxLength`. -/
def Event.certificateLengthExact : Event → Bool
  | Event.writeAndReadBackCertificateOfAuthenticity data length _ _ =>
    decide (length = data.length ∧ length < CertificateOfAuthenticityMaxLength)
  | _ => true

/-- In a history, every call of the certificate primitive was made with the true size of
its chunk, below `CertificateOfAuthenticityMaxLength`. -/
def CertificateLengthsExact (log : List Event) : Prop :=
  ∀ e ∈ log, e.certificateLengthExact = true

/-- The endpoint at the end of a call, returned or not. -/
def Outcome.endpoint : Outcome PopcopProtocol → PopcopProtocol
  | Outcome.returned p => p
  | Outcome.running p => p

/-! ## Collaborators for the examples -/

/-- A controller that reports AppUpgradeInProgress exactly during `upgradeApp` and calls
`downloadImage` once per `upgradeApp`, on sink 1; a sink that accepts every chunk; a
platform with the default implementation of the certificate primitive (it returns 0 and
leaves the buffer alone), that receives no byte and asks to exit once the history has ten
entries. -/
def quietCollaborators : Collaborators where
  getState := fun log =>
    if upgradeAppInProgress log then State.AppUpgradeInProgress else State.NoAppToBoot
  getMonotonicUptime := fun log => log.length
  getAppInfo := fun _ => none
  upgradeAppCallsDownloadImage := fun log => if downloadImageCalled log then none else some 1
  handleNextDataChunk := fun _ _ _ _ => 0
  receive := fun _ => none
  processUnhandledDeviceManagementCommand := fun _ _ => Status.other 1
  writeAndReadBackCertificateOfAuthenticity := fun _ _ out_data _ => (0, out_data)
  shouldExit := fun log => decide (10 ≤ log.length)
  StandardFrameTypeCode := 255
  ImageDataMaxSize := 256
  resizeBeyondCapacity := fun _ v => v
  processNextByte := fun _ _ => ParserOutput.nothing
  tryDecodeNodeInfoMessage := fun _ => false
  tryDecodeDeviceManagementCommandRequestMessage := fun _ => none
  tryDecodeBootloaderStatusRequestMessage := fun _ => none
  tryDecodeBootloaderImageDataRequestMessage := fun _ => none

/-- The quiet collaborators with an application installed once the history is not empty:
version 2.5, commit 77, image CRC 4242, a release build, built at 1000 with a timestamp
that is not valid. -/
def installedCollaborators : Collaborators :=
  { quietCollaborators with
    getAppInfo := fun log =>
      if log.isEmpty then none
      else some
        { major_version := 2
          minor_version := 5
          vcs_commit := 77
          image_crc := 4242
          build_timestamp_utc := 1000
          isReleaseBuild := true
          isDirtyBuild := false
          isBuildTimestampValid := false } }

/-- The number of bytes received in a history. -/
def receivedBytes : List Event → Nat
  | [] => 0
  | Event.receive (some _) :: es => receivedBytes es + 1
  | _ :: es => receivedBytes es

/-- A scripted host: the k-th byte received (k = 0, 1, ...) completes a standard frame
with payload `[k]`, and the payloads decode as follows: 0 asks for AppUpgradeInProgress,
1 is a full-size Application chunk (the capacity is 2), 2 asks for AppUpgradeInProgress
again, 3 is an undersized Application chunk, 4 is a certificate request, 5 asks for
BootCancelled, anything else is unknown.  The platform asks to exit once seven bytes were
received.  The controller and the certificate primitive are those of
`quietCollaborators`; the sink returns `verdict` for every chunk. -/
def scriptedCollaborators (verdict : Int) : Collaborators where
  getState := fun log =>
    if upgradeAppInProgress log then State.AppUpgradeInProgress else State.NoAppToBoot
  getMonotonicUptime := fun log => log.length
  getAppInfo := fun _ => none
  upgradeAppCallsDownloadImage := fun log => if downloadImageCalled log then none else some 1
  handleNextDataChunk := fun _ _ _ _ => verdict
  receive := fun log => some (receivedBytes log)
  processUnhandledDeviceManagementCommand := fun _ _ => Status.other 1
  writeAndReadBackCertificateOfAuthenticity := fun _ _ out_data _ => (0, out_data)
  shouldExit := fun log => decide (7 ≤ receivedBytes log)
  StandardFrameTypeCode := 255
  ImageDataMaxSize := 2
  resizeBeyondCapacity := fun _ v => v
  processNextByte := fun _ byte => ParserOutput.receivedFrame { type_code := 255, payload := [byte] }
  tryDecodeNodeInfoMessage := fun _ => false
  tryDecodeDeviceManagementCommandRequestMessage := fun _ => none
  tryDecodeBootloaderStatusRequestMessage := fun payload =>
    if payload = [0] ∨ payload = [2] then
      some { desired_state := BootloaderState.AppUpgradeInProgress }
    else if payload = [5] then
      some { desired_state := BootloaderState.BootCancelled }
    else none
  tryDecodeBootloaderImageDataRequestMessage := fun payload =>
    if payload = [1] then
      some { image_offset := 0, image_type := BootloaderImageType.Application,
             image_data := [7, 7] }
    else if payload = [3] then
      some { image_offset := 2, image_type := BootloaderImageType.Application,
             image_data := [9] }
    else if payload = [4] then
      some { image_offset := 0, image_type := BootloaderImageType.CertificateOfAuthenticity,
             image_data := [4, 2] }
    else none

/-- The full-size chunk of the scripted host (payload 1). -/
def fullChunkRequest : BootloaderImageDataRequestMessage :=
  { image_offset := 0, image_type := BootloaderImageType.Application, image_data := [7, 7] }

/-- The undersized chunk of the scripted host (payload 3). -/
def lastChunkRequest : BootloaderImageDataRequestMessage :=
  { image_offset := 2, image_type := BootloaderImageType.Application, image_data := [9] }

/-- An endpoint whose controller has just begun `upgradeApp`. -/
def upgradeBegun : PopcopProtocol :=
  { log := [Event.upgradeAppBegin] }

/-- The scripted session at the iteration that receives the full-size chunk: after the
entry of `downloadImage` and one iteration (a poll). -/
def beforeFullChunk : PopcopProtocol :=
  (loopOnce (scriptedCollaborators 0) (fun p => Outcome.running p)
    (record (Event.shouldExit false)
      (downloadImageEntry (scriptedCollaborators 0) 1 upgradeBegun))).endpoint

/-- The scripted session at the iteration that receives the undersized chunk: one
iteration (a poll) after the full-size chunk. -/
def beforeLastChunk : PopcopProtocol :=
  (loopOnce (scriptedCollaborators 0) (fun p => Outcome.running p)
    (record (Event.shouldExit false)
      (afterImageData (scriptedCollaborators 0) beforeFullChunk 1 fullChunkRequest))).endpoint

/-! ## Block transfer -/

theorem sent_append (xs ys : List Event) : sent (xs ++ ys) = sent xs ++ sent ys := by
  induction xs with
  | nil => rfl
  | cons x xs ih => cases x <;> simp [sent, ih]

theorem statusResponses_append (xs ys : List Event) :
    statusResponses (xs ++ ys) = statusResponses xs ++ statusResponses ys := by
  induction xs with
  | nil => rfl
  | cons x xs ih =>
    cases x with
    | send m => cases m <;> simp [statusResponses, ih]
    | _ => simp [statusResponses, ih]

theorem sameNamedState_bijective : Function.Bijective sameNamedState := by
  constructor
  · intro a b h
    cases a <;> cases b <;> first | rfl | cases h
  · intro b
    cases b
    · exact ⟨State.NoAppToBoot, rfl⟩
    · exact ⟨State.BootDelay, rfl⟩
    · exact ⟨State.BootCancelled, rfl⟩
    · exact ⟨State.AppUpgradeInProgress, rfl⟩
    · exact ⟨State.ReadyToBoot, rfl⟩

/-- The effect of `sendBootloaderStatusResponse`: the members are untouched and the history
grows by at most one failed assertion followed by the status response. -/
theorem sendBootloaderStatusResponse_eq (env : Collaborators) (p : PopcopProtocol) :
    ∃ pre : List Event,
      sendBootloaderStatusResponse env p =
        { p with log := p.log ++ pre ++ [Event.send (Message.bootloaderStatusResponse
          { timestamp := env.getMonotonicUptime p.log
            state := sameNamedState (env.getState p.log) })] } ∧
      (pre = [] ∨ ∃ a, pre = [Event.assertionFailed a]) ∧
      (pre = [] ↔
        (env.getState p.log = State.AppUpgradeInProgress ↔ p.download_sink_ ≠ none)) := by
  obtain ⟨ni, sink, reached, code, log⟩ := p
  cases sink <;> cases hs : env.getState log <;>
    first
    | (refine ⟨[], ?_⟩
       simp [sendBootloaderStatusResponse, hs, assert, send, record, sameNamedState]
       done)
    | (refine ⟨[Event.assertionFailed Assertion.statusNoAppToBoot], ?_⟩
       simp [sendBootloaderStatusResponse, hs, assert, send, record, sameNamedState]
       done)
    | (refine ⟨[Event.assertionFailed Assertion.statusBootDelay], ?_⟩
       simp [sendBootloaderStatusResponse, hs, assert, send, record, sameNamedState]
       done)
    | (refine ⟨[Event.assertionFailed Assertion.statusBootCancelled], ?_⟩
       simp [sendBootloaderStatusResponse, hs, assert, send, record, sameNamedState]
       done)
    | (refine ⟨[Event.assertionFailed Assertion.statusAppUpgradeInProgress], ?_⟩
       simp [sendBootloaderStatusResponse, hs, assert, send, record, sameNamedState]
       done)
    | (refine ⟨[Event.assertionFailed Assertion.statusReadyToBoot], ?_⟩
       simp [sendBootloaderStatusResponse, hs, assert, send, record, sameNamedState])

/-- C1: for each of the five controller states, `sendBootloaderStatusResponse` sends
exactly one message, the status response whose state is the same-named protocol state and
whose timestamp is the controller's monotonic uptime; it sends nothing else and leaves the
members alone; and the mapping of states is a bijection. -/
theorem C1_status_response_same_named_state (env : Collaborators) (p : PopcopProtocol) :
    (∃ evs : List Event,
      (sendBootloaderStatusResponse env p).log = p.log ++ evs ∧
      sent evs = [Message.bootloaderStatusResponse
        { timestamp := env.getMonotonicUptime p.log
          state := sameNamedState (env.getState p.log) }]) ∧
    (sendBootloaderStatusResponse env p).download_sink_ = p.download_sink_ ∧
    (sendBootloaderStatusResponse env p).download_image_reached_ = p.download_image_reached_ ∧
    (sendBootloaderStatusResponse env p).upgrade_status_code_ = p.upgrade_status_code_ ∧
    sameNamedState State.NoAppToBoot = BootloaderState.NoAppToBoot ∧
    sameNamedState State.BootDelay = BootloaderState.BootDelay ∧
    sameNamedState State.BootCancelled = BootloaderState.BootCancelled ∧
    sameNamedState State.AppUpgradeInProgress = BootloaderState.AppUpgradeInProgress ∧
    sameNamedState State.ReadyToBoot = BootloaderState.ReadyToBoot ∧
    Function.Bijective sameNamedState := by
  obtain ⟨pre, h, hpre, -⟩ := sendBootloaderStatusResponse_eq env p
  refine ⟨⟨pre ++ [Event.send (Message.bootloaderStatusResponse
      { timestamp := env.getMonotonicUptime p.log
        state := sameNamedState (env.getState p.log) })], ?_, ?_⟩,
    ?_, ?_, ?_, rfl, rfl, rfl, rfl, rfl, sameNamedState_bijective⟩
  · rw [h]; simp
  · rcases hpre with rfl | ⟨a, rfl⟩ <;> simp [sent]
  · rw [h]
  · rw [h]
  · rw [h]

/-- C3: a status request that asks for AppUpgradeInProgress while a sink is bound does not
invoke `upgradeApp` (the outcome is the same whatever `upgradeApp` would do, and no call of
it or of `downloadImage` is recorded), leaves the three members as they are, and sends
exactly one message, a status reply. -/
theorem C3_upgrade_request_during_session (env : Collaborators)
    (upgradeApp : PopcopProtocol → Outcome PopcopProtocol)
    (req : BootloaderStatusRequestMessage) (p : PopcopProtocol) (sink : Nat)
    (hreq : req.desired_state = BootloaderState.AppUpgradeInProgress)
    (hsink : p.download_sink_ = some sink) :
    ∃ q evs,
      processBootloaderStatusRequest env upgradeApp req p = Outcome.returned q ∧
      q = sendBootloaderStatusResponse env p ∧
      q.download_sink_ = some sink ∧
      q.download_image_reached_ = p.download_image_reached_ ∧
      q.upgrade_status_code_ = p.upgrade_status_code_ ∧
      q.log = p.log ++ evs ∧
      Event.upgradeAppBegin ∉ evs ∧
      (∀ k, Event.downloadImageBegin k ∉ evs) ∧
      sent evs = [Message.bootloaderStatusResponse
        { timestamp := env.getMonotonicUptime p.log
          state := sameNamedState (env.getState p.log) }] := by
  obtain ⟨pre, h, hpre, -⟩ := sendBootloaderStatusResponse_eq env p
  refine ⟨sendBootloaderStatusResponse env p, pre ++ [Event.send
    (Message.bootloaderStatusResponse
      { timestamp := env.getMonotonicUptime p.log
        state := sameNamedState (env.getState p.log) })], ?_, rfl, ?_, ?_, ?_, ?_, ?_, ?_, ?_⟩
  · simp [processBootloaderStatusRequest, hreq, hsink]
  · rw [h]; exact hsink
  · rw [h]
  · rw [h]
  · rw [h]; simp
  · rcases hpre with rfl | ⟨a, rfl⟩ <;> simp
  · rcases hpre with rfl | ⟨a, rfl⟩ <;> simp
  · rcases hpre with rfl | ⟨a, rfl⟩ <;> simp [sent]

/-- A witness of C3: a poll for AppUpgradeInProgress while sink 1 is bound. -/
theorem C3_upgrade_request_during_session_witness :
    ∃ q evs,
      processBootloaderStatusRequest quietCollaborators (fun p => Outcome.running p)
        { desired_state := BootloaderState.AppUpgradeInProgress }
        { download_sink_ := some 1 } = Outcome.returned q ∧
      q = sendBootloaderStatusResponse quietCollaborators { download_sink_ := some 1 } ∧
      q.download_sink_ = some 1 ∧
      q.download_image_reached_ = false ∧
      q.upgrade_status_code_ = 0 ∧
      q.log = [] ++ evs ∧
      Event.upgradeAppBegin ∉ evs ∧
      (∀ k, Event.downloadImageBegin k ∉ evs) ∧
      sent evs = [Message.bootloaderStatusResponse
        { timestamp := quietCollaborators.getMonotonicUptime []
          state := sameNamedState (quietCollaborators.getState []) }] :=
  C3_upgrade_request_during_session quietCollaborators (fun p => Outcome.running p)
    { desired_state := BootloaderState.AppUpgradeInProgress }
    { download_sink_ := some 1 } 1 rfl rfl

/-- C8: a CertificateOfAuthenticity request whose offset is not 0, or whose chunk has 255
bytes or more, only sends the response, with the request's type and offset and an empty
chunk: the history grows by that one message, so the certificate primitive is not
invoked. -/
theorem C8_invalid_certificate_request (env : Collaborators)
    (req : BootloaderImageDataRequestMessage) (p : PopcopProtocol)
    (htype : req.image_type = BootloaderImageType.CertificateOfAuthenticity)
    (hbad : req.image_offset ≠ 0 ∨
      ¬ req.image_data.length < CertificateOfAuthenticityMaxLength) :
    CertificateOfAuthenticityMaxLength = 255 ∧
    processBootloaderImageDataRequest env req p =
      { p with log := p.log ++ [Event.send (Message.bootloaderImageDataResponse
        { image_offset := req.image_offset
          image_type := BootloaderImageType.CertificateOfAuthenticity
          image_data := [] })] } ∧
    (∀ i l r o, Event.writeAndReadBackCertificateOfAuthenticity i l r o ∉
      (processBootloaderImageDataRequest env req p).log.drop p.log.length) := by
  have h : processBootloaderImageDataRequest env req p =
      { p with log := p.log ++ [Event.send (Message.bootloaderImageDataResponse
        { image_offset := req.image_offset
          image_type := BootloaderImageType.CertificateOfAuthenticity
          image_data := [] })] } := by
    have hc : ¬ (req.image_offset = 0 ∧
        req.image_data.length < CertificateOfAuthenticityMaxLength) := by
      rcases hbad with h | h
      · exact fun hh => h hh.1
      · exact fun hh => h hh.2
    simp [processBootloaderImageDataRequest, htype, caseCertificateOfAuthenticity, hc, send,
      record]
  refine ⟨rfl, h, ?_⟩
  rw [h]
  simp

/-- A witness of C8: a certificate request at offset 4. -/
theorem C8_invalid_certificate_request_witness :
    CertificateOfAuthenticityMaxLength = 255 ∧
    processBootloaderImageDataRequest quietCollaborators
      { image_offset := 4, image_type := BootloaderImageType.CertificateOfAuthenticity,
        image_data := [1, 2] } {} =
      { ({} : PopcopProtocol) with log := [] ++ [Event.send (Message.bootloaderImageDataResponse
        { image_offset := 4
          image_type := BootloaderImageType.CertificateOfAuthenticity
          image_data := [] })] } ∧
    (∀ i l r o, Event.writeAndReadBackCertificateOfAuthenticity i l r o ∉
      (processBootloaderImageDataRequest quietCollaborators
        { image_offset := 4, image_type := BootloaderImageType.CertificateOfAuthenticity,
          image_data := [1, 2] } {}).log.drop ([] : List Event).length) :=
  C8_invalid_certificate_request quietCollaborators
    { image_offset := 4, image_type := BootloaderImageType.CertificateOfAuthenticity,
      image_data := [1, 2] } {} rfl (Or.inl (by decide))

/-- The effect of the CertificateOfAuthenticity case on the endpoint: the members are
untouched, and the events recorded and the response depend on the history only. -/
theorem caseCertificateOfAuthenticity_eq (env : Collaborators)
    (req : BootloaderImageDataRequestMessage) (p : PopcopProtocol)
    (resp : BootloaderImageDataResponseMessage) :
    ∃ (evs : List Event) (chunk : List Nat),
      (∀ q : PopcopProtocol, q.log = p.log →
        caseCertificateOfAuthenticity env req (q, resp) =
          ({ q with log := q.log ++ evs }, { resp with image_data := chunk })) ∧
      (evs = [] ∨ ∃ i l r o, evs = [Event.writeAndReadBackCertificateOfAuthenticity i l r o]) := by
  refine ⟨(caseCertificateOfAuthenticity env req (p, resp)).1.log.drop p.log.length,
    (caseCertificateOfAuthenticity env req (p, resp)).2.image_data, ?_, ?_⟩
  · intro q hq
    by_cases hc : req.image_offset = 0 ∧
        req.image_data.length < CertificateOfAuthenticityMaxLength
    · by_cases hres : 0 ≤ (env.writeAndReadBackCertificateOfAuthenticity p.log req.image_data
          (resize env.ImageDataMaxSize resp.image_data) (req.image_data.length % 256)).1
      · simp [caseCertificateOfAuthenticity, hq, hc, hres, record]
      · simp [caseCertificateOfAuthenticity, hq, hc, hres, record]
    · simp [caseCertificateOfAuthenticity, hc]
  · by_cases hc : req.image_offset = 0 ∧
        req.image_data.length < CertificateOfAuthenticityMaxLength
    · by_cases hres : 0 ≤ (env.writeAndReadBackCertificateOfAuthenticity p.log req.image_data
          (resize env.ImageDataMaxSize resp.image_data) (req.image_data.length % 256)).1
      · simp [caseCertificateOfAuthenticity, hc, hres, record]
      · simp [caseCertificateOfAuthenticity, hc, hres, record]
    · simp [caseCertificateOfAuthenticity, hc]

/-- C10: a CertificateOfAuthenticity request is processed in the same way in every state
of the session members.  For any two endpoints with the same history, whatever their
`download_sink_`, `download_image_reached_` and `upgrade_status_code_`: the three members
are unchanged, the same events are recorded, none of them a call of the download sink, and
the same response (type, offset, chunk) is sent. -/
theorem C10_certificate_request_ignores_session (env : Collaborators)
    (req : BootloaderImageDataRequestMessage) (p q : PopcopProtocol)
    (htype : req.image_type = BootloaderImageType.CertificateOfAuthenticity)
    (hlog : q.log = p.log) :
    ∃ (evs : List Event) (chunk : List Nat),
      processBootloaderImageDataRequest env req p =
        { p with log := p.log ++ evs ++ [Event.send (Message.bootloaderImageDataResponse
          { image_offset := req.image_offset
            image_type := BootloaderImageType.CertificateOfAuthenticity
            image_data := chunk })] } ∧
      processBootloaderImageDataRequest env req q =
        { q with log := q.log ++ evs ++ [Event.send (Message.bootloaderImageDataResponse
          { image_offset := req.image_offset
            image_type := BootloaderImageType.CertificateOfAuthenticity
            image_data := chunk })] } ∧
      (∀ s d n r, Event.handleNextDataChunk s d n r ∉ evs) ∧
      sent evs = [] := by
  obtain ⟨evs, chunk, h, hevs⟩ := caseCertificateOfAuthenticity_eq env req p
    { image_offset := req.image_offset, image_type := req.image_type, image_data := [] }
  simp only [htype] at h
  refine ⟨evs, chunk, ?_, ?_, ?_, ?_⟩
  · simp [processBootloaderImageDataRequest, htype, send, record, h p rfl]
  · simp [processBootloaderImageDataRequest, htype, send, record, h q hlog]
  · rcases hevs with rfl | ⟨i, l, r, o, rfl⟩ <;> simp
  · rcases hevs with rfl | ⟨i, l, r, o, rfl⟩ <;> simp [sent]

/-- A witness of C10: the same certificate request outside and inside a session. -/
theorem C10_certificate_request_ignores_session_witness :
    ∃ (evs : List Event) (chunk : List Nat),
      processBootloaderImageDataRequest quietCollaborators
        { image_offset := 0, image_type := BootloaderImageType.CertificateOfAuthenticity,
          image_data := [1, 2] } {} =
        { ({} : PopcopProtocol) with
          log := [] ++ evs ++ [Event.send (Message.bootloaderImageDataResponse
          { image_offset := 0
            image_type := BootloaderImageType.CertificateOfAuthenticity
            image_data := chunk })] } ∧
      processBootloaderImageDataRequest quietCollaborators
        { image_offset := 0, image_type := BootloaderImageType.CertificateOfAuthenticity,
          image_data := [1, 2] }
        { download_sink_ := some 1, download_image_reached_ := true } =
        { ({ download_sink_ := some 1, download_image_reached_ := true } : PopcopProtocol) with
          log := [] ++ evs ++ [Event.send (Message.bootloaderImageDataResponse
          { image_offset := 0
            image_type := BootloaderImageType.CertificateOfAuthenticity
            image_data := chunk })] } ∧
      (∀ s d n r, Event.handleNextDataChunk s d n r ∉ evs) ∧
      sent evs = [] :=
  C10_certificate_request_ignores_session quietCollaborators
    { image_offset := 0, image_type := BootloaderImageType.CertificateOfAuthenticity,
      image_data := [1, 2] } {} { download_sink_ := some 1, download_image_reached_ := true }
    rfl rfl

/-! ### Stretches of history -/

theorem quiet_nil : Quiet [] := by
  intro e he
  cases he

theorem quiet_append {xs ys : List Event} (hx : Quiet xs) (hy : Quiet ys) :
    Quiet (xs ++ ys) := by
  intro e he
  rcases List.mem_append.mp he with h | h
  · exact hx e h
  · exact hy e h

theorem quiet_cons {e : Event} {es : List Event} (he : e.isSessionCall = false)
    (hes : Quiet es) : Quiet (e :: es) := by
  intro x hx
  rcases List.mem_cons.mp hx with h | h
  · rw [h]; exact he
  · exact hes x h

theorem noAssertionFailed_nil : NoAssertionFailed [] := by
  intro a ha
  cases ha

theorem noAssertionFailed_append {xs ys : List Event} (hx : NoAssertionFailed xs)
    (hy : NoAssertionFailed ys) : NoAssertionFailed (xs ++ ys) := by
  intro a ha
  rcases List.mem_append.mp ha with h | h
  · exact hx a h
  · exact hy a h

theorem chunkResults_append (xs ys : List Event) :
    chunkResults (xs ++ ys) = chunkResults xs ++ chunkResults ys := by
  induction xs with
  | nil => rfl
  | cons x xs ih => cases x <;> simp [chunkResults, ih]

theorem upgradeAppInProgress_append_quiet (log evs : List Event) (h : Quiet evs) :
    upgradeAppInProgress (log ++ evs) = upgradeAppInProgress log := by
  unfold upgradeAppInProgress
  rw [List.foldl_append]
  generalize List.foldl _ false log = st
  induction evs generalizing st with
  | nil => rfl
  | cons e es ih =>
    have he := h e (List.mem_cons_self _ _)
    have hes : Quiet es := fun x hx => h x (List.mem_cons_of_mem _ hx)
    cases e <;> simp [Event.isSessionCall] at he <;> simpa using ih hes _

theorem downloadImageCalled_append_quiet (log evs : List Event) (h : Quiet evs) :
    downloadImageCalled (log ++ evs) = downloadImageCalled log := by
  unfold downloadImageCalled
  rw [List.foldl_append]
  generalize List.foldl _ false log = st
  induction evs generalizing st with
  | nil => rfl
  | cons e es ih =>
    have he := h e (List.mem_cons_self _ _)
    have hes : Quiet es := fun x hx => h x (List.mem_cons_of_mem _ hx)
    cases e <;> simp [Event.isSessionCall] at he <;> simpa using ih hes _

/-! ### One frame -/

theorem caseApplication_eq (env : Collaborators) (req : BootloaderImageDataRequestMessage)
    (p : PopcopProtocol) (resp : BootloaderImageDataResponseMessage) :
    ∃ (evs : List Event) (sink : Option Nat) (code : Int)
      (resp1 : BootloaderImageDataResponseMessage),
      caseApplication env req (p, resp) =
        ({ p with download_sink_ := sink, upgrade_status_code_ := code, log := p.log ++ evs },
          resp1) ∧
      (sink = p.download_sink_ ∨ sink = none) ∧
      ((evs = [] ∧ code = p.upgrade_status_code_) ∨
        ∃ s d n r, evs = [Event.handleNextDataChunk s d n r] ∧
          code = if 0 ≤ r then 0 else r) := by
  refine ⟨(caseApplication env req (p, resp)).1.log.drop p.log.length,
    (caseApplication env req (p, resp)).1.download_sink_,
    (caseApplication env req (p, resp)).1.upgrade_status_code_,
    (caseApplication env req (p, resp)).2, ?_⟩
  obtain ⟨ni, sink, reached, code, log⟩ := p
  cases sink with
  | none => simp [caseApplication]
  | some s =>
    by_cases hempty : req.image_data = []
    · by_cases hsize : req.image_data.length < env.ImageDataMaxSize
      · simp [caseApplication, hempty, hsize] at hsize ⊢
        simp [hsize]
      · simp [caseApplication, hempty, hsize] at hsize ⊢
        simp [hsize]
    · by_cases hres : 0 ≤ env.handleNextDataChunk log s req.image_data
          (req.image_data.length % 65536)
      · by_cases hsize : req.image_data.length < env.ImageDataMaxSize
        · simp [caseApplication, hempty, hsize, hres, record]
          exact ⟨_, _, _, _, ⟨rfl, rfl, rfl, rfl⟩, by simp [hres]⟩
        · simp [caseApplication, hempty, hsize, hres, record]
          exact ⟨_, _, _, _, ⟨rfl, rfl, rfl, rfl⟩, by simp [hres]⟩
      · by_cases hsize : req.image_data.length < env.ImageDataMaxSize
        · simp [caseApplication, hempty, hsize, hres, record]
          exact ⟨_, _, _, _, ⟨rfl, rfl, rfl, rfl⟩, by simp [hres]⟩
        · simp [caseApplication, hempty, hsize, hres, record]
          exact ⟨_, _, _, _, ⟨rfl, rfl, rfl, rfl⟩, by simp [hres]⟩

theorem processBootloaderImageDataRequest_step (env : Collaborators)
    (req : BootloaderImageDataRequestMessage) (p : PopcopProtocol) :
    FrameStep env p (processBootloaderImageDataRequest env req p) := by
  have key : ∀ (p1 : PopcopProtocol) (resp1 : BootloaderImageDataResponseMessage)
      (evs1 : List Event) (sink : Option Nat) (code : Int),
      p1 = { p with
        download_sink_ := sink
        upgrade_status_code_ := code
        log := p.log ++ evs1 } →
      (sink = p.download_sink_ ∨ sink = none) →
      ((evs1 = [] ∧ code = p.upgrade_status_code_) ∨
        ∃ s d n r, evs1 = [Event.handleNextDataChunk s d n r] ∧
          code = if 0 ≤ r then 0 else r) →
      FrameStep env p (send (Message.bootloaderImageDataResponse
        (caseCertificateOfAuthenticity env req (p1, resp1)).2)
        (caseCertificateOfAuthenticity env req (p1, resp1)).1) := by
    intro p1 resp1 evs1 sink code hp1 hsink hevs1
    obtain ⟨evs2, chunk, h2, hevs2⟩ := caseCertificateOfAuthenticity_eq env req p1 resp1
    rw [h2 p1 rfl]
    subst hp1
    refine ⟨evs1 ++ evs2 ++ [Event.send (Message.bootloaderImageDataResponse
      { resp1 with image_data := chunk })], rfl, rfl, ?_, hsink, ?_, ?_, ?_⟩
    · simp [send, record]
    · rcases hevs1 with ⟨rfl, -⟩ | ⟨s, d, n, r, rfl, -⟩ <;>
        rcases hevs2 with rfl | ⟨i, l, r2, o, rfl⟩ <;>
        intro e he <;> simp at he <;> rcases he with rfl | rfl | rfl <;> rfl
    · rcases hevs1 with ⟨rfl, hc⟩ | ⟨s, d, n, r, rfl, hc⟩ <;>
        rcases hevs2 with rfl | ⟨i, l, r2, o, rfl⟩ <;>
        simp [chunkResults, send, record, hc]
    · intro _ _
      rcases hevs1 with ⟨rfl, -⟩ | ⟨s, d, n, r, rfl, -⟩ <;>
        rcases hevs2 with rfl | ⟨i, l, r2, o, rfl⟩ <;>
        intro a ha <;> simp at ha
  unfold processBootloaderImageDataRequest
  cases htype : req.image_type with
  | Application =>
    obtain ⟨evs1, sink, code, resp1, h1, hsink, hevs1⟩ := caseApplication_eq env req p
      { image_offset := req.image_offset, image_type := req.image_type, image_data := [] }
    simp only [htype] at h1
    simp only []
    rw [h1]
    exact key _ resp1 evs1 sink code rfl hsink hevs1
  | CertificateOfAuthenticity =>
    simp only []
    exact key p _ [] p.download_sink_ p.upgrade_status_code_ (by simp) (Or.inl rfl)
      (Or.inl ⟨rfl, rfl⟩)

theorem sendBootloaderStatusResponse_step (env : Collaborators) (p0 p : PopcopProtocol)
    (evs0 : List Event)
    (hni : p.node_info_prototype_ = p0.node_info_prototype_)
    (hreached : p.download_image_reached_ = p0.download_image_reached_)
    (hsink : p.download_sink_ = p0.download_sink_)
    (hcode : p.upgrade_status_code_ = p0.upgrade_status_code_)
    (hlog : p.log = p0.log ++ evs0) (hquiet : Quiet evs0)
    (hfail : NoAssertionFailed evs0) (hchunks : chunkResults evs0 = []) :
    FrameStep env p0 (sendBootloaderStatusResponse env p) := by
  obtain ⟨pre, h, hpre, hiff⟩ := sendBootloaderStatusResponse_eq env p
  rw [h]
  refine ⟨evs0 ++ pre ++ [Event.send (Message.bootloaderStatusResponse
    { timestamp := env.getMonotonicUptime p.log
      state := sameNamedState (env.getState p.log) })], hni, hreached, ?_, Or.inl hsink,
    ?_, ?_, ?_⟩
  · simp [hlog]
  · refine quiet_append (quiet_append hquiet ?_) (quiet_cons rfl quiet_nil)
    rcases hpre with rfl | ⟨a, rfl⟩
    · exact quiet_nil
    · exact quiet_cons rfl quiet_nil
  · left
    refine ⟨?_, hcode⟩
    rcases hpre with rfl | ⟨a, rfl⟩ <;> simp [chunkResults_append, hchunks, chunkResults]
  · intro htracks hagree
    have hpre0 : pre = [] := by
      rw [hiff, htracks, hlog, upgradeAppInProgress_append_quiet _ _ hquiet, hsink]
      exact hagree
    subst hpre0
    refine noAssertionFailed_append (noAssertionFailed_append hfail noAssertionFailed_nil) ?_
    intro a ha
    simp at ha

theorem record_step (env : Collaborators) (p : PopcopProtocol) (e : Event)
    (hcall : e.isSessionCall = false) (hfail : ∀ a, e ≠ Event.assertionFailed a)
    (hchunk : chunkResults [e] = []) :
    FrameStep env p (record e p) := by
  refine ⟨[e], rfl, rfl, rfl, Or.inl rfl, quiet_cons hcall quiet_nil, Or.inl ⟨hchunk, rfl⟩, ?_⟩
  intro _ _ a ha
  simp at ha
  exact hfail a ha.symm

theorem frameStep_refl (env : Collaborators) (p : PopcopProtocol) : FrameStep env p p := by
  refine ⟨[], rfl, rfl, by simp, Or.inl rfl, quiet_nil, Or.inl ⟨rfl, rfl⟩, ?_⟩
  intro _ _
  exact noAssertionFailed_nil

theorem processNodeInfoRequest_step (env : Collaborators) (p : PopcopProtocol) :
    FrameStep env p (processNodeInfoRequest env p) := by
  unfold processNodeInfoRequest
  cases env.getAppInfo p.log with
  | none => exact record_step env p _ rfl (fun a h => by cases h) rfl
  | some ai => exact record_step env p _ rfl (fun a h => by cases h) rfl

theorem processDeviceManagementCommandRequest_step (env : Collaborators)
    (req : DeviceManagementCommandRequestMessage) (p : PopcopProtocol) :
    FrameStep env p (processDeviceManagementCommandRequest env req p) := by
  unfold processDeviceManagementCommandRequest
  by_cases h : req.command = DeviceManagementCommand.LaunchBootloader
  · simp only [h, if_true]
    exact record_step env p _ rfl (fun a h => by cases h) rfl
  · simp only [h, if_false]
    refine ⟨[Event.processUnhandledDeviceManagementCommand req
      (env.processUnhandledDeviceManagementCommand p.log req),
      Event.send (Message.deviceManagementCommandResponse
        { command := req.command
          status := env.processUnhandledDeviceManagementCommand p.log req })],
      rfl, rfl, ?_, Or.inl rfl, ?_, Or.inl ⟨rfl, rfl⟩, ?_⟩
    · simp [send, record]
    · exact quiet_cons rfl (quiet_cons rfl quiet_nil)
    · intro _ _ a ha
      simp at ha

/-- A status request that does not start a session: it asks for another state than
AppUpgradeInProgress, or a sink is bound. -/
theorem processBootloaderStatusRequest_step (env : Collaborators)
    (upgradeApp : PopcopProtocol → Outcome PopcopProtocol)
    (req : BootloaderStatusRequestMessage) (p : PopcopProtocol)
    (h : req.desired_state ≠ BootloaderState.AppUpgradeInProgress ∨ p.download_sink_ ≠ none) :
    ∃ q, processBootloaderStatusRequest env upgradeApp req p = Outcome.returned q ∧
      FrameStep env p q := by
  unfold processBootloaderStatusRequest
  cases hd : req.desired_state with
  | NoAppToBoot => exact ⟨p, rfl, frameStep_refl env p⟩
  | BootDelay => exact ⟨p, rfl, frameStep_refl env p⟩
  | BootCancelled =>
    exact ⟨_, rfl, sendBootloaderStatusResponse_step env p (record Event.cancelBoot p)
      [Event.cancelBoot] rfl rfl rfl rfl rfl (quiet_cons rfl quiet_nil)
      (fun a ha => by simp at ha) rfl⟩
  | ReadyToBoot =>
    exact ⟨_, rfl, sendBootloaderStatusResponse_step env p (record Event.requestBoot p)
      [Event.requestBoot] rfl rfl rfl rfl rfl (quiet_cons rfl quiet_nil)
      (fun a ha => by simp at ha) rfl⟩
  | AppUpgradeInProgress =>
    have hs : p.download_sink_ ≠ none := by
      rcases h with h | h
      · exact absurd hd h
      · exact h
    refine ⟨sendBootloaderStatusResponse env p, ?_,
      sendBootloaderStatusResponse_step env p p [] rfl rfl rfl rfl (by simp) quiet_nil
        noAssertionFailed_nil rfl⟩
    simp [hs]

/-- The dispatch of a frame either starts a session (a status request for
AppUpgradeInProgress while no sink is bound) or is a `FrameStep`. -/
theorem processFrame_cases (env : Collaborators)
    (upgradeApp : PopcopProtocol → Outcome PopcopProtocol) (frame : Frame)
    (p : PopcopProtocol) :
    (p.download_sink_ = none ∧
      processFrame env upgradeApp frame p =
        processBootloaderStatusRequest env upgradeApp
          { desired_state := BootloaderState.AppUpgradeInProgress } p) ∨
    ∃ q, processFrame env upgradeApp frame p = Outcome.returned q ∧ FrameStep env p q := by
  unfold processFrame
  by_cases hcode : frame.type_code = env.StandardFrameTypeCode
  · simp only [hcode, if_true]
    by_cases hni : env.tryDecodeNodeInfoMessage frame.payload = true
    · simp only [hni, if_true]
      exact Or.inr ⟨_, rfl, processNodeInfoRequest_step env p⟩
    · simp only [hni]
      cases env.tryDecodeDeviceManagementCommandRequestMessage frame.payload with
      | some dmcr => exact Or.inr ⟨_, rfl, processDeviceManagementCommandRequest_step env dmcr p⟩
      | none =>
        cases env.tryDecodeBootloaderStatusRequestMessage frame.payload with
        | some bsr =>
          by_cases hb : bsr.desired_state ≠ BootloaderState.AppUpgradeInProgress ∨
              p.download_sink_ ≠ none
          · exact Or.inr (processBootloaderStatusRequest_step env upgradeApp bsr p hb)
          · left
            have hb1 : bsr.desired_state = BootloaderState.AppUpgradeInProgress := by
              by_contra hc
              exact hb (Or.inl hc)
            have hb2 : p.download_sink_ = none := by
              by_contra hc
              exact hb (Or.inr hc)
            refine ⟨hb2, ?_⟩
            cases bsr
            simp only at hb1
            subst hb1
            rfl
        | none =>
          cases env.tryDecodeBootloaderImageDataRequestMessage frame.payload with
          | some bidr =>
            exact Or.inr ⟨_, rfl, processBootloaderImageDataRequest_step env bidr p⟩
          | none => exact Or.inr ⟨_, rfl, record_step env p _ rfl (fun a h => by cases h) rfl⟩
  · simp only [hcode, if_false]
    exact Or.inr ⟨_, rfl, record_step env p _ rfl (fun a h => by cases h) rfl⟩

/-! ### One iteration of a loop -/

/-- A `FrameStep` surrounded by events that are neither session calls, nor failed
assertions, nor chunks, is a `FrameStep`. -/
theorem frameStep_wrap (env : Collaborators) (p q1 : PopcopProtocol)
    (pre post : List Event)
    (h : FrameStep env { p with log := p.log ++ pre } q1)
    (hpre : Quiet pre) (hpost : Quiet post)
    (hfpre : NoAssertionFailed pre) (hfpost : NoAssertionFailed post)
    (hcpre : chunkResults pre = []) (hcpost : chunkResults post = []) :
    FrameStep env p { q1 with log := q1.log ++ post } := by
  obtain ⟨evs, hni, hreached, hlog, hsink, hquiet, hchunks, hfail⟩ := h
  refine ⟨pre ++ evs ++ post, hni, hreached, ?_, hsink,
    quiet_append (quiet_append hpre hquiet) hpost, ?_, ?_⟩
  · simp [hlog]
  · simpa [chunkResults_append, hcpre, hcpost] using hchunks
  · intro htracks hagree
    refine noAssertionFailed_append (noAssertionFailed_append hfpre (hfail htracks ?_)) hfpost
    simpa [upgradeAppInProgress_append_quiet _ _ hpre] using hagree

/-- One iteration while a sink is bound: `loopOnce` returns, and is a `FrameStep`. -/
theorem loopOnce_session (env : Collaborators)
    (upgradeApp : PopcopProtocol → Outcome PopcopProtocol) (p : PopcopProtocol)
    (hsink : p.download_sink_ ≠ none) :
    ∃ q, loopOnce env upgradeApp p = Outcome.returned q ∧ FrameStep env p q := by
  unfold loopOnce
  simp only []
  cases hr : env.receive (record Event.resetWatchdog p).log with
  | none =>
    refine ⟨_, rfl, ?_⟩
    have := frameStep_wrap env p _ [Event.resetWatchdog, Event.receive none] []
      (frameStep_refl env _) (quiet_cons rfl (quiet_cons rfl quiet_nil)) quiet_nil
      (fun a ha => by simp at ha) noAssertionFailed_nil rfl rfl
    simpa [record] using this
  | some byte =>
    simp only []
    unfold processByte
    cases env.processNextByte
      (record (Event.receive (some byte)) (record Event.resetWatchdog p)).log byte with
    | nothing =>
      refine ⟨_, rfl, ?_⟩
      have := frameStep_wrap env p _ [Event.resetWatchdog, Event.receive (some byte)] []
        (frameStep_refl env _) (quiet_cons rfl (quiet_cons rfl quiet_nil)) quiet_nil
        (fun a ha => by simp at ha) noAssertionFailed_nil rfl rfl
      simpa [record] using this
    | extraneousData ed =>
      refine ⟨_, rfl, ?_⟩
      have := frameStep_wrap env p _
        [Event.resetWatchdog, Event.receive (some byte), Event.resetWatchdog,
          Event.processExtraneousData ed, Event.resetWatchdog] []
        (frameStep_refl env _)
        (quiet_cons rfl (quiet_cons rfl (quiet_cons rfl (quiet_cons rfl
          (quiet_cons rfl quiet_nil))))) quiet_nil
        (fun a ha => by simp at ha) noAssertionFailed_nil rfl rfl
      simpa [record] using this
    | receivedFrame frame =>
      simp only []
      rcases processFrame_cases env upgradeApp frame
        (record Event.resetWatchdog (record (Event.receive (some byte))
          (record Event.resetWatchdog p))) with ⟨hnone, -⟩ | ⟨q1, hq1, hstep⟩
      · exact absurd hnone hsink
      · rw [hq1]
        refine ⟨_, rfl, ?_⟩
        have := frameStep_wrap env p q1
          [Event.resetWatchdog, Event.receive (some byte), Event.resetWatchdog]
          [Event.resetWatchdog]
          (by simpa [record] using hstep)
          (quiet_cons rfl (quiet_cons rfl (quiet_cons rfl quiet_nil)))
          (quiet_cons rfl quiet_nil)
          (fun a ha => by simp at ha) (fun a ha => by simp at ha) rfl rfl
        simpa [record] using this

/-! ### The loop of `downloadImage` -/

theorem sessionRun_refl (env : Collaborators) (p : PopcopProtocol) : SessionRun env p p := by
  refine ⟨[], rfl, rfl, by simp, Or.inl rfl, quiet_nil, ?_, ?_⟩
  · intro h
    left
    exact ⟨fun r hr => by simp [chunkResults] at hr, h⟩
  · intro _ _
    exact noAssertionFailed_nil

theorem sessionRun_shouldExit (env : Collaborators) (p0 p : PopcopProtocol) (b : Bool)
    (h : SessionRun env p0 p) : SessionRun env p0 (record (Event.shouldExit b) p) := by
  obtain ⟨evs, hni, hreached, hlog, hsink, hquiet, hchunks, hfail⟩ := h
  refine ⟨evs ++ [Event.shouldExit b], hni, hreached, ?_, hsink,
    quiet_append hquiet (quiet_cons rfl quiet_nil), ?_, ?_⟩
  · simp [record, hlog]
  · simpa [chunkResults_append, chunkResults, record] using hchunks
  · intro ht hin
    exact noAssertionFailed_append (hfail ht hin) (fun a ha => by simp at ha)

theorem sessionRun_step (env : Collaborators) (p0 p q : PopcopProtocol)
    (h : SessionRun env p0 p) (hbound : p.download_sink_ ≠ none)
    (hcode : 0 ≤ p.upgrade_status_code_) (hstep : FrameStep env p q) :
    SessionRun env p0 q := by
  obtain ⟨evs, hni, hreached, hlog, hsink, hquiet, hchunks, hfail⟩ := h
  obtain ⟨evs1, hni1, hreached1, hlog1, hsink1, hquiet1, hchunks1, hfail1⟩ := hstep
  have hsink0 : p.download_sink_ = p0.download_sink_ := by
    rcases hsink with h | h
    · exact h
    · exact absurd h hbound
  refine ⟨evs ++ evs1, hni1.trans hni, hreached1.trans hreached, ?_, ?_,
    quiet_append hquiet hquiet1, ?_, ?_⟩
  · simp [hlog1, hlog]
  · rcases hsink1 with h | h
    · exact Or.inl (h.trans hsink0)
    · exact Or.inr h
  · intro h0
    rcases hchunks h0 with ⟨hall, hzero⟩ | ⟨hneg, -⟩
    · rcases hchunks1 with ⟨hnil, hsame⟩ | ⟨r, hone, hnew⟩
      · left
        refine ⟨?_, hsame.trans hzero⟩
        simpa [chunkResults_append, hnil] using hall
      · by_cases hr : 0 ≤ r
        · left
          refine ⟨?_, by simpa [hr] using hnew⟩
          intro x hx
          rw [chunkResults_append, hone] at hx
          rcases List.mem_append.mp hx with hx | hx
          · exact hall x hx
          · simp at hx
            rw [hx]
            exact hr
        · right
          have hq : q.upgrade_status_code_ = r := by simpa [hr] using hnew
          refine ⟨by rw [hq]; omega, chunkResults evs, ?_, hall⟩
          rw [chunkResults_append, hone, hq]
    · omega
  · intro ht hin
    refine noAssertionFailed_append (hfail ht hin) (hfail1 ht ?_)
    rw [hlog, upgradeAppInProgress_append_quiet _ _ hquiet]
    simp [hin, hbound]

/-- The loop of `downloadImage` keeps `SessionRun`, whether it returns or is cut short,
and it never calls `upgradeApp`. -/
theorem downloadImageLoop_sessionRun (env : Collaborators)
    (upgradeApp : PopcopProtocol → Outcome PopcopProtocol) (fuel : Nat)
    (p0 p : PopcopProtocol) (h : SessionRun env p0 p) :
    SessionRun env p0 (downloadImageLoop env upgradeApp fuel p).endpoint := by
  induction fuel generalizing p with
  | zero => exact h
  | succ n ih =>
    unfold downloadImageLoop
    simp only []
    have h1 := sessionRun_shouldExit env p0 p (env.shouldExit p.log) h
    split
    · rename_i hguard
      obtain ⟨-, hbound, hcode⟩ := hguard
      obtain ⟨q, hq, hstep⟩ := loopOnce_session env upgradeApp _ hbound
      rw [hq]
      exact ih q (sessionRun_step env p0 _ q h1 hbound hcode hstep)
    · exact h1

/-! ### `downloadImage` -/

theorem assert_eq (cond : Bool) (a : Assertion) (p : PopcopProtocol) :
    ∃ fs : List Event, assert cond a p = { p with log := p.log ++ fs } ∧
      (∀ e ∈ fs, ∃ b, e = Event.assertionFailed b) ∧ (cond = true → fs = []) := by
  cases cond with
  | true => exact ⟨[], by simp [assert], by simp, fun _ => rfl⟩
  | false =>
    exact ⟨[Event.assertionFailed a], by simp [assert, record], by simp, fun h => by cases h⟩

theorem upgradeAppInProgress_downloadImageBegin (log : List Event) (k : Nat) :
    upgradeAppInProgress (log ++ [Event.downloadImageBegin k]) = upgradeAppInProgress log := by
  simp [upgradeAppInProgress, List.foldl_append]

/-- The shape of a call of `downloadImage`: the call is recorded, then the assertions that
failed, then the status reply, then the events of the loop, then the return. -/
theorem downloadImage_spec (env : Collaborators)
    (upgradeApp : PopcopProtocol → Outcome PopcopProtocol) (fuel : Nat) (sink : Nat)
    (p : PopcopProtocol) :
    ∃ (fails : List Event) (m : BootloaderStatusResponseMessage) (body : List Event),
      (∀ e ∈ fails, ∃ a, e = Event.assertionFailed a) ∧
      Quiet body ∧
      (TracksUpgradeApp env → upgradeAppInProgress p.log = true →
        p.download_image_reached_ = false → p.download_sink_ = none →
        p.upgrade_status_code_ = 0 → fails = [] ∧ NoAssertionFailed body) ∧
      ((∃ c, downloadImage env upgradeApp fuel sink p = Outcome.returned (c,
          { p with
            download_sink_ := none
            download_image_reached_ := true
            upgrade_status_code_ := c
            log := p.log ++ [Event.downloadImageBegin sink] ++ fails ++
              [Event.send (Message.bootloaderStatusResponse m)] ++ body ++
              [Event.downloadImageEnd c] }) ∧
          (p.upgrade_status_code_ = 0 →
            ((∀ r ∈ chunkResults body, 0 ≤ r) ∧ c = 0) ∨
            (c < 0 ∧ ∃ init, chunkResults body = init ++ [c] ∧ ∀ r ∈ init, 0 ≤ r))) ∨
        (∃ q, downloadImage env upgradeApp fuel sink p = Outcome.running q ∧
          q.node_info_prototype_ = p.node_info_prototype_ ∧
          q.log = p.log ++ [Event.downloadImageBegin sink] ++ fails ++
              [Event.send (Message.bootloaderStatusResponse m)] ++ body)) := by
  obtain ⟨ni, sink0, reached0, code0, log0⟩ := p
  unfold downloadImage downloadImageEntry
  simp only []
  obtain ⟨f1, h1, hf1, hc1⟩ := assert_eq
    (!(record (Event.downloadImageBegin sink)
      (⟨ni, sink0, reached0, code0, log0⟩ : PopcopProtocol)).download_image_reached_)
    Assertion.downloadNotReached (record (Event.downloadImageBegin sink) ⟨ni, sink0, reached0, code0, log0⟩)
  rw [h1]
  obtain ⟨f2, h2, hf2, hc2⟩ := assert_eq (sink0 == none) Assertion.downloadSinkNull
    { record (Event.downloadImageBegin sink)
        (⟨ni, sink0, reached0, code0, log0⟩ : PopcopProtocol) with
      log := (record (Event.downloadImageBegin sink)
        (⟨ni, sink0, reached0, code0, log0⟩ : PopcopProtocol)).log ++ f1 }
  simp only [record] at h2 ⊢
  rw [h2]
  obtain ⟨f3, h3, hf3, hc3⟩ := assert_eq (code0 == 0) Assertion.downloadStatusZero
    (⟨ni, sink0, reached0, code0, log0 ++ [Event.downloadImageBegin sink] ++ f1 ++ f2⟩ :
      PopcopProtocol)
  simp only [] at h3 ⊢
  rw [h3]
  obtain ⟨pre, h4, hpre, hiff⟩ := sendBootloaderStatusResponse_eq env
    (⟨ni, some sink, true, code0, log0 ++ [Event.downloadImageBegin sink] ++ f1 ++ f2 ++ f3⟩ :
      PopcopProtocol)
  simp only [] at h4 hiff ⊢
  rw [h4]
  have hrun := downloadImageLoop_sessionRun env upgradeApp fuel _ _ (sessionRun_refl env
    (⟨ni, some sink, true, code0, log0 ++ [Event.downloadImageBegin sink] ++ f1 ++ f2 ++ f3 ++
      pre ++ [Event.send (Message.bootloaderStatusResponse
        { timestamp := env.getMonotonicUptime
            (log0 ++ [Event.downloadImageBegin sink] ++ f1 ++ f2 ++ f3)
          state := sameNamedState (env.getState
            (log0 ++ [Event.downloadImageBegin sink] ++ f1 ++ f2 ++ f3)) })]⟩ :
      PopcopProtocol))
  obtain ⟨body, hni, hreached, hlog, hsink, hquiet, hchunks, hfail⟩ := hrun
  simp only [] at hni hreached hlog hsink hchunks hfail
  refine ⟨f1 ++ f2 ++ f3 ++ pre,
    { timestamp := env.getMonotonicUptime
        (log0 ++ [Event.downloadImageBegin sink] ++ f1 ++ f2 ++ f3)
      state := sameNamedState (env.getState
        (log0 ++ [Event.downloadImageBegin sink] ++ f1 ++ f2 ++ f3)) },
    body, ?_, hquiet, ?_, ?_⟩
  · intro e he
    simp only [List.mem_append] at he
    rcases he with ((he | he) | he) | he
    · exact hf1 e he
    · exact hf2 e he
    · exact hf3 e he
    · rcases hpre with rfl | ⟨a, rfl⟩
      · cases he
      · exact ⟨a, by simpa using he⟩
  · intro ht hin hr hs hc
    have e1 : f1 = [] := hc1 (by simp [record, hr])
    have e2 : f2 = [] := hc2 (by simp [hs])
    have e3 : f3 = [] := hc3 (by simp [hc])
    subst e1 e2 e3
    have hin2 : upgradeAppInProgress (log0 ++ [Event.downloadImageBegin sink]) = true := by
      rw [upgradeAppInProgress_downloadImageBegin]; exact hin
    have e4 : pre = [] := by
      rw [hiff, ht]
      simpa using hin2
    subst e4
    refine ⟨rfl, hfail ht ?_⟩
    have hq : Quiet [Event.send (Message.bootloaderStatusResponse
        { timestamp := env.getMonotonicUptime
            (log0 ++ [Event.downloadImageBegin sink] ++ [] ++ [] ++ [])
          state := sameNamedState (env.getState
            (log0 ++ [Event.downloadImageBegin sink] ++ [] ++ [] ++ [])) })] :=
      quiet_cons rfl quiet_nil
    have := upgradeAppInProgress_append_quiet (log0 ++ [Event.downloadImageBegin sink]) _ hq
    simpa [hin2] using this
  · cases hloop : downloadImageLoop env upgradeApp fuel
      (⟨ni, some sink, true, code0, log0 ++ [Event.downloadImageBegin sink] ++ f1 ++ f2 ++ f3 ++
      pre ++ [Event.send (Message.bootloaderStatusResponse
        { timestamp := env.getMonotonicUptime
            (log0 ++ [Event.downloadImageBegin sink] ++ f1 ++ f2 ++ f3)
          state := sameNamedState (env.getState
            (log0 ++ [Event.downloadImageBegin sink] ++ f1 ++ f2 ++ f3)) })]⟩ :
      PopcopProtocol) with
    | returned q =>
      left
      rw [hloop] at hni hreached hlog hsink hchunks
      simp only [Outcome.endpoint] at hni hreached hlog hsink hchunks
      refine ⟨q.upgrade_status_code_, ?_, ?_⟩
      · obtain ⟨qni, qsink, qreached, qcode, qlog⟩ := q
        simp only [] at hni hreached hlog
        subst hni hreached hlog
        simp [record]
      · intro hc
        exact hchunks hc
    | running q =>
      right
      rw [hloop] at hni hlog
      simp only [Outcome.endpoint] at hni hlog
      exact ⟨q, rfl, hni, by simp [hlog]⟩

theorem chunkResults_session (sink : Nat) (fails body : List Event)
    (m : BootloaderStatusResponseMessage) (c : Int)
    (hfails : ∀ e ∈ fails, ∃ a, e = Event.assertionFailed a) :
    chunkResults ([Event.downloadImageBegin sink] ++ fails ++
      [Event.send (Message.bootloaderStatusResponse m)] ++ body ++
      [Event.downloadImageEnd c]) = chunkResults body := by
  have hnil : chunkResults fails = [] := by
    induction fails with
    | nil => rfl
    | cons e es ih =>
      obtain ⟨a, rfl⟩ := hfails e (List.mem_cons_self _ _)
      simpa [chunkResults] using ih (fun x hx => hfails x (List.mem_cons_of_mem _ hx))
  simp [chunkResults_append, chunkResults, hnil]

/-- C7: when `downloadImage`, entered with status code 0 (the one of its asserted
preconditions that matters here), returns the value `c` and leaves the endpoint `q`: the
sink is null and `c` is the status code; `c` is negative exactly when the sink returned a
negative result for some chunk of the session, and then that chunk was the last one handed
to the sink, the only one rejected, and `c` is its result; otherwise `c` is 0. -/
theorem C7_downloadImage_return_value (env : Collaborators)
    (upgradeApp : PopcopProtocol → Outcome PopcopProtocol) (fuel : Nat) (sink : Nat)
    (p q : PopcopProtocol) (c : Int)
    (hcode : p.upgrade_status_code_ = 0)
    (hret : downloadImage env upgradeApp fuel sink p = Outcome.returned (c, q)) :
    q.download_sink_ = none ∧
    q.upgrade_status_code_ = c ∧
    ∃ evs : List Event,
      q.log = p.log ++ evs ∧
      (c < 0 ↔ ∃ r ∈ chunkResults evs, r < 0) ∧
      (c < 0 → ∃ init, chunkResults evs = init ++ [c] ∧ ∀ r ∈ init, 0 ≤ r) ∧
      (0 ≤ c → c = 0) := by
  obtain ⟨fails, m, body, hfails, -, -, hcases⟩ :=
    downloadImage_spec env upgradeApp fuel sink p
  rcases hcases with ⟨c1, h1, hchunks⟩ | ⟨q1, h1, -⟩
  · rw [h1] at hret
    injection hret with hret
    injection hret with hc hq
    subst hc hq
    refine ⟨rfl, rfl, [Event.downloadImageBegin sink] ++ fails ++
      [Event.send (Message.bootloaderStatusResponse m)] ++ body ++
      [Event.downloadImageEnd c1], by simp, ?_⟩
    rw [chunkResults_session sink fails body m c1 hfails]
    rcases hchunks hcode with ⟨hall, hzero⟩ | ⟨hneg, init, hinit, hall⟩
    · refine ⟨?_, ?_, fun _ => hzero⟩
      · constructor
        · intro h; omega
        · rintro ⟨r, hr, hr0⟩
          have := hall r hr
          omega
      · intro h; omega
    · refine ⟨?_, fun _ => ⟨init, hinit, hall⟩, fun h => by omega⟩
      constructor
      · intro _
        exact ⟨c1, by simp [hinit], hneg⟩
      · intro _
        exact hneg
  · rw [h1] at hret
    cases hret

/-- A witness of C7: a session whose sink rejects the first chunk with -5. -/
theorem C7_downloadImage_return_value_witness :
    ∃ q : PopcopProtocol,
      downloadImage (scriptedCollaborators (-5)) (fun p => Outcome.running p) 10 1
        { log := [Event.upgradeAppBegin] } = Outcome.returned (-5, q) ∧
      q.download_sink_ = none ∧
      q.upgrade_status_code_ = -5 ∧
      ∃ evs : List Event,
        q.log = [Event.upgradeAppBegin] ++ evs ∧
        ((-5 : Int) < 0 ↔ ∃ r ∈ chunkResults evs, r < 0) ∧
        ((-5 : Int) < 0 → ∃ init, chunkResults evs = init ++ [-5] ∧ ∀ r ∈ init, 0 ≤ r) ∧
        ((0 : Int) ≤ -5 → (-5 : Int) = 0) :=
  ⟨_, rfl, C7_downloadImage_return_value (scriptedCollaborators (-5))
    (fun p => Outcome.running p) 10 1 { log := [Event.upgradeAppBegin] } _ (-5) rfl rfl⟩

/-! ### `upgradeApp` -/

theorem quiet_of_assertions (fails : List Event)
    (hfails : ∀ e ∈ fails, ∃ a, e = Event.assertionFailed a) : Quiet fails := by
  intro e he
  obtain ⟨a, rfl⟩ := hfails e he
  rfl

theorem downloadImageCalled_session (log : List Event) (sink : Nat)
    (fails body : List Event) (m : BootloaderStatusResponseMessage) (c : Int)
    (hfails : ∀ e ∈ fails, ∃ a, e = Event.assertionFailed a) (hquiet : Quiet body) :
    downloadImageCalled (log ++ ([Event.downloadImageBegin sink] ++ fails ++
      [Event.send (Message.bootloaderStatusResponse m)] ++ body ++
      [Event.downloadImageEnd c])) = true := by
  have h1 : downloadImageCalled (log ++ [Event.downloadImageBegin sink]) = true := by
    simp [downloadImageCalled, List.foldl_append]
  have h2 := downloadImageCalled_append_quiet (log ++ [Event.downloadImageBegin sink])
    (fails ++ [Event.send (Message.bootloaderStatusResponse m)] ++ body)
    (quiet_append (quiet_append (quiet_of_assertions fails hfails)
      (quiet_cons rfl quiet_nil)) hquiet)
  rw [h1] at h2
  have h3 : downloadImageCalled (log ++ [Event.downloadImageBegin sink] ++
      (fails ++ [Event.send (Message.bootloaderStatusResponse m)] ++ body) ++
      [Event.downloadImageEnd c]) = true := by
    rw [← h2]
    simp [downloadImageCalled, List.foldl_append]
  simpa using h3

/-- A call of `upgradeApp` that returns has made a sequence of calls of `downloadImage`,
each of which returned, and nothing else. -/
theorem upgradeAppBody_returned (env : Collaborators)
    (upgradeApp : PopcopProtocol → Outcome PopcopProtocol) (n : Nat) :
    ∀ (fuel : Nat) (p q : PopcopProtocol),
      upgradeAppBody env (fun sink r => downloadImage env upgradeApp n sink r) fuel p =
        Outcome.returned q →
      ∃ sessions : List (List Event),
        q.log = p.log ++ sessions.flatten ++ [Event.upgradeAppEnd] ∧
        (∀ s ∈ sessions, IsSession s) ∧
        q.node_info_prototype_ = p.node_info_prototype_ ∧
        (sessions = [] → q.download_image_reached_ = p.download_image_reached_ ∧
          q.download_sink_ = p.download_sink_ ∧
          q.upgrade_status_code_ = p.upgrade_status_code_) ∧
        (sessions ≠ [] → q.download_image_reached_ = true ∧ q.download_sink_ = none) ∧
        (CallsDownloadImageAtMostOnce env →
          sessions.length ≤ 1 ∧ (downloadImageCalled p.log = true → sessions = [])) := by
  intro fuel
  induction fuel with
  | zero =>
    intro p q h
    simp [upgradeAppBody] at h
  | succ k ih =>
    intro p q h
    unfold upgradeAppBody at h
    cases hcall : env.upgradeAppCallsDownloadImage p.log with
    | none =>
      simp only [hcall] at h
      injection h with h
      subst h
      exact ⟨[], by simp [record], by simp, rfl, fun _ => ⟨rfl, rfl, rfl⟩,
        fun hne => absurd rfl hne, fun _ => ⟨by simp, fun _ => rfl⟩⟩
    | some sink =>
      simp only [hcall] at h
      obtain ⟨fails, m, body, hfails, hquiet, -, hcases⟩ :=
        downloadImage_spec env upgradeApp n sink p
      rcases hcases with ⟨c, hc, -⟩ | ⟨q1, hq1, -⟩
      · rw [hc] at h
        simp only [] at h
        obtain ⟨rest, hlog, hall, hni, hnil, hcons, honce⟩ := ih _ q h
        refine ⟨([Event.downloadImageBegin sink] ++ fails ++
          [Event.send (Message.bootloaderStatusResponse m)] ++ body ++
          [Event.downloadImageEnd c]) :: rest, ?_, ?_, hni, ?_, ?_, ?_⟩
        · simp [hlog]
        · intro s hs
          rcases List.mem_cons.mp hs with rfl | hs
          · exact ⟨sink, fails, m, body, c, rfl, hfails, hquiet⟩
          · exact hall s hs
        · intro hne
          cases hne
        · intro _
          by_cases hrest : rest = []
          · obtain ⟨h1, h2, -⟩ := hnil hrest
            exact ⟨h1, h2⟩
          · exact hcons hrest
        · intro h2
          have hrest : rest = [] := by
            apply (honce h2).2
            have := downloadImageCalled_session p.log sink fails body m c hfails hquiet
            simpa using this
          subst hrest
          refine ⟨by simp, fun hcalled => ?_⟩
          rw [h2 p.log hcalled] at hcall
          cases hcall
      · rw [hq1] at h
        cases h

theorem upgradeApp_returned (env : Collaborators) (fuel : Nat) (p q : PopcopProtocol)
    (h : upgradeApp env fuel p = Outcome.returned q) :
    ∃ sessions : List (List Event),
      q.log = p.log ++ [Event.upgradeAppBegin] ++ sessions.flatten ++ [Event.upgradeAppEnd] ∧
      (∀ s ∈ sessions, IsSession s) ∧
      q.node_info_prototype_ = p.node_info_prototype_ ∧
      (sessions = [] → q.download_image_reached_ = p.download_image_reached_ ∧
        q.download_sink_ = p.download_sink_ ∧
        q.upgrade_status_code_ = p.upgrade_status_code_) ∧
      (sessions ≠ [] → q.download_image_reached_ = true ∧ q.download_sink_ = none) ∧
      (CallsDownloadImageAtMostOnce env → sessions.length ≤ 1) := by
  cases fuel with
  | zero => simp [upgradeApp] at h
  | succ n =>
    unfold upgradeApp at h
    obtain ⟨sessions, hlog, hall, hni, hnil, hcons, honce⟩ :=
      upgradeAppBody_returned env (upgradeApp env n) n n _ q h
    exact ⟨sessions, by simpa [record] using hlog, hall, hni, hnil, hcons,
      fun h2 => (honce h2).1⟩

theorem upgradeAppInProgress_begin (log : List Event) :
    upgradeAppInProgress (log ++ [Event.upgradeAppBegin]) = true := by
  simp [upgradeAppInProgress, List.foldl_append]

theorem upgradeAppInProgress_end (log : List Event) :
    upgradeAppInProgress (log ++ [Event.upgradeAppEnd]) = false := by
  simp [upgradeAppInProgress, List.foldl_append]

/-- With a controller that reports AppUpgradeInProgress exactly during `upgradeApp` and
calls `downloadImage` at most once per call, a call of `upgradeApp` made with no sink
bound, the reached flag clear and the status code 0 fails no assertion, however far it
gets; if it returns, no sink is bound and no call is in progress. -/
theorem upgradeApp_safe (env : Collaborators) (h1 : TracksUpgradeApp env)
    (h2 : CallsDownloadImageAtMostOnce env) (fuel : Nat) (p : PopcopProtocol)
    (hsink : p.download_sink_ = none) (hreached : p.download_image_reached_ = false)
    (hcode : p.upgrade_status_code_ = 0) :
    ∃ evs : List Event,
      (upgradeApp env fuel p).endpoint.log = p.log ++ evs ∧
      NoAssertionFailed evs ∧
      ∀ q, upgradeApp env fuel p = Outcome.returned q →
        q.download_sink_ = none ∧ upgradeAppInProgress q.log = false := by
  cases fuel with
  | zero =>
    exact ⟨[], by simp [upgradeApp, Outcome.endpoint], noAssertionFailed_nil,
      fun q h => by simp [upgradeApp] at h⟩
  | succ n =>
    unfold upgradeApp
    cases n with
    | zero =>
      exact ⟨[Event.upgradeAppBegin], by simp [upgradeAppBody, Outcome.endpoint, record],
        fun a ha => by simp at ha, fun q h => by simp [upgradeAppBody] at h⟩
    | succ m =>
      unfold upgradeAppBody
      cases hcall : env.upgradeAppCallsDownloadImage (record Event.upgradeAppBegin p).log with
      | none =>
        refine ⟨[Event.upgradeAppBegin, Event.upgradeAppEnd],
          by simp [Outcome.endpoint, record], fun a ha => by simp at ha, ?_⟩
        intro q hq
        simp only [] at hq
        injection hq with hq
        subst hq
        refine ⟨hsink, ?_⟩
        simp only [record]
        exact upgradeAppInProgress_end _
      | some sink =>
        simp only []
        obtain ⟨fails, msg, body, hfails, hquiet, hsafe, hcases⟩ :=
          downloadImage_spec env (upgradeApp env (m + 1)) (m + 1) sink
            (record Event.upgradeAppBegin p)
        obtain ⟨hnil, hbody⟩ := hsafe h1 (upgradeAppInProgress_begin p.log) hreached hsink
          hcode
        subst hnil
        have hsession : NoAssertionFailed ([Event.upgradeAppBegin] ++
            [Event.downloadImageBegin sink] ++
            [Event.send (Message.bootloaderStatusResponse msg)] ++ body) := by
          refine noAssertionFailed_append ?_ hbody
          intro a ha
          simp at ha
        rcases hcases with ⟨c, hc, -⟩ | ⟨q1, hq1, -, hlog1⟩
        · rw [hc]
          simp only []
          have hcalled := downloadImageCalled_session (record Event.upgradeAppBegin p).log
            sink [] body msg c (fun e he => by cases he) hquiet
          cases m with
          | zero =>
            refine ⟨[Event.upgradeAppBegin] ++ [Event.downloadImageBegin sink] ++
              [Event.send (Message.bootloaderStatusResponse msg)] ++ body ++
              [Event.downloadImageEnd c], by simp [upgradeAppBody, Outcome.endpoint, record],
              noAssertionFailed_append hsession (fun a ha => by simp at ha),
              fun q h => by simp [upgradeAppBody] at h⟩
          | succ k =>
            unfold upgradeAppBody
            have hnone := h2 _ hcalled
            simp only [List.append_assoc, List.nil_append] at hnone ⊢
            rw [hnone]
            refine ⟨[Event.upgradeAppBegin] ++ [Event.downloadImageBegin sink] ++
              [Event.send (Message.bootloaderStatusResponse msg)] ++ body ++
              [Event.downloadImageEnd c] ++ [Event.upgradeAppEnd],
              by simp [Outcome.endpoint, record],
              noAssertionFailed_append
                (noAssertionFailed_append hsession (fun a ha => by simp at ha))
                (fun a ha => by simp at ha), ?_⟩
            intro q hq
            simp only [] at hq
            injection hq with hq
            subst hq
            refine ⟨rfl, ?_⟩
            simp only [record]
            exact upgradeAppInProgress_end _
        · rw [hq1]
          refine ⟨[Event.upgradeAppBegin] ++ [Event.downloadImageBegin sink] ++
            [Event.send (Message.bootloaderStatusResponse msg)] ++ body,
            by simp [Outcome.endpoint, hlog1, record], hsession, ?_⟩
          intro q hq
          cases hq

theorem processFrame_safe (env : Collaborators) (h1 : TracksUpgradeApp env)
    (h2 : CallsDownloadImageAtMostOnce env) (fuel : Nat) (frame : Frame)
    (p : PopcopProtocol) (hidle : Idle p) :
    ∃ evs : List Event,
      (processFrame env (upgradeApp env fuel) frame p).endpoint.log = p.log ++ evs ∧
      NoAssertionFailed evs ∧
      ∀ q, processFrame env (upgradeApp env fuel) frame p = Outcome.returned q → Idle q := by
  obtain ⟨hsink, hin⟩ := hidle
  rcases processFrame_cases env (upgradeApp env fuel) frame p with ⟨-, heq⟩ | ⟨q, hq, hstep⟩
  · rw [heq]
    obtain ⟨ni, sink, reached, code, log⟩ := p
    simp only [] at hsink hin
    subst hsink
    unfold processBootloaderStatusRequest
    simp only [beq_self_eq_true, if_true]
    obtain ⟨evs, hlog, hfail, hret⟩ := upgradeApp_safe env h1 h2 fuel
      (⟨ni, none, false, 0, log⟩ : PopcopProtocol) rfl rfl rfl
    cases hup : upgradeApp env fuel (⟨ni, none, false, 0, log⟩ : PopcopProtocol) with
    | running q1 =>
      rw [hup] at hlog
      exact ⟨evs, hlog, hfail, fun q h => by cases h⟩
    | returned q0 =>
      rw [hup] at hlog
      simp only [Outcome.endpoint] at hlog
      obtain ⟨hs0, hin0⟩ := hret q0 hup
      simp only []
      by_cases hreach : q0.download_image_reached_ = true
      · simp only [hreach, Bool.not_true]
        refine ⟨evs, hlog, hfail, ?_⟩
        intro q hq
        injection hq with hq
        subst hq
        exact ⟨hs0, hin0⟩
      · have hfalse : q0.download_image_reached_ = false := by
          cases hq : q0.download_image_reached_ with
          | true => exact absurd hq hreach
          | false => rfl
        simp only [hfalse, Bool.not_false, if_true]
        obtain ⟨pre, heq0, -, hiff⟩ := sendBootloaderStatusResponse_eq env q0
        have hpre : pre = [] := by
          rw [hiff, h1, hin0, hs0]
          simp
        subst hpre
        rw [heq0]
        refine ⟨evs ++ [Event.send (Message.bootloaderStatusResponse
          { timestamp := env.getMonotonicUptime q0.log
            state := sameNamedState (env.getState q0.log) })],
          by simp [Outcome.endpoint, hlog],
          noAssertionFailed_append hfail (fun a ha => by simp at ha), ?_⟩
        intro q hq
        injection hq with hq
        subst hq
        refine ⟨hs0, ?_⟩
        have := upgradeAppInProgress_append_quiet q0.log
          [Event.send (Message.bootloaderStatusResponse
            { timestamp := env.getMonotonicUptime q0.log
              state := sameNamedState (env.getState q0.log) })] (quiet_cons rfl quiet_nil)
        simpa [hin0] using this
  · obtain ⟨evs, -, -, hlog, hs, hquiet, -, hfail⟩ := hstep
    rw [hq]
    refine ⟨evs, hlog, hfail h1 (by simp [hin, hsink]), ?_⟩
    intro q' hq'
    injection hq' with hq'
    subst hq'
    refine ⟨?_, ?_⟩
    · rcases hs with h | h
      · exact h.trans hsink
      · exact h
    · rw [hlog, upgradeAppInProgress_append_quiet _ _ hquiet]
      exact hin

theorem idle_record (p : PopcopProtocol) (e : Event) (he : e.isSessionCall = false)
    (h : Idle p) : Idle (record e p) := by
  refine ⟨h.1, ?_⟩
  have := upgradeAppInProgress_append_quiet p.log [e] (quiet_cons he quiet_nil)
  simpa [record, h.2] using this

theorem loopOnce_safe (env : Collaborators) (h1 : TracksUpgradeApp env)
    (h2 : CallsDownloadImageAtMostOnce env) (fuel : Nat) (p : PopcopProtocol)
    (hidle : Idle p) :
    ∃ evs : List Event,
      (loopOnce env (upgradeApp env fuel) p).endpoint.log = p.log ++ evs ∧
      NoAssertionFailed evs ∧
      ∀ q, loopOnce env (upgradeApp env fuel) p = Outcome.returned q → Idle q := by
  unfold loopOnce
  simp only []
  have hidle1 := idle_record p Event.resetWatchdog rfl hidle
  cases hr : env.receive (record Event.resetWatchdog p).log with
  | none =>
    refine ⟨[Event.resetWatchdog, Event.receive none], by simp [Outcome.endpoint, record],
      fun a ha => by simp at ha, ?_⟩
    intro q hq
    injection hq with hq
    subst hq
    exact idle_record _ _ rfl hidle1
  | some byte =>
    simp only []
    have hidle2 := idle_record _ (Event.receive (some byte)) rfl hidle1
    unfold processByte
    cases env.processNextByte
      (record (Event.receive (some byte)) (record Event.resetWatchdog p)).log byte with
    | nothing =>
      refine ⟨[Event.resetWatchdog, Event.receive (some byte)],
        by simp [Outcome.endpoint, record], fun a ha => by simp at ha, ?_⟩
      intro q hq
      injection hq with hq
      subst hq
      exact hidle2
    | extraneousData ed =>
      refine ⟨[Event.resetWatchdog, Event.receive (some byte), Event.resetWatchdog,
        Event.processExtraneousData ed, Event.resetWatchdog],
        by simp [Outcome.endpoint, record], fun a ha => by simp at ha, ?_⟩
      intro q hq
      injection hq with hq
      subst hq
      exact idle_record _ _ rfl (idle_record _ _ rfl (idle_record _ _ rfl hidle2))
    | receivedFrame frame =>
      simp only []
      have hidle3 := idle_record _ Event.resetWatchdog rfl hidle2
      obtain ⟨evs, hlog, hfail, hret⟩ := processFrame_safe env h1 h2 fuel frame _ hidle3
      cases hpf : processFrame env (upgradeApp env fuel) frame
          (record Event.resetWatchdog (record (Event.receive (some byte))
            (record Event.resetWatchdog p))) with
      | running q1 =>
        rw [hpf] at hlog
        simp only [Outcome.endpoint] at hlog ⊢
        refine ⟨[Event.resetWatchdog, Event.receive (some byte), Event.resetWatchdog] ++ evs,
          by simp [hlog, record], noAssertionFailed_append (fun a ha => by simp at ha) hfail,
          fun q hq => by cases hq⟩
      | returned q1 =>
        rw [hpf] at hlog
        simp only [Outcome.endpoint] at hlog ⊢
        refine ⟨[Event.resetWatchdog, Event.receive (some byte), Event.resetWatchdog] ++ evs ++
          [Event.resetWatchdog], by simp [hlog, record],
          noAssertionFailed_append
            (noAssertionFailed_append (fun a ha => by simp at ha) hfail)
            (fun a ha => by simp at ha), ?_⟩
        intro q hq
        injection hq with hq
        subst hq
        exact idle_record _ _ rfl (hret q1 hpf)

/-- With a controller that reports AppUpgradeInProgress exactly during `upgradeApp` and
calls `downloadImage` at most once per call, `run` started between two sessions fails no
assertion, however far it gets. -/
theorem run_safe (env : Collaborators) (h1 : TracksUpgradeApp env)
    (h2 : CallsDownloadImageAtMostOnce env) (fuel : Nat) :
    ∀ p : PopcopProtocol, Idle p →
      ∃ evs : List Event,
        (run env fuel p).endpoint.log = p.log ++ evs ∧ NoAssertionFailed evs := by
  induction fuel with
  | zero =>
    intro p _
    exact ⟨[], by simp [run, Outcome.endpoint], noAssertionFailed_nil⟩
  | succ n ih =>
    intro p hidle
    unfold run
    simp only []
    have hidle1 := idle_record p (Event.shouldExit (env.shouldExit p.log)) rfl hidle
    cases hexit : env.shouldExit p.log with
    | true =>
      exact ⟨[Event.shouldExit true], by simp [Outcome.endpoint, record],
        fun a ha => by simp at ha⟩
    | false =>
      rw [hexit] at hidle1
      simp only [Bool.not_false, if_true]
      obtain ⟨evs, hlog, hfail, hret⟩ := loopOnce_safe env h1 h2 n _ hidle1
      cases hlo : loopOnce env (upgradeApp env n) (record (Event.shouldExit false) p) with
      | running q1 =>
        rw [hlo] at hlog
        simp only [Outcome.endpoint] at hlog ⊢
        exact ⟨[Event.shouldExit false] ++ evs, by simp [hlog, record],
          noAssertionFailed_append (fun a ha => by simp at ha) hfail⟩
      | returned q1 =>
        rw [hlo] at hlog
        simp only [Outcome.endpoint] at hlog
        obtain ⟨evs2, hlog2, hfail2⟩ := ih q1 (hret q1 hlo)
        exact ⟨[Event.shouldExit false] ++ evs ++ evs2, by rw [hlog2, hlog]; simp [record],
          noAssertionFailed_append
            (noAssertionFailed_append (fun a ha => by simp at ha) hfail) hfail2⟩

theorem idle_new (ni : NodeInfoMessage) : Idle (PopcopProtocol.new ni) :=
  ⟨rfl, rfl⟩

/-- C2: take a controller that reports AppUpgradeInProgress exactly while its `upgradeApp`
is in progress and that calls `downloadImage` at most once per `upgradeApp`.  Then in every
execution of `run` on a freshly constructed endpoint, cut at any point or run to its end,
whatever bytes and frames arrive, no assertion fails.  The second part says what that
means for the status replies: a call of `sendBootloaderStatusResponse` fails no assertion
exactly when the state it reports is AppUpgradeInProgress if and only if a sink is bound
at that moment. -/
theorem C2_status_reply_agrees_with_sink (env : Collaborators)
    (h1 : TracksUpgradeApp env) (h2 : CallsDownloadImageAtMostOnce env)
    (ni : NodeInfoMessage) (fuel : Nat) :
    (∀ a, Event.assertionFailed a ∉ (run env fuel (PopcopProtocol.new ni)).endpoint.log) ∧
    (∀ p : PopcopProtocol,
      (∀ a, Event.assertionFailed a ∉
        (sendBootloaderStatusResponse env p).log.drop p.log.length) ↔
      ((∃ t, statusResponses ((sendBootloaderStatusResponse env p).log.drop p.log.length) =
          [{ timestamp := t, state := BootloaderState.AppUpgradeInProgress }]) ↔
        p.download_sink_ ≠ none)) := by
  constructor
  · obtain ⟨evs, hlog, hfail⟩ := run_safe env h1 h2 fuel (PopcopProtocol.new ni) (idle_new ni)
    intro a ha
    rw [hlog] at ha
    simp only [PopcopProtocol.new, List.nil_append] at ha
    exact hfail a ha
  · intro p
    obtain ⟨pre, heq, hpre, hiff⟩ := sendBootloaderStatusResponse_eq env p
    rw [heq]
    simp only [List.append_assoc, List.drop_left]
    have hstate : (∃ t, statusResponses (pre ++ [Event.send (Message.bootloaderStatusResponse
          { timestamp := env.getMonotonicUptime p.log
            state := sameNamedState (env.getState p.log) })]) =
          [{ timestamp := t, state := BootloaderState.AppUpgradeInProgress }]) ↔
        env.getState p.log = State.AppUpgradeInProgress := by
      have hs : statusResponses (pre ++ [Event.send (Message.bootloaderStatusResponse
          { timestamp := env.getMonotonicUptime p.log
            state := sameNamedState (env.getState p.log) })]) =
          [{ timestamp := env.getMonotonicUptime p.log
             state := sameNamedState (env.getState p.log) }] := by
        rcases hpre with rfl | ⟨a, rfl⟩ <;> simp [statusResponses]
      rw [hs]
      constructor
      · rintro ⟨t, ht⟩
        simp only [List.cons.injEq, BootloaderStatusResponseMessage.mk.injEq, and_true] at ht
        cases hst : env.getState p.log <;> rw [hst] at ht <;>
          simp [sameNamedState] at ht ⊢
      · intro hst
        exact ⟨env.getMonotonicUptime p.log, by simp [hst, sameNamedState]⟩
    rw [hstate, ← hiff]
    constructor
    · intro h
      rcases hpre with rfl | ⟨a, rfl⟩
      · rfl
      · exact absurd (by simp) (h a)
    · rintro rfl a ha
      simp at ha

/-- A witness of C2: the scripted host, whose controller is of the kind required. -/
theorem C2_status_reply_agrees_with_sink_witness :
    (∀ a, Event.assertionFailed a ∉
      (run (scriptedCollaborators 0) 20 (PopcopProtocol.new {})).endpoint.log) ∧
    (∀ p : PopcopProtocol,
      (∀ a, Event.assertionFailed a ∉
        (sendBootloaderStatusResponse (scriptedCollaborators 0) p).log.drop p.log.length) ↔
      ((∃ t, statusResponses
          ((sendBootloaderStatusResponse (scriptedCollaborators 0) p).log.drop p.log.length) =
          [{ timestamp := t, state := BootloaderState.AppUpgradeInProgress }]) ↔
        p.download_sink_ ≠ none)) :=
  C2_status_reply_agrees_with_sink (scriptedCollaborators 0)
    (fun log => by cases h : upgradeAppInProgress log <;> simp [scriptedCollaborators, h])
    (fun log h => by simp [scriptedCollaborators, h]) {} 20

/-! ### Application chunks -/

/-- An Application request processed while a sink is bound: what becomes of the sink and of
the status code. -/
theorem processBootloaderImageDataRequest_application (env : Collaborators)
    (req : BootloaderImageDataRequestMessage) (p : PopcopProtocol) (sink : Nat)
    (htype : req.image_type = BootloaderImageType.Application)
    (hsink : p.download_sink_ = some sink) :
    (processBootloaderImageDataRequest env req p).download_sink_ =
      (if req.image_data.length < env.ImageDataMaxSize then none else some sink) ∧
    (processBootloaderImageDataRequest env req p).upgrade_status_code_ =
      (if req.image_data = [] then p.upgrade_status_code_
       else if 0 ≤ env.handleNextDataChunk p.log sink req.image_data
          (req.image_data.length % 65536) then 0
       else env.handleNextDataChunk p.log sink req.image_data
          (req.image_data.length % 65536)) := by
  obtain ⟨ni, sink0, reached, code, log⟩ := p
  simp only [] at hsink
  subst hsink
  have hcoa : ∀ (q : PopcopProtocol) (resp : BootloaderImageDataResponseMessage),
      (caseCertificateOfAuthenticity env req (q, resp)).1.download_sink_ = q.download_sink_ ∧
      (caseCertificateOfAuthenticity env req (q, resp)).1.upgrade_status_code_ =
        q.upgrade_status_code_ := by
    intro q resp
    obtain ⟨evs, chunk, h, -⟩ := caseCertificateOfAuthenticity_eq env req q resp
    rw [h q rfl]
    exact ⟨rfl, rfl⟩
  simp only [processBootloaderImageDataRequest, htype, send, record]
  rw [← htype, (hcoa _ _).1, (hcoa _ _).2]
  by_cases hempty : req.image_data = []
  · by_cases hsize : req.image_data.length < env.ImageDataMaxSize
    · simp [caseApplication, hempty, hsize] at hsize ⊢
      simp [hsize]
    · simp [caseApplication, hempty, hsize] at hsize ⊢
      simp [hsize]
  · by_cases hres : 0 ≤ env.handleNextDataChunk log sink req.image_data
        (req.image_data.length % 65536)
    · by_cases hsize : req.image_data.length < env.ImageDataMaxSize
      · simp [caseApplication, hempty, hsize, hres, record]
      · simp [caseApplication, hempty, hsize, hres, record]
    · by_cases hsize : req.image_data.length < env.ImageDataMaxSize
      · simp [caseApplication, hempty, hsize, hres, record]
      · simp [caseApplication, hempty, hsize, hres, record]

theorem downloadImageLoop_imageData (env : Collaborators)
    (upgradeApp : PopcopProtocol → Outcome PopcopProtocol) (k : Nat) (p : PopcopProtocol)
    (byte : Nat) (req : BootloaderImageDataRequestMessage)
    (hsink : p.download_sink_ ≠ none) (hcode : 0 ≤ p.upgrade_status_code_)
    (h : ReceivesImageData env p byte req) :
    downloadImageLoop env upgradeApp (k + 1) p =
      downloadImageLoop env upgradeApp k (afterImageData env p byte req) := by
  obtain ⟨hexit, hreceive, frame, hframe, h1, h2, h3, h4, h5⟩ := h
  have hguard : (!false) = true ∧
      (record (Event.shouldExit false) p).download_sink_ ≠ none ∧
      (record (Event.shouldExit false) p).upgrade_status_code_ ≥ 0 :=
    ⟨rfl, hsink, hcode⟩
  have hloop : loopOnce env upgradeApp (record (Event.shouldExit false) p) =
      Outcome.returned (afterImageData env p byte req) := by
    unfold loopOnce
    simp only [hreceive]
    unfold processByte
    simp only [hframe]
    unfold processFrame
    simp only [h1, h2, h3, h4, h5, if_true]
    rfl
  conv_lhs => unfold downloadImageLoop
  simp only [hexit]
  rw [if_pos hguard, hloop]

theorem downloadImageLoop_exit (env : Collaborators)
    (upgradeApp : PopcopProtocol → Outcome PopcopProtocol) (k : Nat) (p : PopcopProtocol)
    (hsink : p.download_sink_ = none) :
    downloadImageLoop env upgradeApp (k + 1) p =
      Outcome.returned (record (Event.shouldExit (env.shouldExit p.log)) p) := by
  unfold downloadImageLoop
  simp [record, hsink]

/-- C6: an Application request processed while a sink is bound clears `download_sink_`
when its chunk is shorter than the maximum chunk size, whatever the sink returns, and
leaves it bound to the same sink when the chunk has the maximum size.  Consequently, take a
call of `downloadImage` whose loop arrives (after `n` evaluations of its condition) at an
iteration that dispatches a full-size chunk the sink accepts, and later (after `m` more)
at an iteration that dispatches an undersized chunk the sink accepts: after the first
chunk the sink is still bound, the status code is 0 and the call has not returned (with
the budget ending there it is still running); with any larger budget the call returns 0
at the very next evaluation of the loop condition after the second chunk, with the sink
null. -/
theorem C6_undersized_chunk_ends_session (env : Collaborators) :
    (∀ (req : BootloaderImageDataRequestMessage) (p : PopcopProtocol) (sink : Nat),
      req.image_type = BootloaderImageType.Application →
      p.download_sink_ = some sink →
      (req.image_data.length < env.ImageDataMaxSize →
        (processBootloaderImageDataRequest env req p).download_sink_ = none) ∧
      (req.image_data.length = env.ImageDataMaxSize →
        (processBootloaderImageDataRequest env req p).download_sink_ = some sink)) ∧
    (∀ (upgradeApp : PopcopProtocol → Outcome PopcopProtocol) (sink : Nat)
      (p0 p p1 : PopcopProtocol) (n m fuel byte1 byte2 : Nat)
      (req1 req2 : BootloaderImageDataRequestMessage),
      LoopArrives env upgradeApp n (downloadImageEntry env sink p0) p →
      p.download_sink_ = some sink →
      0 ≤ p.upgrade_status_code_ →
      ReceivesImageData env p byte1 req1 →
      req1.image_type = BootloaderImageType.Application →
      req1.image_data.length = env.ImageDataMaxSize →
      AcceptsChunk env (atDispatch p byte1) sink req1 →
      LoopArrives env upgradeApp m (afterImageData env p byte1 req1) p1 →
      p1.download_sink_ = some sink →
      0 ≤ p1.upgrade_status_code_ →
      ReceivesImageData env p1 byte2 req2 →
      req2.image_type = BootloaderImageType.Application →
      req2.image_data.length < env.ImageDataMaxSize →
      AcceptsChunk env (atDispatch p1 byte2) sink req2 →
      (afterImageData env p byte1 req1).download_sink_ = some sink ∧
      (afterImageData env p byte1 req1).upgrade_status_code_ = 0 ∧
      downloadImage env upgradeApp (n + 1) sink p0 =
        Outcome.running (afterImageData env p byte1 req1) ∧
      ∃ q : PopcopProtocol,
        downloadImage env upgradeApp (n + (m + (fuel + 1 + 1) + 1)) sink p0 =
          Outcome.returned (0, q) ∧
        q.download_sink_ = none ∧
        q.upgrade_status_code_ = 0 ∧
        q.log = (afterImageData env p1 byte2 req2).log ++
          [Event.shouldExit (env.shouldExit (afterImageData env p1 byte2 req2).log),
           Event.downloadImageEnd 0]) := by
  constructor
  · intro req p sink htype hsink
    have h := (processBootloaderImageDataRequest_application env req p sink htype hsink).1
    constructor
    · intro hlt
      rw [h, if_pos hlt]
    · intro heq
      rw [h, if_neg (by omega)]
  · intro upgradeApp sink p0 p p1 n m fuel byte1 byte2 req1 req2 harr hsink hcode hrecv1
      htype1 hfull hacc1 harr1 hsink1 hcode1 hrecv2 htype2 hunder hacc2
    have hs : (atDispatch p byte1).download_sink_ = some sink := hsink
    have hs1 : (atDispatch p1 byte2).download_sink_ = some sink := hsink1
    obtain ⟨ha1, ha2⟩ :=
      processBootloaderImageDataRequest_application env req1 (atDispatch p byte1) sink htype1 hs
    obtain ⟨hb1, hb2⟩ :=
      processBootloaderImageDataRequest_application env req2 (atDispatch p1 byte2) sink htype2
        hs1
    rw [if_neg (by omega)] at ha1
    rw [if_neg hacc1.1, if_pos hacc1.2] at ha2
    rw [if_pos hunder] at hb1
    rw [if_neg hacc2.1, if_pos hacc2.2] at hb2
    have hstep1 := fun k => downloadImageLoop_imageData env upgradeApp k p byte1 req1
      (by rw [hsink]; simp) hcode hrecv1
    have hstep2 := fun k => downloadImageLoop_imageData env upgradeApp k p1 byte2 req2
      (by rw [hsink1]; simp) hcode1 hrecv2
    have hexit := downloadImageLoop_exit env upgradeApp fuel (afterImageData env p1 byte2 req2)
      hb1
    refine ⟨ha1, ha2, ?_, ?_⟩
    · unfold downloadImage
      simp only []
      rw [harr 1, hstep1 0]
      rfl
    · refine ⟨record (Event.downloadImageEnd 0)
        { record (Event.shouldExit (env.shouldExit (afterImageData env p1 byte2 req2).log))
            (afterImageData env p1 byte2 req2) with download_sink_ := none }, ?_, rfl, hb2, ?_⟩
      · unfold downloadImage
        simp only []
        rw [harr (m + (fuel + 1 + 1) + 1), hstep1, harr1 (fuel + 1 + 1), hstep2, hexit]
        have hb3 : (afterImageData env p1 byte2 req2).upgrade_status_code_ = 0 := hb2
        simp only [record]
        rw [hb3]
      · simp [record]

/-- A witness of C6: the session of the scripted host, with a poll before each of the two
chunks. -/
theorem C6_undersized_chunk_ends_session_witness :
    (afterImageData (scriptedCollaborators 0) beforeFullChunk 1
      fullChunkRequest).download_sink_ = some 1 ∧
    (afterImageData (scriptedCollaborators 0) beforeFullChunk 1
      fullChunkRequest).upgrade_status_code_ = 0 ∧
    downloadImage (scriptedCollaborators 0) (fun p => Outcome.running p) (1 + 1) 1
        upgradeBegun =
      Outcome.running (afterImageData (scriptedCollaborators 0) beforeFullChunk 1
        fullChunkRequest) ∧
    ∃ q : PopcopProtocol,
      downloadImage (scriptedCollaborators 0) (fun p => Outcome.running p)
          (1 + (1 + (0 + 1 + 1) + 1)) 1 upgradeBegun = Outcome.returned (0, q) ∧
      q.download_sink_ = none ∧
      q.upgrade_status_code_ = 0 ∧
      q.log = (afterImageData (scriptedCollaborators 0) beforeLastChunk 3
          lastChunkRequest).log ++
        [Event.shouldExit ((scriptedCollaborators 0).shouldExit
          (afterImageData (scriptedCollaborators 0) beforeLastChunk 3 lastChunkRequest).log),
         Event.downloadImageEnd 0] :=
  (C6_undersized_chunk_ends_session (scriptedCollaborators 0)).2
    (fun p => Outcome.running p) 1 upgradeBegun beforeFullChunk beforeLastChunk 1 1 0 1 3
    fullChunkRequest lastChunkRequest
    (fun k => by rw [Nat.add_comm]; rfl) rfl (by decide)
    ⟨rfl, rfl, { type_code := 255, payload := [1] }, rfl, rfl, rfl, rfl, rfl, rfl⟩
    rfl rfl ⟨by decide, by decide⟩
    (fun k => by rw [Nat.add_comm]; rfl) rfl (by decide)
    ⟨rfl, rfl, { type_code := 255, payload := [3] }, rfl, rfl, rfl, rfl, rfl, rfl⟩
    rfl (by decide) ⟨by decide, by decide⟩

set_option maxRecDepth 8000 in
/-- C5, evaluated: a session is active, the request is an Application chunk `[7, 7]` at
offset 0 and the sink accepts it (it returns 0), on the platform with the default
certificate primitive.  The Application case runs on into the CertificateOfAuthenticity
case, which overwrites the chunk of the response: the response sent carries an empty
chunk, not the chunk of the request.  The status code is 0 afterwards. -/
theorem C5_accepted_chunk_not_echoed :
    0 ≤ quietCollaborators.handleNextDataChunk [] 1 [7, 7] 2 ∧
    processBootloaderImageDataRequest quietCollaborators
      { image_offset := 0, image_type := BootloaderImageType.Application,
        image_data := [7, 7] }
      { download_sink_ := some 1, download_image_reached_ := true } =
      { download_sink_ := none
        download_image_reached_ := true
        upgrade_status_code_ := 0
        log :=
          [Event.handleNextDataChunk 1 [7, 7] 2 0,
           Event.writeAndReadBackCertificateOfAuthenticity [7, 7] 2 0
             ([7, 7] ++ List.replicate 254 0),
           Event.send (Message.bootloaderImageDataResponse
             { image_offset := 0, image_type := BootloaderImageType.Application,
               image_data := [] })] } :=
  ⟨by decide, rfl⟩

/-- What does hold of an accepted Application chunk: the status code is 0 afterwards, and
the response carries the chunk of the request when the request does not also pass the test
of the CertificateOfAuthenticity case (offset 0 and fewer than 255 bytes). -/
theorem application_chunk_accepted (env : Collaborators)
    (req : BootloaderImageDataRequestMessage) (p : PopcopProtocol) (sink : Nat)
    (htype : req.image_type = BootloaderImageType.Application)
    (hsink : p.download_sink_ = some sink)
    (hacc : AcceptsChunk env p sink req) :
    (processBootloaderImageDataRequest env req p).upgrade_status_code_ = 0 ∧
    (¬ (req.image_offset = 0 ∧ req.image_data.length < CertificateOfAuthenticityMaxLength) →
      sent ((processBootloaderImageDataRequest env req p).log.drop p.log.length) =
        [Message.bootloaderImageDataResponse
          { image_offset := req.image_offset
            image_type := BootloaderImageType.Application
            image_data := req.image_data }]) := by
  constructor
  · rw [(processBootloaderImageDataRequest_application env req p sink htype hsink).2,
      if_neg hacc.1, if_pos hacc.2]
  · intro hcoa
    obtain ⟨ni, sink0, reached, code, log⟩ := p
    simp only [] at hsink
    subst hsink
    obtain ⟨hne, hres⟩ := hacc
    simp only [] at hres
    by_cases hsize : req.image_data.length < env.ImageDataMaxSize
    · simp [processBootloaderImageDataRequest, htype, caseApplication,
        caseCertificateOfAuthenticity, hne, hres, hsize, hcoa, send, record, sent]
    · simp [processBootloaderImageDataRequest, htype, caseApplication,
        caseCertificateOfAuthenticity, hne, hres, hsize, hcoa, send, record, sent]

/-! ### The Application case runs on -/

/-- C12: a status request that asks for BootCancelled (for ReadyToBoot) makes the handler
return, whatever `upgradeApp` would do, with the three members unchanged and the history
grown by: one call of `cancelBoot` (of `requestBoot`), then at most one failed assertion,
then one status reply whose timestamp and state are those the controller reports after
that call. -/
theorem C12_cancel_and_boot_requests (env : Collaborators)
    (upgradeApp : PopcopProtocol → Outcome PopcopProtocol)
    (req : BootloaderStatusRequestMessage) (p : PopcopProtocol) (call : Event)
    (hreq : (req.desired_state = BootloaderState.BootCancelled ∧ call = Event.cancelBoot) ∨
      (req.desired_state = BootloaderState.ReadyToBoot ∧ call = Event.requestBoot)) :
    ∃ pre : List Event,
      processBootloaderStatusRequest env upgradeApp req p =
        Outcome.returned { p with log := p.log ++ [call] ++ pre ++
          [Event.send (Message.bootloaderStatusResponse
            { timestamp := env.getMonotonicUptime (p.log ++ [call])
              state := sameNamedState (env.getState (p.log ++ [call])) })] } ∧
      (pre = [] ∨ ∃ a, pre = [Event.assertionFailed a]) ∧
      Event.upgradeAppBegin ∉ [call] ++ pre := by
  rcases hreq with ⟨hd, rfl⟩ | ⟨hd, rfl⟩
  · obtain ⟨pre, h, hpre, -⟩ := sendBootloaderStatusResponse_eq env (record Event.cancelBoot p)
    refine ⟨pre, ?_, hpre, ?_⟩
    · simp only [processBootloaderStatusRequest, hd]
      rw [h]
      rfl
    · rcases hpre with rfl | ⟨a, rfl⟩ <;> simp
  · obtain ⟨pre, h, hpre, -⟩ := sendBootloaderStatusResponse_eq env (record Event.requestBoot p)
    refine ⟨pre, ?_, hpre, ?_⟩
    · simp only [processBootloaderStatusRequest, hd]
      rw [h]
      rfl
    · rcases hpre with rfl | ⟨a, rfl⟩ <;> simp

/-- A witness of C12: a request for BootCancelled outside a session. -/
theorem C12_cancel_and_boot_requests_witness :
    ∃ pre : List Event,
      processBootloaderStatusRequest quietCollaborators (fun p => Outcome.running p)
          { desired_state := BootloaderState.BootCancelled } {} =
        Outcome.returned { ({} : PopcopProtocol) with
          log := ({} : PopcopProtocol).log ++ [Event.cancelBoot] ++ pre ++
          [Event.send (Message.bootloaderStatusResponse
            { timestamp := quietCollaborators.getMonotonicUptime
                (({} : PopcopProtocol).log ++ [Event.cancelBoot])
              state := sameNamedState (quietCollaborators.getState
                (({} : PopcopProtocol).log ++ [Event.cancelBoot])) })] } ∧
      (pre = [] ∨ ∃ a, pre = [Event.assertionFailed a]) ∧
      Event.upgradeAppBegin ∉ [Event.cancelBoot] ++ pre :=
  C12_cancel_and_boot_requests quietCollaborators (fun p => Outcome.running p)
    { desired_state := BootloaderState.BootCancelled } {} Event.cancelBoot
    (Or.inl ⟨rfl, rfl⟩)

/-- C13: a status request that asks for NoAppToBoot or BootDelay makes the handler return
the endpoint as it was, whatever `upgradeApp` would do: no controller operation is
recorded, nothing is sent, no member changes. -/
theorem C13_no_action_requests (env : Collaborators)
    (upgradeApp : PopcopProtocol → Outcome PopcopProtocol)
    (req : BootloaderStatusRequestMessage) (p : PopcopProtocol)
    (hreq : req.desired_state = BootloaderState.NoAppToBoot ∨
      req.desired_state = BootloaderState.BootDelay) :
    processBootloaderStatusRequest env upgradeApp req p = Outcome.returned p := by
  rcases hreq with hd | hd <;> simp [processBootloaderStatusRequest, hd]

/-- A witness of C13: a request for BootDelay during a session. -/
theorem C13_no_action_requests_witness :
    processBootloaderStatusRequest quietCollaborators (fun p => Outcome.running p)
      { desired_state := BootloaderState.BootDelay } { download_sink_ := some 1 } =
      Outcome.returned { download_sink_ := some 1 } :=
  C13_no_action_requests quietCollaborators (fun p => Outcome.running p)
    { desired_state := BootloaderState.BootDelay } { download_sink_ := some 1 } (Or.inr rfl)

/-! ### Device management -/

/-- C14: a device management request.  For LaunchBootloader the history grows by the
response alone, with the request's command and status Ok, so the platform's handler is not
invoked; for every other command it grows by one call of
`processUnhandledDeviceManagementCommand` on the request followed by the response, with the
request's command and the status that call returned.  The members are unchanged. -/
theorem C14_device_management (env : Collaborators)
    (req : DeviceManagementCommandRequestMessage) (p : PopcopProtocol) :
    (req.command = DeviceManagementCommand.LaunchBootloader →
      processDeviceManagementCommandRequest env req p =
        { p with log := p.log ++ [Event.send (Message.deviceManagementCommandResponse
          { command := req.command, status := Status.Ok })] }) ∧
    (req.command ≠ DeviceManagementCommand.LaunchBootloader →
      processDeviceManagementCommandRequest env req p =
        { p with log := p.log ++
          [Event.processUnhandledDeviceManagementCommand req
             (env.processUnhandledDeviceManagementCommand p.log req),
           Event.send (Message.deviceManagementCommandResponse
             { command := req.command
               status := env.processUnhandledDeviceManagementCommand p.log req })] }) ∧
    ∃ status, sent ((processDeviceManagementCommandRequest env req p).log.drop p.log.length) =
      [Message.deviceManagementCommandResponse { command := req.command, status := status }] := by
  by_cases h : req.command = DeviceManagementCommand.LaunchBootloader
  · refine ⟨fun _ => ?_, fun hne => absurd h hne, Status.Ok, ?_⟩
    · simp [processDeviceManagementCommandRequest, h, send, record]
    · simp [processDeviceManagementCommandRequest, h, send, record, sent]
  · refine ⟨fun heq => absurd heq h, fun _ => ?_,
      env.processUnhandledDeviceManagementCommand p.log req, ?_⟩
    · simp [processDeviceManagementCommandRequest, h, send, record]
    · simp [processDeviceManagementCommandRequest, h, send, record, sent]

/-- A witness of C14: a command other than LaunchBootloader. -/
theorem C14_device_management_witness :
    processDeviceManagementCommandRequest quietCollaborators
        { command := DeviceManagementCommand.other 0 } {} =
      { ({} : PopcopProtocol) with log := ({} : PopcopProtocol).log ++
        [Event.processUnhandledDeviceManagementCommand
           { command := DeviceManagementCommand.other 0 }
           (quietCollaborators.processUnhandledDeviceManagementCommand
             ({} : PopcopProtocol).log { command := DeviceManagementCommand.other 0 }),
         Event.send (Message.deviceManagementCommandResponse
           { command := DeviceManagementCommand.other 0
             status := quietCollaborators.processUnhandledDeviceManagementCommand
               ({} : PopcopProtocol).log { command := DeviceManagementCommand.other 0 } })] } :=
  (C14_device_management quietCollaborators
    { command := DeviceManagementCommand.other 0 } {}).2.1 (by decide)

/-! ### Routing of frames -/

/-- An image data request is answered by exactly one message, the response with the type
and the offset of the request. -/
theorem processBootloaderImageDataRequest_sent (env : Collaborators)
    (req : BootloaderImageDataRequestMessage) (p : PopcopProtocol) :
    ∃ (evs : List Event) (chunk : List Nat),
      (processBootloaderImageDataRequest env req p).log = p.log ++ evs ∧
      sent evs = [Message.bootloaderImageDataResponse
        { image_offset := req.image_offset
          image_type := req.image_type
          image_data := chunk }] := by
  obtain ⟨evs1, sink, code, resp1, h1, -, hevs1⟩ := caseApplication_eq env req p
    { image_offset := req.image_offset, image_type := req.image_type, image_data := [] }
  have hresp : resp1.image_offset = req.image_offset ∧ resp1.image_type = req.image_type := by
    have h2 := congrArg Prod.snd h1
    simp only [] at h2
    rw [← h2]
    unfold caseApplication
    simp only []
    split <;> (try split) <;> (try split) <;> (try split) <;> exact ⟨rfl, rfl⟩
  have key : ∀ (p1 : PopcopProtocol) (resp : BootloaderImageDataResponseMessage)
      (evs0 : List Event), p1.log = p.log ++ evs0 → sent evs0 = [] →
      resp.image_offset = req.image_offset → resp.image_type = req.image_type →
      ∃ (evs : List Event) (chunk : List Nat),
        (send (Message.bootloaderImageDataResponse
          (caseCertificateOfAuthenticity env req (p1, resp)).2)
          (caseCertificateOfAuthenticity env req (p1, resp)).1).log = p.log ++ evs ∧
        sent evs = [Message.bootloaderImageDataResponse
          { image_offset := req.image_offset
            image_type := req.image_type
            image_data := chunk }] := by
    intro p1 resp evs0 hlog hsent ho ht
    obtain ⟨evs2, chunk, h2, hevs2⟩ := caseCertificateOfAuthenticity_eq env req p1 resp
    rw [h2 p1 rfl]
    refine ⟨evs0 ++ evs2 ++ [Event.send (Message.bootloaderImageDataResponse
      { resp with image_data := chunk })], chunk, ?_, ?_⟩
    · simp [send, record, hlog]
    · have hs2 : sent evs2 = [] := by
        rcases hevs2 with rfl | ⟨i, l, r, o, rfl⟩ <;> rfl
      simp [sent_append, hsent, hs2, sent, ho, ht]
  unfold processBootloaderImageDataRequest
  cases htype : req.image_type with
  | Application =>
    simp only [htype] at h1 hresp
    simp only []
    rw [h1]
    have hs1 : sent evs1 = [] := by
      rcases hevs1 with ⟨rfl, -⟩ | ⟨s, d, n, r, rfl, -⟩ <;> rfl
    simpa [htype] using key _ resp1 evs1 rfl hs1 hresp.1 (by rw [hresp.2, htype])
  | CertificateOfAuthenticity =>
    simp only []
    simpa [htype] using key p
      { image_offset := req.image_offset
        image_type := BootloaderImageType.CertificateOfAuthenticity
        image_data := [] } [] (by simp) rfl rfl htype.symm

theorem log_ne_of_sent (p q : PopcopProtocol) (evs : List Event) (frame : Frame)
    (hlog : q.log = p.log ++ evs) (hsent : sent evs ≠ []) :
    q ≠ record (Event.processUnhandledFrame frame) p := by
  intro h
  have h2 : q.log = p.log ++ [Event.processUnhandledFrame frame] := by rw [h]; rfl
  rw [hlog] at h2
  have h3 := List.append_cancel_left h2
  rw [h3] at hsent
  exact hsent rfl

/-- The effect of `processNodeInfoRequest`: one message is sent, the prototype with its
software version overwritten from the application descriptor when there is one. -/
theorem processNodeInfoRequest_eq (env : Collaborators) (p : PopcopProtocol) :
    ∃ m : NodeInfoMessage,
      processNodeInfoRequest env p =
        { p with log := p.log ++ [Event.send (Message.nodeInfo m)] } ∧
      m.mode = p.node_info_prototype_.mode ∧
      m.identity = p.node_info_prototype_.identity ∧
      (env.getAppInfo p.log = none →
        m.software_version = p.node_info_prototype_.software_version) ∧
      (∀ ai, env.getAppInfo p.log = some ai →
        m.software_version =
          { major := ai.major_version
            minor := ai.minor_version
            vcs_commit_id := ai.vcs_commit
            image_crc := some ai.image_crc
            release_build := ai.isReleaseBuild
            dirty_build := ai.isDirtyBuild
            build_timestamp_utc :=
              if ai.isBuildTimestampValid then ai.build_timestamp_utc else 0 }) := by
  unfold processNodeInfoRequest
  cases h : env.getAppInfo p.log with
  | none =>
    exact ⟨p.node_info_prototype_, rfl, rfl, rfl, fun _ => rfl, fun ai hai => by cases hai⟩
  | some ai =>
    refine ⟨_, rfl, rfl, rfl, fun hn => (by cases hn), fun ai2 hai => ?_⟩
    injection hai with hai
    subst hai
    rfl

/-- A status request is never handled by passing a frame to `processUnhandledFrame`. -/
theorem processBootloaderStatusRequest_ne_unhandled (env : Collaborators) (fuel : Nat)
    (req : BootloaderStatusRequestMessage) (p : PopcopProtocol) (frame : Frame) :
    processBootloaderStatusRequest env (upgradeApp env fuel) req p ≠
      Outcome.returned (record (Event.processUnhandledFrame frame) p) := by
  have hstatus : ∀ (p0 p1 : PopcopProtocol) (evs0 : List Event), p1.log = p0.log ++ evs0 →
      sendBootloaderStatusResponse env p1 ≠ record (Event.processUnhandledFrame frame) p0 := by
    intro p0 p1 evs0 hlog
    obtain ⟨pre, h, hpre, -⟩ := sendBootloaderStatusResponse_eq env p1
    refine log_ne_of_sent p0 _ (evs0 ++ pre ++ [Event.send (Message.bootloaderStatusResponse
      { timestamp := env.getMonotonicUptime p1.log
        state := sameNamedState (env.getState p1.log) })]) frame ?_ ?_
    · rw [h]; simp [hlog]
    · simp [sent_append, sent]
  have hself : p ≠ record (Event.processUnhandledFrame frame) p := by
    intro h
    have h2 := congrArg (fun x => x.log.length) h
    simp [record] at h2
  intro heq
  unfold processBootloaderStatusRequest at heq
  cases hd : req.desired_state with
  | NoAppToBoot =>
    simp only [hd] at heq
    injection heq with heq
    exact hself heq
  | BootDelay =>
    simp only [hd] at heq
    injection heq with heq
    exact hself heq
  | BootCancelled =>
    simp only [hd] at heq
    injection heq with heq
    exact hstatus p (record Event.cancelBoot p) [Event.cancelBoot] rfl heq
  | ReadyToBoot =>
    simp only [hd] at heq
    injection heq with heq
    exact hstatus p (record Event.requestBoot p) [Event.requestBoot] rfl heq
  | AppUpgradeInProgress =>
    simp only [hd] at heq
    by_cases hs : p.download_sink_ = none
    · simp only [hs, beq_self_eq_true, if_true] at heq
      cases hup : upgradeApp env fuel
          { p with
            download_sink_ := none
            download_image_reached_ := false
            upgrade_status_code_ := 0 } with
      | running q1 =>
        rw [hup] at heq
        cases heq
      | returned q0 =>
        rw [hup] at heq
        simp only [] at heq
        obtain ⟨sessions, hlog, -⟩ := upgradeApp_returned env fuel _ q0 hup
        simp only [] at hlog
        have hfirst : ∀ (q : PopcopProtocol) (tail : List Event), q.log = q0.log ++ tail →
            q ≠ record (Event.processUnhandledFrame frame) p := by
          intro q tail hq h
          have h2 : q.log = p.log ++ [Event.processUnhandledFrame frame] := by rw [h]; rfl
          rw [hq, hlog] at h2
          simp only [List.append_assoc] at h2
          have h3 := List.append_cancel_left h2
          simp at h3
        split at heq
        · injection heq with heq
          obtain ⟨pre, h, -, -⟩ := sendBootloaderStatusResponse_eq env q0
          refine hfirst _ (pre ++ [Event.send (Message.bootloaderStatusResponse
            { timestamp := env.getMonotonicUptime q0.log
              state := sameNamedState (env.getState q0.log) })]) ?_ heq
          rw [h]; simp
        · injection heq with heq
          exact hfirst q0 [] (by simp) heq
    · have hs2 : (p.download_sink_ == none) = false := by
        cases hp : p.download_sink_ with
        | none => exact absurd hp hs
        | some k => rfl
      simp only [hs2] at heq
      injection heq with heq
      exact hstatus p p [] (by simp) heq

/-- C15: the routing of a received frame.  A frame whose type code is the standard one is
handled by the first of the four handlers whose decoder accepts the payload, in the order
NodeInfo, DeviceManagementCommandRequest, BootloaderStatusRequest,
BootloaderImageDataRequest, whatever the later decoders would say; and the frame is handed
unchanged to `processUnhandledFrame`, with nothing sent and no member changed, exactly when
its type code is not the standard one or no decoder accepts its payload. -/
theorem C15_frame_routing (env : Collaborators) (fuel : Nat) (frame : Frame)
    (p : PopcopProtocol) :
    (frame.type_code = env.StandardFrameTypeCode →
      env.tryDecodeNodeInfoMessage frame.payload = true →
      processFrame env (upgradeApp env fuel) frame p =
        Outcome.returned (processNodeInfoRequest env p)) ∧
    (∀ dmcr, frame.type_code = env.StandardFrameTypeCode →
      env.tryDecodeNodeInfoMessage frame.payload = false →
      env.tryDecodeDeviceManagementCommandRequestMessage frame.payload = some dmcr →
      processFrame env (upgradeApp env fuel) frame p =
        Outcome.returned (processDeviceManagementCommandRequest env dmcr p)) ∧
    (∀ bsr, frame.type_code = env.StandardFrameTypeCode →
      env.tryDecodeNodeInfoMessage frame.payload = false →
      env.tryDecodeDeviceManagementCommandRequestMessage frame.payload = none →
      env.tryDecodeBootloaderStatusRequestMessage frame.payload = some bsr →
      processFrame env (upgradeApp env fuel) frame p =
        processBootloaderStatusRequest env (upgradeApp env fuel) bsr p) ∧
    (∀ bidr, frame.type_code = env.StandardFrameTypeCode →
      env.tryDecodeNodeInfoMessage frame.payload = false →
      env.tryDecodeDeviceManagementCommandRequestMessage frame.payload = none →
      env.tryDecodeBootloaderStatusRequestMessage frame.payload = none →
      env.tryDecodeBootloaderImageDataRequestMessage frame.payload = some bidr →
      processFrame env (upgradeApp env fuel) frame p =
        Outcome.returned (processBootloaderImageDataRequest env bidr p)) ∧
    (processFrame env (upgradeApp env fuel) frame p =
        Outcome.returned (record (Event.processUnhandledFrame frame) p) ↔
      (frame.type_code ≠ env.StandardFrameTypeCode ∨
        (env.tryDecodeNodeInfoMessage frame.payload = false ∧
          env.tryDecodeDeviceManagementCommandRequestMessage frame.payload = none ∧
          env.tryDecodeBootloaderStatusRequestMessage frame.payload = none ∧
          env.tryDecodeBootloaderImageDataRequestMessage frame.payload = none))) ∧
    sent [Event.processUnhandledFrame frame] = [] := by
  refine ⟨?_, ?_, ?_, ?_, ?_, rfl⟩
  · intro hc hni
    simp [processFrame, hc, hni]
  · intro dmcr hc hni hd
    simp [processFrame, hc, hni, hd]
  · intro bsr hc hni hd hb
    simp [processFrame, hc, hni, hd, hb]
  · intro bidr hc hni hd hb hi
    simp [processFrame, hc, hni, hd, hb, hi]
  · constructor
    · intro heq
      by_cases hc : frame.type_code = env.StandardFrameTypeCode
      · right
        cases hni : env.tryDecodeNodeInfoMessage frame.payload with
        | true =>
          simp only [processFrame, hc, hni, if_true] at heq
          injection heq with heq
          exfalso
          obtain ⟨m, hm, -⟩ := processNodeInfoRequest_eq env p
          exact log_ne_of_sent p _ [Event.send (Message.nodeInfo m)] frame (by rw [hm])
            (by simp [sent]) heq
        | false =>
          cases hd : env.tryDecodeDeviceManagementCommandRequestMessage frame.payload with
          | some dmcr =>
            simp only [processFrame, hc, hni, hd, if_true] at heq
            simp only [Bool.false_eq_true, if_false] at heq
            injection heq with heq
            exfalso
            by_cases hl : dmcr.command = DeviceManagementCommand.LaunchBootloader
            · refine log_ne_of_sent p _ [Event.send (Message.deviceManagementCommandResponse
                { command := dmcr.command, status := Status.Ok })] frame ?_ (by simp [sent])
                heq
              simp [processDeviceManagementCommandRequest, hl, send, record]
            · refine log_ne_of_sent p _
                [Event.processUnhandledDeviceManagementCommand dmcr
                  (env.processUnhandledDeviceManagementCommand p.log dmcr),
                 Event.send (Message.deviceManagementCommandResponse
                  { command := dmcr.command
                    status := env.processUnhandledDeviceManagementCommand p.log dmcr })]
                frame ?_ (by simp [sent]) heq
              simp [processDeviceManagementCommandRequest, hl, send, record]
          | none =>
            cases hb : env.tryDecodeBootloaderStatusRequestMessage frame.payload with
            | some bsr =>
              simp only [processFrame, hc, hni, hd, hb, if_true] at heq
              simp only [Bool.false_eq_true, if_false] at heq
              exact absurd heq
                (processBootloaderStatusRequest_ne_unhandled env fuel bsr p frame)
            | none =>
              cases hi : env.tryDecodeBootloaderImageDataRequestMessage frame.payload with
              | some bidr =>
                simp only [processFrame, hc, hni, hd, hb, hi, if_true] at heq
                simp only [Bool.false_eq_true, if_false] at heq
                injection heq with heq
                exfalso
                obtain ⟨evs, chunk, hlog, hsent⟩ :=
                  processBootloaderImageDataRequest_sent env bidr p
                exact log_ne_of_sent p _ evs frame hlog (by rw [hsent]; simp) heq
              | none => exact ⟨rfl, rfl, rfl, rfl⟩
      · exact Or.inl hc
    · rintro (hc | ⟨hni, hd, hb, hi⟩)
      · simp [processFrame, hc]
      · by_cases hc : frame.type_code = env.StandardFrameTypeCode
        · simp [processFrame, hc, hni, hd, hb, hi]
        · simp [processFrame, hc]

/-! ### Which assertions can fail where -/

theorem assertionsFrom_refl (p : PopcopProtocol) : AssertionsFrom p p :=
  fun _ h => Or.inl h

theorem assertionsFrom_trans {p q r : PopcopProtocol} (h1 : AssertionsFrom p q)
    (h2 : AssertionsFrom q r) : AssertionsFrom p r := by
  intro a ha
  rcases h2 a ha with h | h
  · exact h1 a h
  · exact Or.inr h

theorem assertionsFrom_of_log (p q : PopcopProtocol) (evs : List Event)
    (hlog : q.log = p.log ++ evs)
    (hevs : ∀ a, Event.assertionFailed a ∈ evs → a.isStatus = true) :
    AssertionsFrom p q := by
  intro a ha
  rw [hlog] at ha
  rcases List.mem_append.mp ha with h | h
  · exact Or.inl h
  · exact Or.inr (hevs a h)

theorem assertionsFrom_record (p : PopcopProtocol) (e : Event)
    (he : ∀ a, e ≠ Event.assertionFailed a) : AssertionsFrom p (record e p) := by
  refine assertionsFrom_of_log p _ [e] rfl ?_
  intro a ha
  simp at ha
  exact absurd ha.symm (he a)

theorem sendBootloaderStatusResponse_assertions (env : Collaborators)
    (p : PopcopProtocol) : AssertionsFrom p (sendBootloaderStatusResponse env p) := by
  obtain ⟨ni, sink, reached, code, log⟩ := p
  intro a
  cases sink <;> cases hs : env.getState log <;>
    simp only [sendBootloaderStatusResponse, hs, assert, send, record] <;>
    intro ha <;> simp at ha <;>
    first
    | exact Or.inl ha
    | (rcases ha with ha | ha
       · exact Or.inl ha
       · right
         rw [ha]
         rfl)

theorem processBootloaderImageDataRequest_assertions (env : Collaborators)
    (req : BootloaderImageDataRequestMessage) (p : PopcopProtocol) :
    AssertionsFrom p (processBootloaderImageDataRequest env req p) := by
  obtain ⟨evs1, sink, code, resp1, h1, -, hevs1⟩ := caseApplication_eq env req p
    { image_offset := req.image_offset, image_type := req.image_type, image_data := [] }
  have key : ∀ (p1 : PopcopProtocol) (resp : BootloaderImageDataResponseMessage)
      (evs0 : List Event), p1.log = p.log ++ evs0 →
      (∀ a, Event.assertionFailed a ∉ evs0) →
      AssertionsFrom p (send (Message.bootloaderImageDataResponse
          (caseCertificateOfAuthenticity env req (p1, resp)).2)
          (caseCertificateOfAuthenticity env req (p1, resp)).1) := by
    intro p1 resp evs0 hlog hno
    obtain ⟨evs2, chunk, h2, hevs2⟩ := caseCertificateOfAuthenticity_eq env req p1 resp
    rw [h2 p1 rfl]
    refine assertionsFrom_of_log p _ (evs0 ++ evs2 ++ [Event.send
      (Message.bootloaderImageDataResponse { resp with image_data := chunk })])
      (by simp [send, record, hlog]) ?_
    intro a ha
    exfalso
    simp only [List.mem_append, List.mem_singleton] at ha
    rcases ha with (ha | ha) | ha
    · exact hno a ha
    · rcases hevs2 with rfl | ⟨i, l, r, o, rfl⟩ <;> simp at ha
    · cases ha
  unfold processBootloaderImageDataRequest
  cases htype : req.image_type with
  | Application =>
    simp only [htype] at h1
    simp only []
    rw [h1]
    refine key _ resp1 evs1 rfl ?_
    intro a ha
    rcases hevs1 with ⟨rfl, -⟩ | ⟨s, d, n, r, rfl, -⟩ <;> simp at ha
  | CertificateOfAuthenticity =>
    simp only []
    exact key p _ [] (by simp) (fun a ha => by cases ha)

theorem processBootloaderStatusRequest_assertions (env : Collaborators)
    (upgradeApp : PopcopProtocol → Outcome PopcopProtocol)
    (req : BootloaderStatusRequestMessage) (p q : PopcopProtocol)
    (h : req.desired_state ≠ BootloaderState.AppUpgradeInProgress ∨ p.download_sink_ ≠ none)
    (hq : processBootloaderStatusRequest env upgradeApp req p = Outcome.returned q) :
    AssertionsFrom p q := by
  unfold processBootloaderStatusRequest at hq
  cases hd : req.desired_state with
  | NoAppToBoot =>
    simp only [hd] at hq
    injection hq with hq
    subst hq
    exact assertionsFrom_refl p
  | BootDelay =>
    simp only [hd] at hq
    injection hq with hq
    subst hq
    exact assertionsFrom_refl p
  | BootCancelled =>
    simp only [hd] at hq
    injection hq with hq
    subst hq
    exact assertionsFrom_trans (assertionsFrom_record p _ (fun a h => by cases h))
      (sendBootloaderStatusResponse_assertions env _)
  | ReadyToBoot =>
    simp only [hd] at hq
    injection hq with hq
    subst hq
    exact assertionsFrom_trans (assertionsFrom_record p _ (fun a h => by cases h))
      (sendBootloaderStatusResponse_assertions env _)
  | AppUpgradeInProgress =>
    have hs : p.download_sink_ ≠ none := by
      rcases h with h | h
      · exact absurd hd h
      · exact h
    have hs2 : (p.download_sink_ == none) = false := by
      cases hp : p.download_sink_ with
      | none => exact absurd hp hs
      | some k => rfl
    simp only [hd, hs2] at hq
    injection hq with hq
    subst hq
    exact sendBootloaderStatusResponse_assertions env p

/-- The dispatch of a frame either starts a session or is a `FrameStep` in which only
assertions of `sendBootloaderStatusResponse` can fail. -/
theorem processFrame_cases_assertions (env : Collaborators)
    (upgradeApp : PopcopProtocol → Outcome PopcopProtocol) (frame : Frame)
    (p : PopcopProtocol) :
    (p.download_sink_ = none ∧
      processFrame env upgradeApp frame p =
        processBootloaderStatusRequest env upgradeApp
          { desired_state := BootloaderState.AppUpgradeInProgress } p) ∨
    ∃ q, processFrame env upgradeApp frame p = Outcome.returned q ∧ FrameStep env p q ∧
      AssertionsFrom p q := by
  unfold processFrame
  by_cases hcode : frame.type_code = env.StandardFrameTypeCode
  · simp only [hcode, if_true]
    by_cases hni : env.tryDecodeNodeInfoMessage frame.payload = true
    · simp only [hni, if_true]
      obtain ⟨m, hm, -⟩ := processNodeInfoRequest_eq env p
      exact Or.inr ⟨_, rfl, processNodeInfoRequest_step env p, by
        rw [hm]
        exact assertionsFrom_record p _ (fun a h => by cases h)⟩
    · simp only [hni]
      cases env.tryDecodeDeviceManagementCommandRequestMessage frame.payload with
      | some dmcr =>
        refine Or.inr ⟨_, rfl, processDeviceManagementCommandRequest_step env dmcr p, ?_⟩
        unfold processDeviceManagementCommandRequest
        split
        · exact assertionsFrom_record p _ (fun a h => by cases h)
        · exact assertionsFrom_trans (assertionsFrom_record p _ (fun a h => by cases h))
            (assertionsFrom_record _ _ (fun a h => by cases h))
      | none =>
        cases env.tryDecodeBootloaderStatusRequestMessage frame.payload with
        | some bsr =>
          by_cases hb : bsr.desired_state ≠ BootloaderState.AppUpgradeInProgress ∨
              p.download_sink_ ≠ none
          · obtain ⟨q, hq, hstep⟩ :=
              processBootloaderStatusRequest_step env upgradeApp bsr p hb
            exact Or.inr ⟨q, hq, hstep,
              processBootloaderStatusRequest_assertions env upgradeApp bsr p q hb hq⟩
          · left
            have hb1 : bsr.desired_state = BootloaderState.AppUpgradeInProgress := by
              by_contra hc
              exact hb (Or.inl hc)
            have hb2 : p.download_sink_ = none := by
              by_contra hc
              exact hb (Or.inr hc)
            refine ⟨hb2, ?_⟩
            cases bsr
            simp only at hb1
            subst hb1
            rfl
        | none =>
          cases env.tryDecodeBootloaderImageDataRequestMessage frame.payload with
          | some bidr =>
            exact Or.inr ⟨_, rfl, processBootloaderImageDataRequest_step env bidr p,
              processBootloaderImageDataRequest_assertions env bidr p⟩
          | none =>
            exact Or.inr ⟨_, rfl, record_step env p _ rfl (fun a h => by cases h) rfl,
              assertionsFrom_record p _ (fun a h => by cases h)⟩
  · simp only [hcode, if_false]
    exact Or.inr ⟨_, rfl, record_step env p _ rfl (fun a h => by cases h) rfl,
      assertionsFrom_record p _ (fun a h => by cases h)⟩

theorem assertionsFrom_wrap (p q1 : PopcopProtocol) (pre post : List Event)
    (h : AssertionsFrom { p with log := p.log ++ pre } q1)
    (hfpre : NoAssertionFailed pre) (hfpost : NoAssertionFailed post) :
    AssertionsFrom p { q1 with log := q1.log ++ post } := by
  intro a ha
  simp only [List.mem_append] at ha
  rcases ha with ha | ha
  · rcases h a ha with h2 | h2
    · simp only [List.mem_append] at h2
      rcases h2 with h2 | h2
      · exact Or.inl h2
      · exact absurd h2 (hfpre a)
    · exact Or.inr h2
  · exact absurd ha (hfpost a)

/-- One iteration of a loop either is a `FrameStep` in which only assertions of
`sendBootloaderStatusResponse` can fail, or receives a byte that completes a request for
AppUpgradeInProgress while no sink is bound. -/
theorem loopOnce_cases (env : Collaborators)
    (upgradeApp : PopcopProtocol → Outcome PopcopProtocol) (p : PopcopProtocol) :
    (∃ q, loopOnce env upgradeApp p = Outcome.returned q ∧ FrameStep env p q ∧
      AssertionsFrom p q) ∨
    (∃ byte, p.download_sink_ = none ∧
      FrameStep env p (record Event.resetWatchdog (record (Event.receive (some byte))
        (record Event.resetWatchdog p))) ∧
      loopOnce env upgradeApp p =
        match processBootloaderStatusRequest env upgradeApp
          { desired_state := BootloaderState.AppUpgradeInProgress }
          (record Event.resetWatchdog (record (Event.receive (some byte))
            (record Event.resetWatchdog p))) with
        | Outcome.running q => Outcome.running q
        | Outcome.returned q => Outcome.returned (record Event.resetWatchdog q)) := by
  unfold loopOnce
  simp only []
  cases hr : env.receive (record Event.resetWatchdog p).log with
  | none =>
    left
    refine ⟨_, rfl, ?_, ?_⟩
    · have := frameStep_wrap env p _ [Event.resetWatchdog, Event.receive none] []
        (frameStep_refl env _) (quiet_cons rfl (quiet_cons rfl quiet_nil)) quiet_nil
        (fun a ha => by simp at ha) noAssertionFailed_nil rfl rfl
      simpa [record] using this
    · have := assertionsFrom_wrap p _ [Event.resetWatchdog, Event.receive none] []
        (assertionsFrom_refl _) (fun a ha => by simp at ha) noAssertionFailed_nil
      simpa [record] using this
  | some byte =>
    simp only []
    unfold processByte
    cases env.processNextByte
      (record (Event.receive (some byte)) (record Event.resetWatchdog p)).log byte with
    | nothing =>
      left
      refine ⟨_, rfl, ?_, ?_⟩
      · have := frameStep_wrap env p _ [Event.resetWatchdog, Event.receive (some byte)] []
          (frameStep_refl env _) (quiet_cons rfl (quiet_cons rfl quiet_nil)) quiet_nil
          (fun a ha => by simp at ha) noAssertionFailed_nil rfl rfl
        simpa [record] using this
      · have := assertionsFrom_wrap p _ [Event.resetWatchdog, Event.receive (some byte)] []
          (assertionsFrom_refl _) (fun a ha => by simp at ha) noAssertionFailed_nil
        simpa [record] using this
    | extraneousData ed =>
      left
      refine ⟨_, rfl, ?_, ?_⟩
      · have := frameStep_wrap env p _
          [Event.resetWatchdog, Event.receive (some byte), Event.resetWatchdog,
            Event.processExtraneousData ed, Event.resetWatchdog] []
          (frameStep_refl env _)
          (quiet_cons rfl (quiet_cons rfl (quiet_cons rfl (quiet_cons rfl
            (quiet_cons rfl quiet_nil))))) quiet_nil
          (fun a ha => by simp at ha) noAssertionFailed_nil rfl rfl
        simpa [record] using this
      · have := assertionsFrom_wrap p _
          [Event.resetWatchdog, Event.receive (some byte), Event.resetWatchdog,
            Event.processExtraneousData ed, Event.resetWatchdog] []
          (assertionsFrom_refl _) (fun a ha => by simp at ha) noAssertionFailed_nil
        simpa [record] using this
    | receivedFrame frame =>
      simp only []
      rcases processFrame_cases_assertions env upgradeApp frame
        (record Event.resetWatchdog (record (Event.receive (some byte))
          (record Event.resetWatchdog p))) with ⟨hnone, heq⟩ | ⟨q1, hq1, hstep, hfrom⟩
      · right
        refine ⟨byte, hnone, ?_, ?_⟩
        · have := frameStep_wrap env p _
            [Event.resetWatchdog, Event.receive (some byte), Event.resetWatchdog] []
            (frameStep_refl env _)
            (quiet_cons rfl (quiet_cons rfl (quiet_cons rfl quiet_nil))) quiet_nil
            (fun a ha => by simp at ha) noAssertionFailed_nil rfl rfl
          simpa [record] using this
        · rw [heq]
      · left
        rw [hq1]
        refine ⟨_, rfl, ?_, ?_⟩
        · have := frameStep_wrap env p q1
            [Event.resetWatchdog, Event.receive (some byte), Event.resetWatchdog]
            [Event.resetWatchdog]
            (by simpa [record] using hstep)
            (quiet_cons rfl (quiet_cons rfl (quiet_cons rfl quiet_nil)))
            (quiet_cons rfl quiet_nil)
            (fun a ha => by simp at ha) (fun a ha => by simp at ha) rfl rfl
          simpa [record] using this
        · have := assertionsFrom_wrap p q1
            [Event.resetWatchdog, Event.receive (some byte), Event.resetWatchdog]
            [Event.resetWatchdog]
            (by simpa [record] using hfrom)
            (fun a ha => by simp at ha) (fun a ha => by simp at ha)
          simpa [record] using this

/-! ### The executions of `run` are made of steps -/

theorem reaches_refl (env : Collaborators) (p : PopcopProtocol) : Reaches env p p :=
  Relation.ReflTransGen.refl

theorem reaches_step {env : Collaborators} {p q r : PopcopProtocol}
    (h : Reaches env p q) (hs : Step env q r) : Reaches env p r :=
  Relation.ReflTransGen.tail h hs

theorem reaches_trans {env : Collaborators} {p q r : PopcopProtocol}
    (h1 : Reaches env p q) (h2 : Reaches env q r) : Reaches env p r :=
  Relation.ReflTransGen.trans h1 h2

theorem frameStep_idle (env : Collaborators) (p q : PopcopProtocol) (hidle : Idle p)
    (h : FrameStep env p q) : Idle q := by
  obtain ⟨evs, -, -, hlog, hsink, hquiet, -, -⟩ := h
  refine ⟨?_, ?_⟩
  · rcases hsink with h | h
    · exact h.trans hidle.1
    · exact h
  · rw [hlog, upgradeAppInProgress_append_quiet _ _ hquiet]
    exact hidle.2

theorem downloadImageLoop_reaches (env : Collaborators)
    (upgradeApp : PopcopProtocol → Outcome PopcopProtocol) (fuel : Nat) :
    ∀ p : PopcopProtocol,
      Reaches env p (downloadImageLoop env upgradeApp fuel p).endpoint := by
  induction fuel with
  | zero =>
    intro p
    exact reaches_refl env p
  | succ n ih =>
    intro p
    unfold downloadImageLoop
    simp only []
    have h1 : Reaches env p (record (Event.shouldExit (env.shouldExit p.log)) p) :=
      reaches_step (reaches_refl env p) (Step.loopCondition p _)
    split
    · rename_i hguard
      obtain ⟨-, hbound, -⟩ := hguard
      rcases loopOnce_cases env upgradeApp
        (record (Event.shouldExit (env.shouldExit p.log)) p) with
        ⟨q, hq, hstep, hfrom⟩ | ⟨byte, hnone, -, -⟩
      · rw [hq]
        exact reaches_trans (reaches_step h1 (Step.frame _ q hstep hfrom (Or.inr hbound)))
          (ih q)
      · exact absurd hnone hbound
    · exact h1

theorem upgradeAppInProgress_session (log : List Event) (sink : Nat)
    (fails body : List Event) (m : BootloaderStatusResponseMessage) (c : Int)
    (hfails : ∀ e ∈ fails, ∃ a, e = Event.assertionFailed a) (hquiet : Quiet body) :
    upgradeAppInProgress (log ++ [Event.downloadImageBegin sink] ++ fails ++
      [Event.send (Message.bootloaderStatusResponse m)] ++ body ++
      [Event.downloadImageEnd c]) = upgradeAppInProgress log := by
  have h2 := upgradeAppInProgress_append_quiet (log ++ [Event.downloadImageBegin sink])
    (fails ++ [Event.send (Message.bootloaderStatusResponse m)] ++ body)
    (quiet_append (quiet_append (quiet_of_assertions fails hfails)
      (quiet_cons rfl quiet_nil)) hquiet)
  rw [upgradeAppInProgress_downloadImageBegin] at h2
  have h3 : upgradeAppInProgress (log ++ [Event.downloadImageBegin sink] ++
      (fails ++ [Event.send (Message.bootloaderStatusResponse m)] ++ body) ++
      [Event.downloadImageEnd c]) = upgradeAppInProgress log := by
    rw [← h2]
    simp [upgradeAppInProgress, List.foldl_append]
  simpa using h3

theorem downloadImage_reaches (env : Collaborators)
    (upgradeApp : PopcopProtocol → Outcome PopcopProtocol) (fuel : Nat) (sink : Nat)
    (p : PopcopProtocol)
    (hcall : env.upgradeAppCallsDownloadImage p.log = some sink)
    (hin : upgradeAppInProgress p.log = true) (hsink : p.download_sink_ = none) :
    (∀ c q, downloadImage env upgradeApp fuel sink p = Outcome.returned (c, q) →
      Reaches env p q ∧ q.download_sink_ = none ∧ upgradeAppInProgress q.log = true) ∧
    (∀ q, downloadImage env upgradeApp fuel sink p = Outcome.running q → Reaches env p q) := by
  have hentry : Reaches env p (downloadImageEntry env sink p) :=
    reaches_step (reaches_refl env p) (Step.enter p sink hcall hin hsink)
  have hloop := downloadImageLoop_reaches env upgradeApp fuel (downloadImageEntry env sink p)
  constructor
  · intro c q hq
    obtain ⟨fails, m, body, hfails, hquiet, -, hcases⟩ :=
      downloadImage_spec env upgradeApp fuel sink p
    have hshape : q.download_sink_ = none ∧ upgradeAppInProgress q.log = true := by
      rcases hcases with ⟨c1, h1, -⟩ | ⟨q1, h1, -⟩
      · rw [h1] at hq
        injection hq with hq
        injection hq with hc hq2
        subst hq2
        refine ⟨rfl, ?_⟩
        simp only []
        rw [upgradeAppInProgress_session p.log sink fails body m c1 hfails hquiet]
        exact hin
      · rw [h1] at hq
        cases hq
    refine ⟨?_, hshape⟩
    unfold downloadImage at hq
    simp only [] at hq
    cases hl : downloadImageLoop env upgradeApp fuel (downloadImageEntry env sink p) with
    | running q1 =>
      rw [hl] at hq
      cases hq
    | returned q1 =>
      rw [hl] at hq hloop
      simp only [] at hq
      injection hq with hq
      injection hq with hc hq2
      subst hq2
      exact reaches_step (reaches_trans hentry hloop) (Step.leave q1)
  · intro q hq
    unfold downloadImage at hq
    simp only [] at hq
    cases hl : downloadImageLoop env upgradeApp fuel (downloadImageEntry env sink p) with
    | running q1 =>
      rw [hl] at hq hloop
      injection hq with hq
      subst hq
      exact reaches_trans hentry hloop
    | returned q1 =>
      rw [hl] at hq
      cases hq

theorem upgradeAppBody_reaches (env : Collaborators)
    (upgradeApp : PopcopProtocol → Outcome PopcopProtocol) (n : Nat) (fuel : Nat) :
    ∀ p : PopcopProtocol, upgradeAppInProgress p.log = true → p.download_sink_ = none →
      Reaches env p (upgradeAppBody env
        (fun sink r => downloadImage env upgradeApp n sink r) fuel p).endpoint ∧
      ∀ q, upgradeAppBody env (fun sink r => downloadImage env upgradeApp n sink r) fuel p =
        Outcome.returned q → Idle q := by
  induction fuel with
  | zero =>
    intro p _ _
    exact ⟨reaches_refl env p, fun q h => by simp [upgradeAppBody] at h⟩
  | succ k ih =>
    intro p hin hsink
    unfold upgradeAppBody
    cases hcall : env.upgradeAppCallsDownloadImage p.log with
    | none =>
      simp only []
      refine ⟨reaches_step (reaches_refl env p) (Step.endUpgrade p hsink), ?_⟩
      intro q hq
      injection hq with hq
      subst hq
      exact ⟨hsink, upgradeAppInProgress_end p.log⟩
    | some sink =>
      simp only []
      obtain ⟨hret, hrun⟩ := downloadImage_reaches env upgradeApp n sink p hcall hin hsink
      cases hdl : downloadImage env upgradeApp n sink p with
      | running q1 =>
        simp only []
        exact ⟨hrun q1 hdl, fun q h => by cases h⟩
      | returned r =>
        obtain ⟨c, q1⟩ := r
        simp only []
        obtain ⟨hreach, hs1, hin1⟩ := hret c q1 hdl
        obtain ⟨h1, h2⟩ := ih q1 hin1 hs1
        exact ⟨reaches_trans hreach h1, h2⟩

theorem upgradeApp_reaches (env : Collaborators) (fuel : Nat) (p : PopcopProtocol)
    (hidle : Idle p) (hreached : p.download_image_reached_ = false)
    (hcode : p.upgrade_status_code_ = 0) :
    Reaches env p (upgradeApp env fuel p).endpoint ∧
    ∀ q, upgradeApp env fuel p = Outcome.returned q → Idle q := by
  cases fuel with
  | zero => exact ⟨reaches_refl env p, fun q h => by simp [upgradeApp] at h⟩
  | succ n =>
    unfold upgradeApp
    obtain ⟨h1, h2⟩ := upgradeAppBody_reaches env (upgradeApp env n) n n
      (record Event.upgradeAppBegin p) (upgradeAppInProgress_begin p.log) hidle.1
    exact ⟨reaches_trans
      (reaches_step (reaches_refl env p) (Step.beginUpgrade p hidle hreached hcode)) h1, h2⟩

theorem startSession_reaches (env : Collaborators) (fuel : Nat) (p : PopcopProtocol)
    (hidle : Idle p) :
    Reaches env p (processBootloaderStatusRequest env (upgradeApp env fuel)
      { desired_state := BootloaderState.AppUpgradeInProgress } p).endpoint ∧
    ∀ q, processBootloaderStatusRequest env (upgradeApp env fuel)
      { desired_state := BootloaderState.AppUpgradeInProgress } p = Outcome.returned q →
      Idle q := by
  obtain ⟨ni, sink, reached, code, log⟩ := p
  obtain ⟨hsink, hin⟩ := hidle
  simp only [] at hsink hin
  subst hsink
  have hreset : Reaches env (⟨ni, none, reached, code, log⟩ : PopcopProtocol)
      (⟨ni, none, false, 0, log⟩ : PopcopProtocol) :=
    reaches_step (reaches_refl env _) (Step.reset ⟨ni, none, reached, code, log⟩ ⟨rfl, hin⟩)
  obtain ⟨hup, hupidle⟩ := upgradeApp_reaches env fuel
    (⟨ni, none, false, 0, log⟩ : PopcopProtocol) ⟨rfl, hin⟩ rfl rfl
  unfold processBootloaderStatusRequest
  simp only [beq_self_eq_true, if_true]
  cases hcall : upgradeApp env fuel (⟨ni, none, false, 0, log⟩ : PopcopProtocol) with
  | running q1 =>
    rw [hcall] at hup
    exact ⟨reaches_trans hreset hup, fun q h => by cases h⟩
  | returned q0 =>
    rw [hcall] at hup
    simp only [Outcome.endpoint] at hup
    have hidle0 := hupidle q0 hcall
    simp only []
    by_cases hreach : q0.download_image_reached_ = true
    · simp only [hreach, Bool.not_true]
      refine ⟨reaches_trans hreset hup, ?_⟩
      intro q hq
      injection hq with hq
      subst hq
      exact hidle0
    · have hfalse : q0.download_image_reached_ = false := by
        cases hq : q0.download_image_reached_ with
        | true => exact absurd hq hreach
        | false => rfl
      simp only [hfalse, Bool.not_false, if_true]
      have hstep : FrameStep env q0 (sendBootloaderStatusResponse env q0) :=
        sendBootloaderStatusResponse_step env q0 q0 [] rfl rfl rfl rfl (by simp) quiet_nil
          noAssertionFailed_nil rfl
      refine ⟨reaches_step (reaches_trans hreset hup)
        (Step.frame q0 _ hstep (sendBootloaderStatusResponse_assertions env q0)
          (Or.inl hidle0)), ?_⟩
      intro q hq
      injection hq with hq
      subst hq
      exact frameStep_idle env q0 _ hidle0 hstep

theorem loopOnce_reaches (env : Collaborators) (fuel : Nat) (p : PopcopProtocol)
    (hidle : Idle p) :
    Reaches env p (loopOnce env (upgradeApp env fuel) p).endpoint ∧
    ∀ q, loopOnce env (upgradeApp env fuel) p = Outcome.returned q → Idle q := by
  rcases loopOnce_cases env (upgradeApp env fuel) p with
    ⟨q, hq, hstep, hfrom⟩ | ⟨byte, -, hstep, heq⟩
  · rw [hq]
    refine ⟨reaches_step (reaches_refl env p) (Step.frame p q hstep hfrom (Or.inl hidle)), ?_⟩
    intro q2 hq2
    injection hq2 with hq2
    subst hq2
    exact frameStep_idle env p q hidle hstep
  · rw [heq]
    have hidle1 := frameStep_idle env p _ hidle hstep
    have hfrom1 : AssertionsFrom p (record Event.resetWatchdog
        (record (Event.receive (some byte)) (record Event.resetWatchdog p))) :=
      assertionsFrom_trans (assertionsFrom_trans
        (assertionsFrom_record p _ (fun a h => by cases h))
        (assertionsFrom_record _ _ (fun a h => by cases h)))
        (assertionsFrom_record _ _ (fun a h => by cases h))
    have h1 : Reaches env p (record Event.resetWatchdog
        (record (Event.receive (some byte)) (record Event.resetWatchdog p))) :=
      reaches_step (reaches_refl env p) (Step.frame p _ hstep hfrom1 (Or.inl hidle))
    obtain ⟨h2, h2idle⟩ := startSession_reaches env fuel _ hidle1
    cases hh : processBootloaderStatusRequest env (upgradeApp env fuel)
        { desired_state := BootloaderState.AppUpgradeInProgress }
        (record Event.resetWatchdog (record (Event.receive (some byte))
          (record Event.resetWatchdog p))) with
    | running q1 =>
      rw [hh] at h2
      exact ⟨reaches_trans h1 h2, fun q h => by cases h⟩
    | returned q1 =>
      rw [hh] at h2
      simp only [Outcome.endpoint] at h2 ⊢
      have hidleq := h2idle q1 hh
      refine ⟨reaches_step (reaches_trans h1 h2)
        (Step.frame q1 _ (record_step env q1 _ rfl (fun a h => by cases h) rfl)
          (assertionsFrom_record q1 _ (fun a h => by cases h)) (Or.inl hidleq)), ?_⟩
      intro q hq
      injection hq with hq
      subst hq
      exact idle_record q1 _ rfl hidleq

/-- Every point at which an execution of `run`, started between two sessions, returns or
is cut is reached by steps. -/
theorem run_reaches (env : Collaborators) (fuel : Nat) :
    ∀ p : PopcopProtocol, Idle p → Reaches env p (run env fuel p).endpoint := by
  induction fuel with
  | zero =>
    intro p _
    exact reaches_refl env p
  | succ n ih =>
    intro p hidle
    unfold run
    simp only []
    have h1 : Reaches env p (record (Event.shouldExit (env.shouldExit p.log)) p) :=
      reaches_step (reaches_refl env p) (Step.loopCondition p _)
    have hidle1 := idle_record p (Event.shouldExit (env.shouldExit p.log)) rfl hidle
    cases hexit : env.shouldExit p.log with
    | true =>
      rw [hexit] at h1
      exact h1
    | false =>
      rw [hexit] at h1 hidle1
      simp only [Bool.not_false, if_true]
      obtain ⟨h2, h2idle⟩ := loopOnce_reaches env n _ hidle1
      cases hlo : loopOnce env (upgradeApp env n) (record (Event.shouldExit false) p) with
      | running q1 =>
        rw [hlo] at h2
        exact reaches_trans h1 h2
      | returned q1 =>
        rw [hlo] at h2
        simp only [Outcome.endpoint] at h2
        exact reaches_trans (reaches_trans h1 h2) (ih q1 (h2idle q1 hlo))

/-! ### Properties kept by every step -/

theorem reaches_invariant (env : Collaborators) (I : PopcopProtocol → Prop)
    (hstep : ∀ p q, I p → Step env p q → I q) (p q : PopcopProtocol)
    (h : Reaches env p q) (hp : I p) : I q := by
  induction h with
  | refl => exact hp
  | tail _ hs ih => exact hstep _ _ ih hs

theorem sendBootloaderStatusResponse_status (env : Collaborators) (p : PopcopProtocol) :
    ∃ pre : List Event,
      sendBootloaderStatusResponse env p =
        { p with log := p.log ++ pre ++ [Event.send (Message.bootloaderStatusResponse
          { timestamp := env.getMonotonicUptime p.log
            state := sameNamedState (env.getState p.log) })] } ∧
      (pre = [] ∨ ∃ a, pre = [Event.assertionFailed a] ∧ a.isStatus = true) := by
  obtain ⟨ni, sink, reached, code, log⟩ := p
  cases sink <;> cases hs : env.getState log <;>
    first
    | (refine ⟨[], ?_⟩
       simp [sendBootloaderStatusResponse, hs, assert, send, record, sameNamedState]
       done)
    | (refine ⟨[Event.assertionFailed Assertion.statusNoAppToBoot], ?_⟩
       simp [sendBootloaderStatusResponse, hs, assert, send, record, sameNamedState,
         Assertion.isStatus]
       done)
    | (refine ⟨[Event.assertionFailed Assertion.statusBootDelay], ?_⟩
       simp [sendBootloaderStatusResponse, hs, assert, send, record, sameNamedState,
         Assertion.isStatus]
       done)
    | (refine ⟨[Event.assertionFailed Assertion.statusBootCancelled], ?_⟩
       simp [sendBootloaderStatusResponse, hs, assert, send, record, sameNamedState,
         Assertion.isStatus]
       done)
    | (refine ⟨[Event.assertionFailed Assertion.statusAppUpgradeInProgress], ?_⟩
       simp [sendBootloaderStatusResponse, hs, assert, send, record, sameNamedState,
         Assertion.isStatus]
       done)
    | (refine ⟨[Event.assertionFailed Assertion.statusReadyToBoot], ?_⟩
       simp [sendBootloaderStatusResponse, hs, assert, send, record, sameNamedState,
         Assertion.isStatus])

/-- The entry of `downloadImage`: the sink is bound, the reached flag set, the prototype
and the status code kept, and the history grows by the call, the assertions that failed
and the status reply; when the three asserted preconditions hold, only an assertion of
`sendBootloaderStatusResponse` can have failed. -/
theorem downloadImageEntry_eq (env : Collaborators) (sink : Nat) (p : PopcopProtocol) :
    ∃ evs : List Event,
      downloadImageEntry env sink p =
        { p with
          download_sink_ := some sink
          download_image_reached_ := true
          log := p.log ++ [Event.downloadImageBegin sink] ++ evs } ∧
      Quiet evs ∧ chunkResults evs = [] ∧
      (p.download_image_reached_ = false → p.download_sink_ = none →
        p.upgrade_status_code_ = 0 →
        ∀ a, Event.assertionFailed a ∈ evs → a.isStatus = true) := by
  obtain ⟨ni, sink0, reached0, code0, log0⟩ := p
  unfold downloadImageEntry
  simp only []
  obtain ⟨f1, h1, hf1, hc1⟩ := assert_eq
    (!(record (Event.downloadImageBegin sink)
      (⟨ni, sink0, reached0, code0, log0⟩ : PopcopProtocol)).download_image_reached_)
    Assertion.downloadNotReached (record (Event.downloadImageBegin sink) ⟨ni, sink0, reached0, code0, log0⟩)
  rw [h1]
  obtain ⟨f2, h2, hf2, hc2⟩ := assert_eq (sink0 == none) Assertion.downloadSinkNull
    { record (Event.downloadImageBegin sink)
        (⟨ni, sink0, reached0, code0, log0⟩ : PopcopProtocol) with
      log := (record (Event.downloadImageBegin sink)
        (⟨ni, sink0, reached0, code0, log0⟩ : PopcopProtocol)).log ++ f1 }
  simp only [record] at h2 ⊢
  rw [h2]
  obtain ⟨f3, h3, hf3, hc3⟩ := assert_eq (code0 == 0) Assertion.downloadStatusZero
    (⟨ni, sink0, reached0, code0, log0 ++ [Event.downloadImageBegin sink] ++ f1 ++ f2⟩ :
      PopcopProtocol)
  simp only [] at h3 ⊢
  rw [h3]
  obtain ⟨pre, h4, hpre⟩ := sendBootloaderStatusResponse_status env
    (⟨ni, some sink, true, code0, log0 ++ [Event.downloadImageBegin sink] ++ f1 ++ f2 ++ f3⟩ :
      PopcopProtocol)
  simp only [] at h4 ⊢
  rw [h4]
  have hq : ∀ fs : List Event, (∀ e ∈ fs, ∃ b, e = Event.assertionFailed b) → Quiet fs :=
    fun fs h => quiet_of_assertions fs h
  have hch : ∀ fs : List Event, (∀ e ∈ fs, ∃ b, e = Event.assertionFailed b) →
      chunkResults fs = [] := by
    intro fs h
    induction fs with
    | nil => rfl
    | cons e es ih =>
      obtain ⟨a, rfl⟩ := h e (List.mem_cons_self _ _)
      simpa [chunkResults] using ih (fun x hx => h x (List.mem_cons_of_mem _ hx))
  have hpre2 : ∀ e ∈ pre, ∃ b, e = Event.assertionFailed b := by
    intro e he
    rcases hpre with rfl | ⟨a, rfl, -⟩
    · cases he
    · exact ⟨a, by simpa using he⟩
  refine ⟨f1 ++ f2 ++ f3 ++ pre ++ [Event.send (Message.bootloaderStatusResponse
      { timestamp := env.getMonotonicUptime
          (log0 ++ [Event.downloadImageBegin sink] ++ f1 ++ f2 ++ f3)
        state := sameNamedState (env.getState
          (log0 ++ [Event.downloadImageBegin sink] ++ f1 ++ f2 ++ f3)) })], ?_, ?_, ?_, ?_⟩
  · simp
  · exact quiet_append (quiet_append (quiet_append (quiet_append (hq f1 hf1) (hq f2 hf2))
      (hq f3 hf3)) (hq pre hpre2)) (quiet_cons rfl quiet_nil)
  · simp [chunkResults_append, hch f1 hf1, hch f2 hf2, hch f3 hf3, hch pre hpre2,
      chunkResults]
  · intro hr hs hc a ha
    have e1 : f1 = [] := hc1 (by simp [record, hr])
    have e2 : f2 = [] := hc2 (by simp [hs])
    have e3 : f3 = [] := hc3 (by simp [hc])
    subst e1 e2 e3
    rcases hpre with rfl | ⟨b, rfl, hb⟩
    · simp at ha
    · simp at ha
      rw [ha]
      exact hb

theorem step_prototype (env : Collaborators) (p q : PopcopProtocol) (h : Step env p q) :
    q.node_info_prototype_ = p.node_info_prototype_ := by
  cases h with
  | frame _ hf _ _ =>
    obtain ⟨evs, hni, -⟩ := hf
    exact hni
  | loopCondition b => rfl
  | reset _ => rfl
  | beginUpgrade _ _ _ => rfl
  | enter sink _ _ _ =>
    obtain ⟨evs, heq, -⟩ := downloadImageEntry_eq env sink p
    rw [heq]
  | leave => rfl
  | endUpgrade _ => rfl

/-- The status code is 0 or the negative result of a chunk that the sink rejected. -/
theorem step_code (env : Collaborators) (p q : PopcopProtocol)
    (hp : p.upgrade_status_code_ = 0 ∨
      (p.upgrade_status_code_ < 0 ∧ p.upgrade_status_code_ ∈ chunkResults p.log))
    (h : Step env p q) :
    q.upgrade_status_code_ = 0 ∨
      (q.upgrade_status_code_ < 0 ∧ q.upgrade_status_code_ ∈ chunkResults q.log) := by
  have hext : ∀ (r : PopcopProtocol) (evs : List Event),
      r.upgrade_status_code_ = p.upgrade_status_code_ → r.log = p.log ++ evs →
      r.upgrade_status_code_ = 0 ∨
        (r.upgrade_status_code_ < 0 ∧ r.upgrade_status_code_ ∈ chunkResults r.log) := by
    intro r evs hc hl
    rw [hc, hl, chunkResults_append]
    rcases hp with h0 | ⟨hneg, hmem⟩
    · exact Or.inl h0
    · exact Or.inr ⟨hneg, List.mem_append.mpr (Or.inl hmem)⟩
  cases h with
  | frame _ hf _ _ =>
    obtain ⟨evs, -, -, hlog, -, -, hchunk, -⟩ := hf
    rcases hchunk with ⟨-, hc⟩ | ⟨r, hr, hc⟩
    · exact hext q evs hc hlog
    · by_cases h0 : 0 ≤ r
      · left
        rw [hc, if_pos h0]
      · right
        rw [hc, if_neg h0, hlog, chunkResults_append, hr]
        exact ⟨not_le.mp h0, by simp⟩
  | loopCondition b => exact hext _ [Event.shouldExit b] rfl rfl
  | reset _ => exact Or.inl rfl
  | beginUpgrade _ _ _ => exact hext _ [Event.upgradeAppBegin] rfl rfl
  | enter sink _ _ _ =>
    obtain ⟨evs, heq, -⟩ := downloadImageEntry_eq env sink p
    rw [heq]
    exact hext _ ([Event.downloadImageBegin sink] ++ evs) rfl (by simp)
  | leave => exact hext _ [Event.downloadImageEnd p.upgrade_status_code_] rfl rfl
  | endUpgrade _ => exact hext _ [Event.upgradeAppEnd] rfl rfl

/-- C20: the status code of a freshly constructed endpoint is 0; every point at which an
execution of `run` on it returns or is cut is reached by steps; and at every point `q`
reached by steps, whatever frames were received, whatever sessions took place and whatever
the sink returned, `upgrade_status_code_` is not positive: it is 0 or the negative result
of a chunk that the sink rejected.  When the loop of `downloadImage` evaluates its
condition at `q`, either it ends there and dispatches nothing, or the sink is bound, the
status code is 0, it is still 0 when a frame is dispatched, and the loop goes on with
`loopOnce`.  A sink result that is not negative is stored as 0. -/
theorem C20_status_code_never_positive (env : Collaborators) (ni : NodeInfoMessage) :
    (PopcopProtocol.new ni).upgrade_status_code_ = 0 ∧
    (∀ fuel : Nat,
      Reaches env (PopcopProtocol.new ni) (run env fuel (PopcopProtocol.new ni)).endpoint) ∧
    (∀ q : PopcopProtocol, Reaches env (PopcopProtocol.new ni) q →
      q.upgrade_status_code_ ≤ 0 ∧
      (q.upgrade_status_code_ = 0 ∨ q.upgrade_status_code_ ∈ chunkResults q.log) ∧
      ∀ (up : PopcopProtocol → Outcome PopcopProtocol) (k : Nat),
        downloadImageLoop env up (k + 1) q =
            Outcome.returned (record (Event.shouldExit (env.shouldExit q.log)) q) ∨
          (q.download_sink_ ≠ none ∧ q.upgrade_status_code_ = 0 ∧
            (∀ byte : Nat, (atDispatch q byte).download_sink_ = q.download_sink_ ∧
              (atDispatch q byte).upgrade_status_code_ = 0) ∧
            downloadImageLoop env up (k + 1) q =
              match loopOnce env up (record (Event.shouldExit false) q) with
              | Outcome.running r => Outcome.running r
              | Outcome.returned r => downloadImageLoop env up k r)) ∧
    (∀ (req : BootloaderImageDataRequestMessage) (p : PopcopProtocol) (sink : Nat),
      req.image_type = BootloaderImageType.Application → p.download_sink_ = some sink →
      req.image_data ≠ [] →
      0 ≤ env.handleNextDataChunk p.log sink req.image_data
        (req.image_data.length % 65536) →
      (processBootloaderImageDataRequest env req p).upgrade_status_code_ = 0) := by
  refine ⟨rfl, fun fuel => run_reaches env fuel _ (idle_new ni), ?_, ?_⟩
  · intro q hq
    have hinv := reaches_invariant env
      (fun r => r.upgrade_status_code_ = 0 ∨
        (r.upgrade_status_code_ < 0 ∧ r.upgrade_status_code_ ∈ chunkResults r.log))
      (fun a b ha hab => step_code env a b ha hab) _ q hq (Or.inl rfl)
    simp only [] at hinv
    refine ⟨?_, ?_, ?_⟩
    · rcases hinv with h | ⟨h, -⟩
      · exact le_of_eq h
      · exact le_of_lt h
    · rcases hinv with h | ⟨-, h⟩
      · exact Or.inl h
      · exact Or.inr h
    · intro up k
      by_cases hexit : env.shouldExit q.log = true
      · left
        simp [downloadImageLoop, hexit, record]
      · have hexit2 : env.shouldExit q.log = false := by simpa using hexit
        by_cases hsink : q.download_sink_ = none
        · left
          simp [downloadImageLoop, hexit2, record, hsink]
        · rcases hinv with hc | ⟨hc, -⟩
          · right
            refine ⟨hsink, hc, fun byte => ⟨rfl, hc⟩, ?_⟩
            simp [downloadImageLoop, hexit2, record, hsink, hc]
          · left
            simp [downloadImageLoop, hexit2, record, hsink, not_le.mpr hc]
  · intro req p sink htype hsink hne hres
    rw [(processBootloaderImageDataRequest_application env req p sink htype hsink).2,
      if_neg hne, if_pos hres]

/-- C20 on an execution in which the sink rejects the second chunk with -5: the status code
at the point where `run` returns is not positive. -/
theorem C20_status_code_never_positive_witness :
    (run (scriptedCollaborators (-5)) 9 (PopcopProtocol.new {})).endpoint.upgrade_status_code_
      ≤ 0 :=
  ((C20_status_code_never_positive (scriptedCollaborators (-5)) {}).2.2.1 _
    ((C20_status_code_never_positive (scriptedCollaborators (-5)) {}).2.1 9)).1

/-- C16: let the endpoint `p` hold the prototype cached by the constructor from the
identity `ni`, whatever the mode and the software version of `ni`.  The cached prototype is
the same at every point reached by steps from `p`, and at every point where an execution of
`run` on the freshly constructed endpoint returns or is cut.  `processNodeInfoRequest`
sends exactly one message: its mode is Bootloader, its other members are those of `ni`, its
software version is the default record when the controller reports no application, and
otherwise is taken from the application descriptor, with the build timestamp of the
application when that is valid and 0 otherwise. -/
theorem C16_node_info_response (env : Collaborators) (ni : NodeInfoMessage)
    (p : PopcopProtocol) (hp : p.node_info_prototype_ = prepareNodeInfoMessage ni) :
    (∀ q : PopcopProtocol, Reaches env p q →
      q.node_info_prototype_ = prepareNodeInfoMessage ni) ∧
    (∀ fuel : Nat, (run env fuel (PopcopProtocol.new ni)).endpoint.node_info_prototype_ =
      prepareNodeInfoMessage ni) ∧
    ∃ m : NodeInfoMessage,
      processNodeInfoRequest env p =
        { p with log := p.log ++ [Event.send (Message.nodeInfo m)] } ∧
      m.mode = Mode.Bootloader ∧
      m.identity = ni.identity ∧
      (env.getAppInfo p.log = none → m.software_version = {}) ∧
      (∀ ai, env.getAppInfo p.log = some ai →
        m.software_version =
          { major := ai.major_version
            minor := ai.minor_version
            vcs_commit_id := ai.vcs_commit
            image_crc := some ai.image_crc
            release_build := ai.isReleaseBuild
            dirty_build := ai.isDirtyBuild
            build_timestamp_utc :=
              if ai.isBuildTimestampValid then ai.build_timestamp_utc else 0 }) := by
  have hkeep : ∀ a q : PopcopProtocol, Reaches env a q →
      a.node_info_prototype_ = prepareNodeInfoMessage ni →
      q.node_info_prototype_ = prepareNodeInfoMessage ni := by
    intro a q haq ha
    exact reaches_invariant env (fun r => r.node_info_prototype_ = prepareNodeInfoMessage ni)
      (fun x y hx hxy => (step_prototype env x y hxy).trans hx) a q haq ha
  refine ⟨fun q hq => hkeep p q hq hp,
    fun fuel => hkeep _ _ (run_reaches env fuel _ (idle_new ni)) rfl, ?_⟩
  obtain ⟨m, heq, hmode, hid, hnone, hsome⟩ := processNodeInfoRequest_eq env p
  refine ⟨m, heq, ?_, ?_, ?_, hsome⟩
  · rw [hmode, hp]
    rfl
  · rw [hid, hp]
    rfl
  · intro h
    rw [hnone h, hp]
    rfl

/-- C16 on an endpoint constructed from an identity in mode Normal with software version
9.0, asked when an application 2.5 with an invalid timestamp is installed: the response is
in mode Bootloader, carries the identity, and its software version is that of the
application with build timestamp 0. -/
theorem C16_node_info_response_witness :
    ∃ m : NodeInfoMessage,
      processNodeInfoRequest installedCollaborators
          (record Event.resetWatchdog (PopcopProtocol.new
            { software_version := { major := 9 }, mode := Mode.Normal, identity := [1, 2] })) =
        { node_info_prototype_ := { mode := Mode.Bootloader, identity := [1, 2] }
          log := [Event.resetWatchdog, Event.send (Message.nodeInfo m)] } ∧
      m.mode = Mode.Bootloader ∧
      m.identity = [1, 2] ∧
      m.software_version =
        { major := 2
          minor := 5
          vcs_commit_id := 77
          image_crc := some 4242
          release_build := true
          dirty_build := false
          build_timestamp_utc := 0 } := by
  obtain ⟨m, h1, h2, h3, -, h5⟩ := (C16_node_info_response installedCollaborators
    { software_version := { major := 9 }, mode := Mode.Normal, identity := [1, 2] }
    (record Event.resetWatchdog (PopcopProtocol.new
      { software_version := { major := 9 }, mode := Mode.Normal, identity := [1, 2] }))
    rfl).2.2
  exact ⟨m, h1, h2, h3, h5 _ rfl⟩

/-! ### The assertions at the entry of `downloadImage` -/

theorem downloadImageCalled_begin (log : List Event) :
    downloadImageCalled (log ++ [Event.upgradeAppBegin]) = false := by
  simp [downloadImageCalled, List.foldl_append]

theorem downloadImageCalled_downloadImageBegin (log : List Event) (k : Nat) :
    downloadImageCalled (log ++ [Event.downloadImageBegin k]) = true := by
  simp [downloadImageCalled, List.foldl_append]

theorem downloadImageCalled_other (log : List Event) (e : Event)
    (h1 : e ≠ Event.upgradeAppBegin) (h2 : ∀ k, e ≠ Event.downloadImageBegin k) :
    downloadImageCalled (log ++ [e]) = downloadImageCalled log := by
  cases e <;> first
    | exact absurd rfl h1
    | exact absurd rfl (h2 _)
    | simp [downloadImageCalled, List.foldl_append]

theorem upgradeAppInProgress_other (log : List Event) (e : Event)
    (h1 : e ≠ Event.upgradeAppBegin) (h2 : e ≠ Event.upgradeAppEnd) :
    upgradeAppInProgress (log ++ [e]) = upgradeAppInProgress log := by
  cases e <;> first
    | exact absurd rfl h1
    | exact absurd rfl h2
    | simp [upgradeAppInProgress, List.foldl_append]

theorem entryInvariant_record (p : PopcopProtocol) (e : Event) (hp : EntryInvariant p)
    (h0 : ∀ a, e ≠ Event.assertionFailed a)
    (h1 : e ≠ Event.upgradeAppBegin) (h2 : ∀ k, e ≠ Event.downloadImageBegin k)
    (h3 : e ≠ Event.upgradeAppEnd) : EntryInvariant (record e p) := by
  obtain ⟨ha, hb, hc⟩ := hp
  refine ⟨?_, ?_, ?_⟩
  · intro a hmem
    simp only [record, List.mem_append, List.mem_singleton] at hmem
    rcases hmem with h | h
    · exact ha a h
    · exact absurd h.symm (h0 a)
  · intro hs
    simp only [record]
    rw [downloadImageCalled_other _ _ h1 h2]
    exact hb hs
  · intro hu hd
    simp only [record] at hu hd
    rw [upgradeAppInProgress_other _ _ h1 h3] at hu
    rw [downloadImageCalled_other _ _ h1 h2] at hd
    exact hc hu hd

theorem step_entryInvariant (env : Collaborators) (honce : CallsDownloadImageAtMostOnce env)
    (p q : PopcopProtocol) (hp : EntryInvariant p) (h : Step env p q) :
    EntryInvariant q := by
  cases h with
  | frame _ hf hfrom hguard =>
    obtain ⟨ha, hb, hc⟩ := hp
    obtain ⟨evs, -, -, hlog, hsink, hquiet, -, -⟩ := hf
    refine ⟨?_, ?_, ?_⟩
    · intro a hmem
      rcases hfrom a hmem with h | h
      · exact ha a h
      · exact h
    · intro hs
      rw [hlog, downloadImageCalled_append_quiet _ _ hquiet]
      rcases hsink with h | h
      · exact hb (h ▸ hs)
      · exact absurd h hs
    · intro hu hd
      rw [hlog, upgradeAppInProgress_append_quiet _ _ hquiet] at hu
      rw [hlog, downloadImageCalled_append_quiet _ _ hquiet] at hd
      rcases hguard with hidle | hbound
      · rw [hidle.2] at hu
        cases hu
      · rw [hb hbound] at hd
        cases hd
  | loopCondition b =>
    exact entryInvariant_record p _ hp (fun a => by simp) (by simp) (fun k => by simp)
      (by simp)
  | reset hidle =>
    obtain ⟨ha, hb, hc⟩ := hp
    refine ⟨ha, hb, ?_⟩
    intro hu
    simp only [] at hu
    rw [hidle.2] at hu
    cases hu
  | beginUpgrade hidle hreached hcode =>
    obtain ⟨ha, hb, hc⟩ := hp
    refine ⟨?_, ?_, ?_⟩
    · intro a hmem
      simp only [record, List.mem_append, List.mem_singleton] at hmem
      rcases hmem with h | h
      · exact ha a h
      · cases h
    · intro hs
      exact absurd hidle.1 hs
    · intro _ _
      exact ⟨hreached, hidle.1, hcode⟩
  | enter sink hcall hu hsink =>
    obtain ⟨ha, hb, hc⟩ := hp
    have hd : downloadImageCalled p.log = false := by
      cases hcalled : downloadImageCalled p.log with
      | false => rfl
      | true =>
        rw [honce p.log hcalled] at hcall
        cases hcall
    obtain ⟨hr, hs, hcode⟩ := hc hu hd
    obtain ⟨evs, heq, hquiet, -, hstatus⟩ := downloadImageEntry_eq env sink p
    rw [heq]
    have hcalled : downloadImageCalled (p.log ++ [Event.downloadImageBegin sink] ++ evs) =
        true := by
      rw [downloadImageCalled_append_quiet _ _ hquiet, downloadImageCalled_downloadImageBegin]
    refine ⟨?_, fun _ => hcalled, ?_⟩
    · intro a hmem
      simp only [List.mem_append, List.mem_singleton] at hmem
      rcases hmem with (h | h) | h
      · exact ha a h
      · cases h
      · exact hstatus hr hs hcode a h
    · intro _ hd2
      simp only [] at hd2
      rw [hcalled] at hd2
      cases hd2
  | leave =>
    obtain ⟨ha, hb, hc⟩ := hp
    refine ⟨?_, ?_, ?_⟩
    · intro a hmem
      simp only [record, List.mem_append, List.mem_singleton] at hmem
      rcases hmem with h | h
      · exact ha a h
      · cases h
    · intro hs
      exact absurd rfl hs
    · intro hu hd
      simp only [record] at hu hd
      rw [upgradeAppInProgress_other _ _ (by simp) (by simp)] at hu
      rw [downloadImageCalled_other _ _ (by simp) (fun k => by simp)] at hd
      obtain ⟨hr, -, hcode⟩ := hc hu hd
      exact ⟨hr, rfl, hcode⟩
  | endUpgrade hsink =>
    obtain ⟨ha, hb, hc⟩ := hp
    refine ⟨?_, ?_, ?_⟩
    · intro a hmem
      simp only [record, List.mem_append, List.mem_singleton] at hmem
      rcases hmem with h | h
      · exact ha a h
      · cases h
    · intro hs
      exact absurd hsink hs
    · intro hu
      simp only [record] at hu
      rw [upgradeAppInProgress_end] at hu
      cases hu

/-- C19: let the controller call `downloadImage` at most once per call of `upgradeApp`,
and be arbitrary otherwise (the sink may reject chunks, the platform may cancel, the
controller may report any state).  At every point `q` reached by steps from a freshly
constructed endpoint where the controller, inside the `upgradeApp` called by
`processBootloaderStatusRequest`, enters `downloadImage`, the reached flag is false, the
sink is null and the status code is 0, and none of the three assertions at the entry of
`downloadImage` is recorded as failed by the entry.  Hence in every execution of `run`,
cut at any point or run to its end, no assertion of `downloadImage` has failed. -/
theorem C19_entry_assertions_hold (env : Collaborators)
    (honce : CallsDownloadImageAtMostOnce env) (ni : NodeInfoMessage) :
    (∀ (q : PopcopProtocol) (sink : Nat), Reaches env (PopcopProtocol.new ni) q →
      env.upgradeAppCallsDownloadImage q.log = some sink →
      upgradeAppInProgress q.log = true →
      q.download_image_reached_ = false ∧ q.download_sink_ = none ∧
      q.upgrade_status_code_ = 0 ∧
      Event.assertionFailed Assertion.downloadNotReached ∉
        (downloadImageEntry env sink q).log ∧
      Event.assertionFailed Assertion.downloadSinkNull ∉
        (downloadImageEntry env sink q).log ∧
      Event.assertionFailed Assertion.downloadStatusZero ∉
        (downloadImageEntry env sink q).log) ∧
    (∀ fuel : Nat,
      Event.assertionFailed Assertion.downloadNotReached ∉
        (run env fuel (PopcopProtocol.new ni)).endpoint.log ∧
      Event.assertionFailed Assertion.downloadSinkNull ∉
        (run env fuel (PopcopProtocol.new ni)).endpoint.log ∧
      Event.assertionFailed Assertion.downloadStatusZero ∉
        (run env fuel (PopcopProtocol.new ni)).endpoint.log) := by
  have hnew : EntryInvariant (PopcopProtocol.new ni) := by
    refine ⟨?_, ?_, ?_⟩
    · intro a ha
      cases ha
    · intro hs
      exact absurd rfl hs
    · intro hu
      cases hu
  have hinv : ∀ q, Reaches env (PopcopProtocol.new ni) q → EntryInvariant q :=
    fun q hq => reaches_invariant env EntryInvariant
      (fun a b ha hab => step_entryInvariant env honce a b ha hab) _ q hq hnew
  have hthree : ∀ q : PopcopProtocol, EntryInvariant q →
      Event.assertionFailed Assertion.downloadNotReached ∉ q.log ∧
      Event.assertionFailed Assertion.downloadSinkNull ∉ q.log ∧
      Event.assertionFailed Assertion.downloadStatusZero ∉ q.log := by
    intro q hq
    refine ⟨fun h => ?_, fun h => ?_, fun h => ?_⟩
    · exact absurd (hq.1 _ h) (by decide)
    · exact absurd (hq.1 _ h) (by decide)
    · exact absurd (hq.1 _ h) (by decide)
  refine ⟨?_, fun fuel => hthree _ (hinv _ (run_reaches env fuel _ (idle_new ni)))⟩
  intro q sink hq hcall hu
  have hd : downloadImageCalled q.log = false := by
    cases hcalled : downloadImageCalled q.log with
    | false => rfl
    | true =>
      rw [honce q.log hcalled] at hcall
      cases hcall
  obtain ⟨hr, hs, hc⟩ := (hinv q hq).2.2 hu hd
  have hnext := hthree _ (step_entryInvariant env honce q _ (hinv q hq)
    (Step.enter q sink hcall hu hs))
  exact ⟨hr, hs, hc, hnext⟩

/-- C19 on the scripted host with a sink that rejects every chunk with -5, whose
controller calls `downloadImage` once per `upgradeApp`. -/
theorem C19_entry_assertions_hold_witness :
    (∀ (q : PopcopProtocol) (sink : Nat),
      Reaches (scriptedCollaborators (-5)) (PopcopProtocol.new {}) q →
      (scriptedCollaborators (-5)).upgradeAppCallsDownloadImage q.log = some sink →
      upgradeAppInProgress q.log = true →
      q.download_image_reached_ = false ∧ q.download_sink_ = none ∧
      q.upgrade_status_code_ = 0 ∧
      Event.assertionFailed Assertion.downloadNotReached ∉
        (downloadImageEntry (scriptedCollaborators (-5)) sink q).log ∧
      Event.assertionFailed Assertion.downloadSinkNull ∉
        (downloadImageEntry (scriptedCollaborators (-5)) sink q).log ∧
      Event.assertionFailed Assertion.downloadStatusZero ∉
        (downloadImageEntry (scriptedCollaborators (-5)) sink q).log) ∧
    (∀ fuel : Nat,
      Event.assertionFailed Assertion.downloadNotReached ∉
        (run (scriptedCollaborators (-5)) fuel (PopcopProtocol.new {})).endpoint.log ∧
      Event.assertionFailed Assertion.downloadSinkNull ∉
        (run (scriptedCollaborators (-5)) fuel (PopcopProtocol.new {})).endpoint.log ∧
      Event.assertionFailed Assertion.downloadStatusZero ∉
        (run (scriptedCollaborators (-5)) fuel (PopcopProtocol.new {})).endpoint.log) :=
  C19_entry_assertions_hold (scriptedCollaborators (-5))
    (fun log h => by simp [scriptedCollaborators, h]) {}

/-! ### The return of `run` -/

theorem run_returned (env : Collaborators) (fuel : Nat) :
    ∀ p q : PopcopProtocol, run env fuel p = Outcome.returned q →
      ∃ pre : List Event, q.log = pre ++ [Event.shouldExit true] ∧
        env.shouldExit pre = true := by
  induction fuel with
  | zero =>
    intro p q h
    cases h
  | succ n ih =>
    intro p q h
    simp only [run] at h
    cases hexit : env.shouldExit p.log with
    | true =>
      simp only [hexit, Bool.not_true] at h
      injection h with h
      subst h
      exact ⟨p.log, rfl, hexit⟩
    | false =>
      simp only [hexit, Bool.not_false, if_true] at h
      cases hloop : loopOnce env (upgradeApp env n) (record (Event.shouldExit false) p) with
      | running r =>
        rw [hloop] at h
        cases h
      | returned r =>
        rw [hloop] at h
        exact ih r q h

theorem run_running (env : Collaborators) (hnever : ∀ log, env.shouldExit log = false)
    (fuel : Nat) : ∀ p : PopcopProtocol, ∃ q, run env fuel p = Outcome.running q := by
  induction fuel with
  | zero => exact fun p => ⟨p, rfl⟩
  | succ n ih =>
    intro p
    simp only [run, hnever p.log, Bool.not_false, if_true]
    cases hloop : loopOnce env (upgradeApp env n) (record (Event.shouldExit false) p) with
    | running r => exact ⟨r, rfl⟩
    | returned r => exact ih r

/-- C17: whatever the collaborators do (frames received, receive timeouts, results of the
sink, results of the certificate primitive), if an execution of `run` returns, then the
last event of its history is a call of `shouldExit` that returned true, made by the loop of
`run` on the history before it; if `shouldExit` returns true at the start, `run` returns at
once; and if `shouldExit` never returns true, `run` does not return, however long it is
run. -/
theorem C17_run_returns_only_on_exit (env : Collaborators) (fuel : Nat)
    (p : PopcopProtocol) :
    (∀ q : PopcopProtocol, run env fuel p = Outcome.returned q →
      ∃ pre : List Event, q.log = pre ++ [Event.shouldExit true] ∧
        env.shouldExit pre = true) ∧
    (env.shouldExit p.log = true →
      run env (fuel + 1) p = Outcome.returned (record (Event.shouldExit true) p)) ∧
    ((∀ log, env.shouldExit log = false) → ∃ q, run env fuel p = Outcome.running q) := by
  refine ⟨run_returned env fuel p, ?_, fun h => run_running env h fuel p⟩
  intro h
  simp [run, h]

/-- C17 on the scripted host, which asks to exit after seven bytes: `run` returns, and the
last event of its history is the call of `shouldExit` that returned true. -/
theorem C17_run_returns_only_on_exit_witness :
    ∃ q : PopcopProtocol,
      run (scriptedCollaborators 0) 20 (PopcopProtocol.new {}) = Outcome.returned q ∧
      ∃ pre : List Event, q.log = pre ++ [Event.shouldExit true] ∧
        (scriptedCollaborators 0).shouldExit pre = true :=
  ⟨_, rfl, (C17_run_returns_only_on_exit (scriptedCollaborators 0) 20
    (PopcopProtocol.new {})).1 _ rfl⟩

/-! ### The first block of a block transfer -/

/-- C21: one iteration of a loop, `loopOnce`, started at any endpoint `p` with any
`upgradeApp`.  The watchdog is reset first and `receive` is attempted on the history that
ends with that reset.  When `receive` times out, or the byte completes neither a frame nor
a span of extraneous data, the iteration returns the endpoint with only these two calls
added to its history: nothing is sent and `download_sink_`, `download_image_reached_` and
`upgrade_status_code_` are unchanged.  A span of extraneous data is passed to
`processExtraneousData` between two resets of the watchdog, with no other call between.
A frame is dispatched by `processFrame` on the history that ends with a reset of the
watchdog, and when `processFrame` returns the next call is a reset of the watchdog, after
which the iteration returns. -/
theorem C21_watchdog_around_dispatch (env : Collaborators)
    (upgradeApp : PopcopProtocol → Outcome PopcopProtocol) (p : PopcopProtocol) :
    (env.receive (p.log ++ [Event.resetWatchdog]) = none →
      loopOnce env upgradeApp p =
        Outcome.returned
          { p with log := p.log ++ [Event.resetWatchdog, Event.receive none] }) ∧
    (∀ byte : Nat, env.receive (p.log ++ [Event.resetWatchdog]) = some byte →
      (env.processNextByte (p.log ++ [Event.resetWatchdog, Event.receive (some byte)]) byte =
          ParserOutput.nothing →
        loopOnce env upgradeApp p =
          Outcome.returned
            { p with log := p.log ++ [Event.resetWatchdog, Event.receive (some byte)] }) ∧
      (∀ ed : List Nat,
        env.processNextByte (p.log ++ [Event.resetWatchdog, Event.receive (some byte)]) byte =
          ParserOutput.extraneousData ed →
        loopOnce env upgradeApp p =
          Outcome.returned
            { p with log := p.log ++ [Event.resetWatchdog, Event.receive (some byte)] ++
                [Event.resetWatchdog, Event.processExtraneousData ed,
                  Event.resetWatchdog] }) ∧
      (∀ frame : Frame,
        env.processNextByte (p.log ++ [Event.resetWatchdog, Event.receive (some byte)]) byte =
          ParserOutput.receivedFrame frame →
        loopOnce env upgradeApp p =
          match processFrame env upgradeApp frame
            { p with log := p.log ++ [Event.resetWatchdog, Event.receive (some byte)] ++
                [Event.resetWatchdog] } with
          | Outcome.running r => Outcome.running r
          | Outcome.returned r =>
            Outcome.returned { r with log := r.log ++ [Event.resetWatchdog] })) ∧
    (∀ res : Option Nat, sent [Event.resetWatchdog, Event.receive res] = []) := by
  refine ⟨?_, ?_, fun res => rfl⟩
  · intro hres
    simp [loopOnce, record, hres]
  · intro byte hres
    refine ⟨?_, ?_, ?_⟩
    · intro hout
      simp [loopOnce, processByte, record, hres, hout]
    · intro ed hout
      simp [loopOnce, processByte, record, hres, hout]
    · intro frame hout
      simp [loopOnce, processByte, record, hres, hout]

/-- C21 on the scripted host, after one byte: the second byte completes an Application
request, which is dispatched, with no session active, between two resets of the
watchdog. -/
theorem C21_watchdog_around_dispatch_witness :
    loopOnce (scriptedCollaborators 0) (upgradeApp (scriptedCollaborators 0) 0)
        { log := [Event.receive (some 9)] } =
      Outcome.returned
        { log := [Event.receive (some 9), Event.resetWatchdog, Event.receive (some 1),
            Event.resetWatchdog,
            Event.writeAndReadBackCertificateOfAuthenticity [7, 7] 2 0 [0, 0],
            Event.send (Message.bootloaderImageDataResponse
              { image_offset := 0
                image_type := BootloaderImageType.Application
                image_data := [] }),
            Event.resetWatchdog] } := by
  rw [((C21_watchdog_around_dispatch (scriptedCollaborators 0)
    (upgradeApp (scriptedCollaborators 0) 0) { log := [Event.receive (some 9)] }).2.1 1
      rfl).2.2 { type_code := 255, payload := [1] } rfl]
  rfl

/-! ### Image data requests are answered once -/

/-- C22: every image data request, of either type and at any endpoint, is answered by
exactly one message, the response with the type and the offset of the request, and the
prototype and the reached flag are unchanged.  For an Application request processed while
no sink is bound, the endpoint is unchanged but for its history, which grows by at most
one call of the certificate primitive (the Application case runs on into the certificate
case) and by the response: the download sink is not called and `download_sink_`,
`download_image_reached_` and `upgrade_status_code_` are unchanged. -/
theorem C22_image_data_response (env : Collaborators)
    (req : BootloaderImageDataRequestMessage) (p : PopcopProtocol) :
    (∃ (evs : List Event) (chunk : List Nat),
      (processBootloaderImageDataRequest env req p).log = p.log ++ evs ∧
      sent evs = [Message.bootloaderImageDataResponse
        { image_offset := req.image_offset
          image_type := req.image_type
          image_data := chunk }]) ∧
    (processBootloaderImageDataRequest env req p).node_info_prototype_ =
      p.node_info_prototype_ ∧
    (processBootloaderImageDataRequest env req p).download_image_reached_ =
      p.download_image_reached_ ∧
    (req.image_type = BootloaderImageType.Application → p.download_sink_ = none →
      ∃ (pre : List Event) (chunk : List Nat),
        processBootloaderImageDataRequest env req p =
          { p with log := p.log ++ pre ++ [Event.send (Message.bootloaderImageDataResponse
            { image_offset := req.image_offset
              image_type := req.image_type
              image_data := chunk })] } ∧
        (pre = [] ∨ ∃ i l r o,
          pre = [Event.writeAndReadBackCertificateOfAuthenticity i l r o]) ∧
        (∀ s d n r, Event.handleNextDataChunk s d n r ∉ pre) ∧
        chunkResults (pre ++ [Event.send (Message.bootloaderImageDataResponse
            { image_offset := req.image_offset
              image_type := req.image_type
              image_data := chunk })]) = []) := by
  obtain ⟨evs, hni, hreached, -⟩ := processBootloaderImageDataRequest_step env req p
  refine ⟨processBootloaderImageDataRequest_sent env req p, hni, hreached, ?_⟩
  intro htype hsink
  obtain ⟨pre, chunk, hcase, hpre⟩ := caseCertificateOfAuthenticity_eq env req p
    { image_offset := req.image_offset, image_type := req.image_type, image_data := [] }
  refine ⟨pre, chunk, ?_, hpre, ?_, ?_⟩
  · have happ : caseApplication env req
        (p, { image_offset := req.image_offset
              image_type := req.image_type
              image_data := [] }) =
        (p, { image_offset := req.image_offset
              image_type := req.image_type
              image_data := [] }) := by
      simp [caseApplication, hsink]
    simp only [processBootloaderImageDataRequest, htype]
    rw [← htype, happ, hcase p rfl]
    simp [send, record]
  · intro s d n r hmem
    rcases hpre with rfl | ⟨i, l, r2, o, rfl⟩
    · cases hmem
    · simp at hmem
  · rcases hpre with rfl | ⟨i, l, r2, o, rfl⟩ <;> simp [chunkResults]

/-- C22 on the quiet collaborators: a full-size Application chunk processed while no sink
is bound leaves the endpoint unchanged but for its history. -/
theorem C22_image_data_response_witness :
    ∃ (pre : List Event) (chunk : List Nat),
      processBootloaderImageDataRequest quietCollaborators fullChunkRequest {} =
        { log := [] ++ pre ++ [Event.send (Message.bootloaderImageDataResponse
          { image_offset := 0
            image_type := BootloaderImageType.Application
            image_data := chunk })] } ∧
      (pre = [] ∨ ∃ i l r o,
        pre = [Event.writeAndReadBackCertificateOfAuthenticity i l r o]) ∧
      (∀ s d n r, Event.handleNextDataChunk s d n r ∉ pre) ∧
      chunkResults (pre ++ [Event.send (Message.bootloaderImageDataResponse
          { image_offset := 0
            image_type := BootloaderImageType.Application
            image_data := chunk })]) = [] :=
  (C22_image_data_response quietCollaborators fullChunkRequest {}).2.2.2 rfl rfl

/-! ### The length passed to the certificate primitive -/

theorem certificateLengthsExact_append {xs ys : List Event}
    (hx : CertificateLengthsExact xs) (hy : CertificateLengthsExact ys) :
    CertificateLengthsExact (xs ++ ys) := by
  intro e he
  rcases List.mem_append.mp he with h | h
  · exact hx e h
  · exact hy e h

theorem certificateLengthsExact_singleton (e : Event) (he : e.certificateLengthExact = true) :
    CertificateLengthsExact [e] := by
  intro x hx
  rw [List.mem_singleton.mp hx]
  exact he

theorem record_lengths (e : Event) (p : PopcopProtocol)
    (he : e.certificateLengthExact = true) (h : CertificateLengthsExact p.log) :
    CertificateLengthsExact (record e p).log :=
  certificateLengthsExact_append h (certificateLengthsExact_singleton e he)

theorem assert_lengths (cond : Bool) (a : Assertion) (p : PopcopProtocol)
    (h : CertificateLengthsExact p.log) : CertificateLengthsExact (assert cond a p).log := by
  cases cond with
  | true => exact h
  | false => exact record_lengths _ p rfl h

theorem sendBootloaderStatusResponse_lengths (env : Collaborators) (p : PopcopProtocol)
    (h : CertificateLengthsExact p.log) :
    CertificateLengthsExact (sendBootloaderStatusResponse env p).log := by
  obtain ⟨pre, heq, hpre, -⟩ := sendBootloaderStatusResponse_eq env p
  rw [heq]
  refine certificateLengthsExact_append (certificateLengthsExact_append h ?_)
    (certificateLengthsExact_singleton _ rfl)
  rcases hpre with rfl | ⟨a, rfl⟩
  · intro e he
    cases he
  · exact certificateLengthsExact_singleton _ rfl

theorem processNodeInfoRequest_lengths (env : Collaborators) (p : PopcopProtocol)
    (h : CertificateLengthsExact p.log) :
    CertificateLengthsExact (processNodeInfoRequest env p).log := by
  obtain ⟨m, heq, -⟩ := processNodeInfoRequest_eq env p
  rw [heq]
  exact certificateLengthsExact_append h (certificateLengthsExact_singleton _ rfl)

theorem processDeviceManagementCommandRequest_lengths (env : Collaborators)
    (req : DeviceManagementCommandRequestMessage) (p : PopcopProtocol)
    (h : CertificateLengthsExact p.log) :
    CertificateLengthsExact (processDeviceManagementCommandRequest env req p).log := by
  unfold processDeviceManagementCommandRequest
  by_cases hc : req.command = DeviceManagementCommand.LaunchBootloader
  · simp only [hc, if_true]
    exact record_lengths _ p rfl h
  · simp only [hc, if_false]
    exact record_lengths _ _ rfl (record_lengths _ p rfl h)

/-- The call of the certificate primitive in the CertificateOfAuthenticity case: made at
most once, only for offset 0 and a chunk of fewer than 255 bytes, on the chunk of the
request, with the length narrowed to 8 bits, which is the size of the chunk. -/
theorem caseCertificateOfAuthenticity_call (env : Collaborators)
    (req : BootloaderImageDataRequestMessage) (p : PopcopProtocol)
    (resp : BootloaderImageDataResponseMessage) :
    ∃ evs : List Event,
      (caseCertificateOfAuthenticity env req (p, resp)).1.log = p.log ++ evs ∧
      (evs = [] ∨ ∃ r o,
        evs = [Event.writeAndReadBackCertificateOfAuthenticity req.image_data
          (req.image_data.length % 256) r o] ∧
        req.image_offset = 0 ∧
        req.image_data.length % 256 = req.image_data.length ∧
        req.image_data.length ≤ 254) ∧
      (254 < req.image_data.length → evs = []) := by
  by_cases hc : req.image_offset = 0 ∧
      req.image_data.length < CertificateOfAuthenticityMaxLength
  · have hlt : req.image_data.length < 255 := hc.2
    have hmod : req.image_data.length % 256 = req.image_data.length :=
      Nat.mod_eq_of_lt (by omega)
    have hle : req.image_data.length ≤ 254 := by omega
    refine ⟨[Event.writeAndReadBackCertificateOfAuthenticity req.image_data
        (req.image_data.length % 256)
        (env.writeAndReadBackCertificateOfAuthenticity p.log req.image_data
          (resize env.ImageDataMaxSize resp.image_data) (req.image_data.length % 256)).1
        (resize (resize env.ImageDataMaxSize resp.image_data).length
          (env.writeAndReadBackCertificateOfAuthenticity p.log req.image_data
            (resize env.ImageDataMaxSize resp.image_data) (req.image_data.length % 256)).2)],
      ?_, Or.inr ⟨_, _, rfl, hc.1, hmod, hle⟩, fun h => absurd hle (by omega)⟩
    by_cases hres : 0 ≤ (env.writeAndReadBackCertificateOfAuthenticity p.log req.image_data
        (resize env.ImageDataMaxSize resp.image_data) (req.image_data.length % 256)).1
    · simp [caseCertificateOfAuthenticity, hc, hres, record]
    · simp [caseCertificateOfAuthenticity, hc, hres, record]
  · refine ⟨[], ?_, Or.inl rfl, fun _ => rfl⟩
    simp [caseCertificateOfAuthenticity, hc]

/-- The history of an image data request: at most one call of the sink, then at most one
call of the certificate primitive, then the response. -/
theorem processBootloaderImageDataRequest_call (env : Collaborators)
    (req : BootloaderImageDataRequestMessage) (p : PopcopProtocol) :
    ∃ (pre call : List Event) (resp : BootloaderImageDataResponseMessage),
      (processBootloaderImageDataRequest env req p).log =
        p.log ++ pre ++ call ++ [Event.send (Message.bootloaderImageDataResponse resp)] ∧
      (pre = [] ∨ ∃ s d n r, pre = [Event.handleNextDataChunk s d n r]) ∧
      (call = [] ∨ ∃ r o,
        call = [Event.writeAndReadBackCertificateOfAuthenticity req.image_data
          (req.image_data.length % 256) r o] ∧
        req.image_offset = 0 ∧
        req.image_data.length % 256 = req.image_data.length ∧
        req.image_data.length ≤ 254) ∧
      (254 < req.image_data.length → call = []) := by
  have key : ∀ (p1 : PopcopProtocol) (resp1 : BootloaderImageDataResponseMessage)
      (pre : List Event), p1.log = p.log ++ pre →
      (pre = [] ∨ ∃ s d n r, pre = [Event.handleNextDataChunk s d n r]) →
      ∃ (pre call : List Event) (resp : BootloaderImageDataResponseMessage),
        (send (Message.bootloaderImageDataResponse
          (caseCertificateOfAuthenticity env req (p1, resp1)).2)
          (caseCertificateOfAuthenticity env req (p1, resp1)).1).log =
          p.log ++ pre ++ call ++ [Event.send (Message.bootloaderImageDataResponse resp)] ∧
        (pre = [] ∨ ∃ s d n r, pre = [Event.handleNextDataChunk s d n r]) ∧
        (call = [] ∨ ∃ r o,
          call = [Event.writeAndReadBackCertificateOfAuthenticity req.image_data
            (req.image_data.length % 256) r o] ∧
          req.image_offset = 0 ∧
          req.image_data.length % 256 = req.image_data.length ∧
          req.image_data.length ≤ 254) ∧
        (254 < req.image_data.length → call = []) := by
    intro p1 resp1 pre hlog hpre
    obtain ⟨call, hcall, hshape, hlong⟩ := caseCertificateOfAuthenticity_call env req p1 resp1
    refine ⟨pre, call, (caseCertificateOfAuthenticity env req (p1, resp1)).2, ?_, hpre,
      hshape, hlong⟩
    simp only [send, record]
    rw [hcall, hlog]
  obtain ⟨evs1, sink, code, resp1, h1, -, hevs1⟩ := caseApplication_eq env req p
    { image_offset := req.image_offset, image_type := req.image_type, image_data := [] }
  unfold processBootloaderImageDataRequest
  cases ht : req.image_type with
  | Application =>
    simp only []
    rw [← ht, h1]
    refine key _ resp1 evs1 rfl ?_
    rcases hevs1 with ⟨h, -⟩ | ⟨s, d, n, r, h, -⟩
    · exact Or.inl h
    · exact Or.inr ⟨s, d, n, r, h⟩
  | CertificateOfAuthenticity =>
    simp only []
    rw [← ht]
    exact key p _ [] (by simp) (Or.inl rfl)

theorem processBootloaderImageDataRequest_lengths (env : Collaborators)
    (req : BootloaderImageDataRequestMessage) (p : PopcopProtocol)
    (h : CertificateLengthsExact p.log) :
    CertificateLengthsExact (processBootloaderImageDataRequest env req p).log := by
  obtain ⟨pre, call, resp, hlog, hpre, hcall, -⟩ :=
    processBootloaderImageDataRequest_call env req p
  rw [hlog]
  refine certificateLengthsExact_append (certificateLengthsExact_append
    (certificateLengthsExact_append h ?_) ?_) (certificateLengthsExact_singleton _ rfl)
  · rcases hpre with rfl | ⟨s, d, n, r, rfl⟩
    · intro e he
      cases he
    · exact certificateLengthsExact_singleton _ rfl
  · rcases hcall with rfl | ⟨r, o, rfl, -, hmod, hle⟩
    · intro e he
      cases he
    · refine certificateLengthsExact_singleton _ ?_
      simp only [Event.certificateLengthExact, CertificateOfAuthenticityMaxLength,
        decide_eq_true_eq]
      exact ⟨hmod, by omega⟩

theorem processBootloaderStatusRequest_lengths (env : Collaborators)
    (up : PopcopProtocol → Outcome PopcopProtocol)
    (hup : ∀ q, CertificateLengthsExact q.log → CertificateLengthsExact (up q).endpoint.log)
    (req : BootloaderStatusRequestMessage) (p : PopcopProtocol)
    (h : CertificateLengthsExact p.log) :
    CertificateLengthsExact (processBootloaderStatusRequest env up req p).endpoint.log := by
  unfold processBootloaderStatusRequest
  cases req.desired_state with
  | NoAppToBoot => exact h
  | BootDelay => exact h
  | BootCancelled =>
    exact sendBootloaderStatusResponse_lengths env _ (record_lengths _ p rfl h)
  | ReadyToBoot =>
    exact sendBootloaderStatusResponse_lengths env _ (record_lengths _ p rfl h)
  | AppUpgradeInProgress =>
    simp only []
    split
    · have h1 := hup { p with download_image_reached_ := false, upgrade_status_code_ := 0 } h
      cases hr : up { p with download_image_reached_ := false, upgrade_status_code_ := 0 } with
      | running q =>
        rw [hr] at h1
        exact h1
      | returned q =>
        rw [hr] at h1
        simp only [Outcome.endpoint] at h1
        simp only []
        split
        · exact sendBootloaderStatusResponse_lengths env q h1
        · exact h1
    · exact sendBootloaderStatusResponse_lengths env p h

theorem processFrame_lengths (env : Collaborators)
    (up : PopcopProtocol → Outcome PopcopProtocol)
    (hup : ∀ q, CertificateLengthsExact q.log → CertificateLengthsExact (up q).endpoint.log)
    (frame : Frame) (p : PopcopProtocol) (h : CertificateLengthsExact p.log) :
    CertificateLengthsExact (processFrame env up frame p).endpoint.log := by
  unfold processFrame
  split
  · simp only []
    split
    · exact processNodeInfoRequest_lengths env p h
    · split
      · exact processDeviceManagementCommandRequest_lengths env _ p h
      · split
        · exact processBootloaderStatusRequest_lengths env up hup _ p h
        · split
          · exact processBootloaderImageDataRequest_lengths env _ p h
          · exact record_lengths _ p rfl h
  · exact record_lengths _ p rfl h

theorem processByte_lengths (env : Collaborators)
    (up : PopcopProtocol → Outcome PopcopProtocol)
    (hup : ∀ q, CertificateLengthsExact q.log → CertificateLengthsExact (up q).endpoint.log)
    (byte : Nat) (p : PopcopProtocol) (h : CertificateLengthsExact p.log) :
    CertificateLengthsExact (processByte env up byte p).endpoint.log := by
  unfold processByte
  cases env.processNextByte p.log byte with
  | nothing => exact h
  | extraneousData ed =>
    exact record_lengths _ _ rfl (record_lengths _ _ rfl (record_lengths _ p rfl h))
  | receivedFrame frame =>
    simp only []
    have h1 := processFrame_lengths env up hup frame (record Event.resetWatchdog p)
      (record_lengths _ p rfl h)
    cases hr : processFrame env up frame (record Event.resetWatchdog p) with
    | running q =>
      rw [hr] at h1
      exact h1
    | returned q =>
      rw [hr] at h1
      exact record_lengths _ q rfl h1

theorem loopOnce_lengths (env : Collaborators)
    (up : PopcopProtocol → Outcome PopcopProtocol)
    (hup : ∀ q, CertificateLengthsExact q.log → CertificateLengthsExact (up q).endpoint.log)
    (p : PopcopProtocol) (h : CertificateLengthsExact p.log) :
    CertificateLengthsExact (loopOnce env up p).endpoint.log := by
  unfold loopOnce
  simp only []
  have h1 : CertificateLengthsExact
      (record (Event.receive (env.receive (record Event.resetWatchdog p).log))
        (record Event.resetWatchdog p)).log :=
    record_lengths _ _ rfl (record_lengths _ p rfl h)
  cases hr : env.receive (record Event.resetWatchdog p).log with
  | none =>
    rw [hr] at h1
    exact h1
  | some byte =>
    rw [hr] at h1
    exact processByte_lengths env up hup byte _ h1

theorem downloadImageLoop_lengths (env : Collaborators)
    (up : PopcopProtocol → Outcome PopcopProtocol)
    (hup : ∀ q, CertificateLengthsExact q.log → CertificateLengthsExact (up q).endpoint.log)
    (fuel : Nat) :
    ∀ p : PopcopProtocol, CertificateLengthsExact p.log →
      CertificateLengthsExact (downloadImageLoop env up fuel p).endpoint.log := by
  induction fuel with
  | zero => exact fun p h => h
  | succ n ih =>
    intro p h
    unfold downloadImageLoop
    simp only []
    have h1 : CertificateLengthsExact
        (record (Event.shouldExit (env.shouldExit p.log)) p).log := record_lengths _ p rfl h
    split
    · have h2 := loopOnce_lengths env up hup _ h1
      cases hr : loopOnce env up (record (Event.shouldExit (env.shouldExit p.log)) p) with
      | running q =>
        rw [hr] at h2
        exact h2
      | returned q =>
        rw [hr] at h2
        exact ih q h2
    · exact h1

theorem downloadImageEntry_lengths (env : Collaborators) (sink : Nat) (p : PopcopProtocol)
    (h : CertificateLengthsExact p.log) :
    CertificateLengthsExact (downloadImageEntry env sink p).log := by
  unfold downloadImageEntry
  simp only []
  refine sendBootloaderStatusResponse_lengths env _ ?_
  exact assert_lengths _ _ _ (assert_lengths _ _ _ (assert_lengths _ _ _
    (record_lengths _ p rfl h)))

/-- The history at the end of a call of `downloadImage`, returned or not. -/
theorem downloadImage_lengths (env : Collaborators)
    (up : PopcopProtocol → Outcome PopcopProtocol)
    (hup : ∀ q, CertificateLengthsExact q.log → CertificateLengthsExact (up q).endpoint.log)
    (fuel : Nat) (sink : Nat) (p : PopcopProtocol) (h : CertificateLengthsExact p.log) :
    (∀ c q, downloadImage env up fuel sink p = Outcome.returned (c, q) →
      CertificateLengthsExact q.log) ∧
    (∀ q, downloadImage env up fuel sink p = Outcome.running q →
      CertificateLengthsExact q.log) := by
  have h1 := downloadImageLoop_lengths env up hup fuel _
    (downloadImageEntry_lengths env sink p h)
  unfold downloadImage
  simp only []
  cases hr : downloadImageLoop env up fuel (downloadImageEntry env sink p) with
  | running q1 =>
    rw [hr] at h1
    refine ⟨fun c q hq => (by cases hq), fun q hq => ?_⟩
    injection hq with hq
    subst hq
    exact h1
  | returned q1 =>
    rw [hr] at h1
    refine ⟨fun c q hq => ?_, fun q hq => by cases hq⟩
    simp only [] at hq
    injection hq with hq
    injection hq with hc hq2
    subst hq2
    exact record_lengths _ _ rfl h1

theorem upgradeAppBody_lengths (env : Collaborators)
    (up : PopcopProtocol → Outcome PopcopProtocol)
    (hup : ∀ q, CertificateLengthsExact q.log → CertificateLengthsExact (up q).endpoint.log)
    (n : Nat) (fuel : Nat) :
    ∀ p : PopcopProtocol, CertificateLengthsExact p.log →
      CertificateLengthsExact (upgradeAppBody env
        (fun sink r => downloadImage env up n sink r) fuel p).endpoint.log := by
  induction fuel with
  | zero => exact fun p h => h
  | succ k ih =>
    intro p h
    unfold upgradeAppBody
    cases env.upgradeAppCallsDownloadImage p.log with
    | none => exact record_lengths _ p rfl h
    | some sink =>
      simp only []
      obtain ⟨hret, hrun⟩ := downloadImage_lengths env up hup n sink p h
      cases hdl : downloadImage env up n sink p with
      | running q1 => exact hrun q1 hdl
      | returned r =>
        obtain ⟨c, q1⟩ := r
        exact ih q1 (hret c q1 hdl)

theorem upgradeApp_lengths (env : Collaborators) (fuel : Nat) :
    ∀ p : PopcopProtocol, CertificateLengthsExact p.log →
      CertificateLengthsExact (upgradeApp env fuel p).endpoint.log := by
  induction fuel with
  | zero => exact fun p h => h
  | succ n ih =>
    intro p h
    unfold upgradeApp
    exact upgradeAppBody_lengths env (upgradeApp env n) ih n n _ (record_lengths _ p rfl h)

theorem run_lengths (env : Collaborators) (fuel : Nat) :
    ∀ p : PopcopProtocol, CertificateLengthsExact p.log →
      CertificateLengthsExact (run env fuel p).endpoint.log := by
  induction fuel with
  | zero => exact fun p h => h
  | succ n ih =>
    intro p h
    unfold run
    simp only []
    have h1 : CertificateLengthsExact
        (record (Event.shouldExit (env.shouldExit p.log)) p).log := record_lengths _ p rfl h
    split
    · have h2 := loopOnce_lengths env (upgradeApp env n) (upgradeApp_lengths env n) _ h1
      cases hr : loopOnce env (upgradeApp env n)
          (record (Event.shouldExit (env.shouldExit p.log)) p) with
      | running q =>
        rw [hr] at h2
        exact h2
      | returned q =>
        rw [hr] at h2
        exact ih q h2
    · exact h1

/-- C23: whenever an image data request makes the endpoint call
`writeAndReadBackCertificateOfAuthenticity`, the chunk passed is that of the request and
the length passed, the size of the chunk narrowed to 8 bits, is the size itself, between 0
and 254; a request whose chunk has 255 bytes or more makes no call of the primitive.
Hence in every execution of `run` on a freshly constructed endpoint, cut at any point or
run to its end, every call of the primitive in the history has a length argument equal to
the size of the chunk passed and at most 254. -/
theorem C23_certificate_length_exact (env : Collaborators) :
    (∀ (req : BootloaderImageDataRequestMessage) (p : PopcopProtocol)
      (d : List Nat) (len : Nat) (r : Int) (o : List Nat),
      Event.writeAndReadBackCertificateOfAuthenticity d len r o ∈
        (processBootloaderImageDataRequest env req p).log.drop p.log.length →
      d = req.image_data ∧ len = req.image_data.length % 256 ∧
      len = req.image_data.length ∧ len ≤ 254 ∧ req.image_offset = 0) ∧
    (∀ (req : BootloaderImageDataRequestMessage) (p : PopcopProtocol),
      254 < req.image_data.length →
      ∀ (d : List Nat) (len : Nat) (r : Int) (o : List Nat),
        Event.writeAndReadBackCertificateOfAuthenticity d len r o ∉
          (processBootloaderImageDataRequest env req p).log.drop p.log.length) ∧
    (∀ (ni : NodeInfoMessage) (fuel : Nat) (d : List Nat) (len : Nat) (r : Int)
      (o : List Nat),
      Event.writeAndReadBackCertificateOfAuthenticity d len r o ∈
        (run env fuel (PopcopProtocol.new ni)).endpoint.log →
      len = d.length ∧ len ≤ 254) := by
  have hmem : ∀ (req : BootloaderImageDataRequestMessage) (p : PopcopProtocol)
      (d : List Nat) (len : Nat) (r : Int) (o : List Nat),
      Event.writeAndReadBackCertificateOfAuthenticity d len r o ∈
        (processBootloaderImageDataRequest env req p).log.drop p.log.length →
      d = req.image_data ∧ len = req.image_data.length % 256 ∧
      len = req.image_data.length ∧ len ≤ 254 ∧ req.image_offset = 0 := by
    intro req p d len r o hin
    obtain ⟨pre, call, resp, hlog, hpre, hcall, -⟩ :=
      processBootloaderImageDataRequest_call env req p
    rw [hlog, List.append_assoc, List.append_assoc, List.drop_left] at hin
    simp only [List.mem_append, List.mem_singleton] at hin
    rcases hin with h | h | h
    · rcases hpre with rfl | ⟨s1, d1, n1, r1, rfl⟩
      · cases h
      · simp at h
    · rcases hcall with rfl | ⟨r1, o1, rfl, hoff, hmod, hle⟩
      · cases h
      · simp only [List.mem_singleton] at h
        injection h with hd hl hr ho
        subst hd hl
        exact ⟨rfl, rfl, hmod, by omega, hoff⟩
    · cases h
  refine ⟨hmem, ?_, ?_⟩
  · intro req p hlong d len r o hin
    obtain ⟨-, -, hlen, hle, -⟩ := hmem req p d len r o hin
    omega
  · intro ni fuel d len r o hin
    have h := run_lengths env fuel (PopcopProtocol.new ni) (fun e he => by cases he) _ hin
    simp only [Event.certificateLengthExact, CertificateOfAuthenticityMaxLength,
      decide_eq_true_eq] at h
    exact ⟨h.1, by omega⟩

/-- C23 on the scripted host, whose frames include an Application chunk outside a session
and a certificate request, both of two bytes: every call of the primitive in the history of
`run` has the size of its chunk as length. -/
theorem C23_certificate_length_exact_witness :
    Event.writeAndReadBackCertificateOfAuthenticity [4, 2] 2 0 [0, 0] ∈
      (run (scriptedCollaborators 0) 20 (PopcopProtocol.new {})).endpoint.log ∧
    (2 = [4, 2].length ∧ 2 ≤ 254) :=
  ⟨by decide, (C23_certificate_length_exact (scriptedCollaborators 0)).2.2 {} 20
    [4, 2] 2 0 [0, 0] (by decide)⟩

end kocherga_popcop
